import Mathlib

/-!
# 3DShapes: a depth-buffered ASCII renderer

Shallow embedding of `src/3DShapes.cpp`.

Modelling conventions.

* C++ `float`/`double` values are idealised as elements of a linear ordered
  field `α` with a floor function (`ℚ` for evaluation, `ℝ` where `cos`, `sin`,
  `sqrt` and `π` are needed).  Rounding error, infinities and NaN are outside
  the model; where the C++ divides by zero the embedding follows the field
  convention `x / 0 = 0`, and every theorem that depends on the value of such a
  quotient carries the hypothesis that the divisor is nonzero.  A named floating
  constant has the value it is stored with (`M_PI` is the binary32 number nearest
  to its literal).
* C++ `int` values are mathematical integers (`Int`); the conversion of a
  floating value to `int` is truncation toward zero.
* The raw buffers `float* z`, `char* b` and `const char* shades` are lists; an
  access outside a list has no defined behaviour in C++ and is the failure
  `none` of the embedding, so "the call returns `some`" says in particular that
  every access of the call was inside its buffer.
-/

namespace Shapes3D

/-! ## Data model -/

/-- Struct for a point in 3D space (`struct Point3D`). -/
structure Point3D (α : Type) where
  x : α
  y : α
  z : α
deriving DecidableEq

/-- The depth buffer `z` and the character buffer `b` that every drawing
routine receives by pointer. -/
structure Buffers (α : Type) where
  z : List α
  b : List Char
deriving DecidableEq

/-- Result of `project_point`: the three reference parameters `x`, `y`, `D`. -/
structure Projected (α : Type) where
  x : Int
  y : Int
  D : α
deriving DecidableEq

/-- Pointer read `buf[o]`: defined only for `0 ≤ o < size`. -/
def readAt {β : Type} (buf : List β) (o : Int) : Option β :=
  if 0 ≤ o then buf[o.toNat]? else none

/-- Pointer write `buf[o] = v`: defined only for `0 ≤ o < size`. -/
def writeAt {β : Type} (buf : List β) (o : Int) (v : β) : Option (List β) :=
  if 0 ≤ o ∧ o.toNat < buf.length then some (buf.set o.toNat v) else none

/-- Both buffers have the size `width * height` that `main` allocates. -/
def Sized {α : Type} (width height : Int) (s : Buffers α) : Prop :=
  (s.z.length : Int) = width * height ∧ (s.b.length : Int) = width * height

section Rasterizer

variable {α : Type} [LinearOrderedField α]

/-- The depth-tested write shared by `draw_line` (lines 51-55) and `fill_face`
(lines 77-81):
`int o = x + width * y;
 if (y >= 0 && y < height && x >= 0 && x < width && D > z[o]) { z[o] = D; b[o] = ch; }`.
The `&&` chain is short-circuit, so `z[o]` is read only after the four bounds
comparisons succeeded. -/
def depth_write (x y : Int) (D : α) (ch : Char) (width height : Int)
    (s : Buffers α) : Option (Buffers α) :=
  let o : Int := x + width * y
  if y ≥ 0 ∧ y < height ∧ x ≥ 0 ∧ x < width then
    match readAt s.z o with
    | none => none
    | some zo =>
      if D > zo then
        match writeAt s.z o D, writeAt s.b o ch with
        | some z1, some b1 => some { z := z1, b := b1 }
        | _, _ => none
      else some s
  else some s

/-- The sample of `draw_line` for loop index `i`, lines 40-45. -/
def line_sample (p1 p2 : Point3D α) (i : Nat) : Point3D α :=
  let steps : Nat := 20
  let t : α := (i : α) / (steps : α)
  { x := p1.x * (1 - t) + p2.x * t,
    y := p1.y * (1 - t) + p2.y * t,
    z := p1.z * (1 - t) + p2.z * t }

/-- The sample of `fill_face` for loop indices `i`, `j`, lines 64-71. -/
def face_sample (p1 p2 p3 p4 : Point3D α) (i j : Nat) : Point3D α :=
  let steps : Nat := 20
  let u : α := (i : α) / (steps : α)
  let v : α := (j : α) / (steps : α)
  { x := p1.x * (1 - u) * (1 - v) + p2.x * u * (1 - v) + p3.x * u * v + p4.x * (1 - u) * v,
    y := p1.y * (1 - u) * (1 - v) + p2.y * u * (1 - v) + p3.y * u * v + p4.y * (1 - u) * v,
    z := p1.z * (1 - u) * (1 - v) + p2.z * u * (1 - v) + p3.z * u * v + p4.z * (1 - u) * v }

/-- Body of `Shape::rotate_point`, lines 23-26, once the four values
`cosA`, `sinA`, `cosB`, `sinB` of line 22 are known. -/
def rotate_with (p : Point3D α) (cosA sinA cosB sinB : α) : Point3D α :=
  let nx : α := p.x * cosB - p.z * sinB
  let ny : α := p.x * sinA * sinB + p.y * cosA + p.z * sinA * cosB
  let nz : α := p.x * cosA * sinB - p.y * sinA + p.z * cosA * cosB
  { x := nx, y := ny, z := nz }

/-- Line 134 of `Cube::draw` (197 of `Pyramid::draw`, 273 of `Sphere::draw`):
the dot product of the face normal and the light direction. -/
def light_intensity (normal lightDir : Point3D α) : α :=
  normal.x * lightDir.x + normal.y * lightDir.y + normal.z * lightDir.z

variable [FloorRing α]

/-- Implicit or explicit C++ conversion of a floating value to `int`: the
fractional part is discarded (truncation toward zero). -/
def toInt (r : α) : Int :=
  if 0 ≤ r then ⌊r⌋ else ⌈r⌉

/-- `Shape::project_point`, lines 30-34.  `height / 2` is a division of two
`int`s, hence the truncating integer quotient. -/
def project_point (p : Point3D α) (offsetX offsetY : α) (_width height : Int) :
    Projected α :=
  let D : α := 1 / (p.z + 5)
  let x : Int := toInt (offsetX + 30 * D * p.x)
  let y : Int := toInt (offsetY + ((Int.tdiv height 2 : Int) : α) + 15 * D * p.y)
  { x := x, y := y, D := D }

/-- Body of the loop of `draw_line`, lines 40-55. -/
def draw_line_step (p1 p2 : Point3D α) (ch : Char) (offsetX offsetY : α)
    (width height : Int) (s : Buffers α) (i : Nat) : Option (Buffers α) :=
  let q := project_point (line_sample p1 p2 i) offsetX offsetY width height
  depth_write q.x q.y q.D ch width height s

/-- `Shape::draw_line`, lines 37-57: `for (int i = 0; i <= steps; i++)`. -/
def draw_line (p1 p2 : Point3D α) (s : Buffers α) (ch : Char) (offsetX offsetY : α)
    (width height : Int) : Option (Buffers α) :=
  (List.range 21).foldlM (draw_line_step p1 p2 ch offsetX offsetY width height) s

/-- Body of the inner loop of `fill_face`, lines 64-81. -/
def fill_face_step (p1 p2 p3 p4 : Point3D α) (shadeChar : Char) (offsetX offsetY : α)
    (width height : Int) (i : Nat) (s : Buffers α) (j : Nat) : Option (Buffers α) :=
  let q := project_point (face_sample p1 p2 p3 p4 i j) offsetX offsetY width height
  depth_write q.x q.y q.D shadeChar width height s

/-- The inner loop of `fill_face` for a fixed `i`: `for (int j = 0; j <= steps; j++)`. -/
def fill_face_row (p1 p2 p3 p4 : Point3D α) (shadeChar : Char) (offsetX offsetY : α)
    (width height : Int) (s : Buffers α) (i : Nat) : Option (Buffers α) :=
  (List.range 21).foldlM
    (fill_face_step p1 p2 p3 p4 shadeChar offsetX offsetY width height i) s

/-- `Shape::fill_face`, lines 60-84: `for (int i = 0; i <= steps; i++)` around the
inner loop. -/
def fill_face (p1 p2 p3 p4 : Point3D α) (s : Buffers α) (shadeChar : Char)
    (offsetX offsetY : α) (width height : Int) : Option (Buffers α) :=
  (List.range 21).foldlM
    (fill_face_row p1 p2 p3 p4 shadeChar offsetX offsetY width height) s

/-- Lines 135-137 of `Cube::draw` (198-200, 274-276 in the other two):
`int N = (int)((lightIntensity + 1) * 5.5); if (N < 0) N = 0; if (N > 11) N = 11;`. -/
def shade_bucket (lightIntensity : α) : Int :=
  let N : Int := toInt ((lightIntensity + 1) * 5.5)
  let N : Int := if N < 0 then 0 else N
  if N > 11 then 11 else N

/-- The bucket as the specification words it:
`N = clamp(round((intensity+1)×5.5), 0, 11)`. -/
def spec_bucket (intensity : α) : Int :=
  max 0 (min 11 (round ((intensity + 1) * 5.5)))

end Rasterizer

/-! ## Shapes -/

section Topology

variable {α : Type} [LinearOrderedField α]

/-- The data members of `class Cube`. -/
structure Cube (α : Type) where
  vertices : List (Point3D α)
  faces : List (List Int)
  scale : α

/-- The data members of `class Pyramid`. -/
structure Pyramid (α : Type) where
  vertices : List (Point3D α)
  faces : List (List Int)
  scale : α

/-- The data members of `class Sphere`. -/
structure Sphere (α : Type) where
  vertices : List (Point3D α)
  faces : List (List Int)
  scale : α

/-- Constructor `Cube::Cube(float scale)`, lines 90-104. -/
def Cube.new (scale : α) : Cube α :=
  { vertices := [
      ⟨-1, -1, -1⟩, ⟨1, -1, -1⟩, ⟨1, 1, -1⟩, ⟨-1, 1, -1⟩,
      ⟨-1, -1, 1⟩, ⟨1, -1, 1⟩, ⟨1, 1, 1⟩, ⟨-1, 1, 1⟩],
    faces := [
      [0, 1, 2, 3],
      [4, 5, 6, 7],
      [0, 1, 5, 4],
      [1, 2, 6, 5],
      [2, 3, 7, 6],
      [3, 0, 4, 7]],
    scale := scale }

/-- Constructor `Pyramid::Pyramid(float scale)`, lines 153-168. -/
def Pyramid.new (scale : α) : Pyramid α :=
  { vertices := [
      ⟨0, 0, 1⟩,
      ⟨-1, -1, -1⟩,
      ⟨1, -1, -1⟩,
      ⟨1, 1, -1⟩,
      ⟨-1, 1, -1⟩],
    faces := [
      [0, 1, 2],
      [0, 2, 3],
      [0, 3, 4],
      [0, 4, 1]],
    scale := scale }

/-- The face loop of the constructor `Sphere::Sphere`, lines 232-239:
two triangles per grid cell. -/
def sphere_faces (latitudeDivisions longitudeDivisions : Int) : List (List Int) :=
  (List.range latitudeDivisions.toNat).flatMap (fun (i : Nat) =>
    (List.range longitudeDivisions.toNat).flatMap (fun (j : Nat) =>
      let first : Int := (i : Int) * (longitudeDivisions + 1) + (j : Int)
      let second : Int := first + longitudeDivisions + 1
      [[first, second, first + 1], [second, second + 1, first + 1]]))

end Topology

section RealShapes

/-- `Shape::rotate_point`, lines 21-27. -/
noncomputable def rotate_point (p : Point3D ℝ) (A B : ℝ) : Point3D ℝ :=
  rotate_with p (Real.cos A) (Real.sin A) (Real.cos B) (Real.sin B)

/-- The member `const float M_PI = 3.14159265358979323846;` of `Shape`, line 17.
The constant is a `float`, so it holds the binary32 number nearest to the
literal, `13176795 / 2^22 = 3.14159274101257324...`, which is slightly above π. -/
noncomputable def M_PI : ℝ := 13176795 / 4194304

/-- The vertex loop of the constructor `Sphere::Sphere`, lines 218-229. -/
noncomputable def sphere_vertices (latitudeDivisions longitudeDivisions : Int) :
    List (Point3D ℝ) :=
  (List.range (latitudeDivisions + 1).toNat).flatMap (fun (i : Nat) =>
    let theta : ℝ := M_PI * (i : ℝ) / (latitudeDivisions : ℝ)
    (List.range (longitudeDivisions + 1).toNat).map (fun (j : Nat) =>
      let phi : ℝ := 2 * M_PI * (j : ℝ) / (longitudeDivisions : ℝ)
      { x := Real.sin theta * Real.cos phi,
        y := Real.sin theta * Real.sin phi,
        z := Real.cos theta }))

/-- The vertex that the constructor `Sphere::Sphere` pushes for the loop indices
`i`, `j`, lines 219-226. -/
noncomputable def sphere_point (latitudeDivisions longitudeDivisions : Int) (i j : Nat) :
    Point3D ℝ :=
  let theta : ℝ := M_PI * (i : ℝ) / (latitudeDivisions : ℝ)
  let phi : ℝ := 2 * M_PI * (j : ℝ) / (longitudeDivisions : ℝ)
  { x := Real.sin theta * Real.cos phi,
    y := Real.sin theta * Real.sin phi,
    z := Real.cos theta }

/-- Constructor `Sphere::Sphere(int latitudeDivisions, int longitudeDivisions, float scale)`,
lines 216-240. -/
noncomputable def Sphere.new (latitudeDivisions longitudeDivisions : Int) (scale : ℝ) :
    Sphere ℝ :=
  { vertices := sphere_vertices latitudeDivisions longitudeDivisions,
    faces := sphere_faces latitudeDivisions longitudeDivisions,
    scale := scale }

/-- The first loop of each `draw` (lines 111-116, 175-180, 247-256): every
vertex is scaled and then rotated. -/
noncomputable def rotated_vertices (vertices : List (Point3D ℝ)) (scale A B : ℝ) :
    List (Point3D ℝ) :=
  vertices.map (fun vertex =>
    let scaledVertex : Point3D ℝ :=
      { x := vertex.x * scale, y := vertex.y * scale, z := vertex.z * scale }
    rotate_point scaledVertex A B)

/-- The lookup `rotatedVertices[face[k]]` of the `draw` methods. -/
def vertex_at (rotatedVertices : List (Point3D ℝ)) (face : List Int) (k : Nat) :
    Option (Point3D ℝ) :=
  match face[k]? with
  | none => none
  | some idx => readAt rotatedVertices idx

/-- Lines 124-132 of `Cube::draw` (187-195, 263-271 in the other two): the
normalised cross product of the edges `p2 - p1` and `p3 - p1`. -/
noncomputable def face_normal (p1 p2 p3 : Point3D ℝ) : Point3D ℝ :=
  let u : Point3D ℝ := { x := p2.x - p1.x, y := p2.y - p1.y, z := p2.z - p1.z }
  let v : Point3D ℝ := { x := p3.x - p1.x, y := p3.y - p1.y, z := p3.z - p1.z }
  let normal : Point3D ℝ :=
    { x := u.y * v.z - u.z * v.y,
      y := u.z * v.x - u.x * v.z,
      z := u.x * v.y - u.y * v.x }
  let normalLength : ℝ :=
    Real.sqrt (normal.x * normal.x + normal.y * normal.y + normal.z * normal.z)
  { x := normal.x / normalLength, y := normal.y / normalLength, z := normal.z / normalLength }

/-- Lines 134-137: the shading bucket `N` that a `draw` method computes for
the face with first three corners `p1`, `p2`, `p3`. -/
noncomputable def face_bucket (p1 p2 p3 lightDir : Point3D ℝ) : Int :=
  shade_bucket (light_intensity (face_normal p1 p2 p3) lightDir)

/-- Lines 124-139: the glyph `shadeChar = shades[N]` of a face. -/
noncomputable def face_shade (p1 p2 p3 : Point3D ℝ) (shades : List Char)
    (lightDir : Point3D ℝ) : Option Char :=
  readAt shades (face_bucket p1 p2 p3 lightDir)

/-- Body of the face loop of `Cube::draw`, lines 119-140. -/
noncomputable def Cube.draw_face (rotatedVertices : List (Point3D ℝ)) (shades : List Char)
    (lightDir : Point3D ℝ) (offsetX offsetY : ℝ) (width height : Int)
    (s : Buffers ℝ) (face : List Int) : Option (Buffers ℝ) :=
  match vertex_at rotatedVertices face 0, vertex_at rotatedVertices face 1,
    vertex_at rotatedVertices face 2, vertex_at rotatedVertices face 3 with
  | some p1, some p2, some p3, some p4 =>
    match face_shade p1 p2 p3 shades lightDir with
    | some shadeChar => fill_face p1 p2 p3 p4 s shadeChar offsetX offsetY width height
    | none => none
  | _, _, _, _ => none

/-- `Cube::draw`, lines 110-142. -/
noncomputable def Cube.draw (c : Cube ℝ) (A B : ℝ) (s : Buffers ℝ) (shades : List Char)
    (lightDir : Point3D ℝ) (offsetX offsetY : ℝ) (width height : Int) :
    Option (Buffers ℝ) :=
  let rotatedVertices := rotated_vertices c.vertices c.scale A B
  c.faces.foldlM
    (Cube.draw_face rotatedVertices shades lightDir offsetX offsetY width height) s

/-- Body of the face loop of `Pyramid::draw` (lines 183-203) and of
`Sphere::draw` (lines 259-279), which are the same text: the third corner is
passed twice to `fill_face`. -/
noncomputable def draw_triangle (rotatedVertices : List (Point3D ℝ)) (shades : List Char)
    (lightDir : Point3D ℝ) (offsetX offsetY : ℝ) (width height : Int)
    (s : Buffers ℝ) (face : List Int) : Option (Buffers ℝ) :=
  match vertex_at rotatedVertices face 0, vertex_at rotatedVertices face 1,
    vertex_at rotatedVertices face 2 with
  | some p1, some p2, some p3 =>
    match face_shade p1 p2 p3 shades lightDir with
    | some shadeChar => fill_face p1 p2 p3 p3 s shadeChar offsetX offsetY width height
    | none => none
  | _, _, _ => none

/-- `Pyramid::draw`, lines 174-205. -/
noncomputable def Pyramid.draw (c : Pyramid ℝ) (A B : ℝ) (s : Buffers ℝ) (shades : List Char)
    (lightDir : Point3D ℝ) (offsetX offsetY : ℝ) (width height : Int) :
    Option (Buffers ℝ) :=
  let rotatedVertices := rotated_vertices c.vertices c.scale A B
  c.faces.foldlM
    (draw_triangle rotatedVertices shades lightDir offsetX offsetY width height) s

/-- `Sphere::draw`, lines 246-281. -/
noncomputable def Sphere.draw (c : Sphere ℝ) (A B : ℝ) (s : Buffers ℝ) (shades : List Char)
    (lightDir : Point3D ℝ) (offsetX offsetY : ℝ) (width height : Int) :
    Option (Buffers ℝ) :=
  let rotatedVertices := rotated_vertices c.vertices c.scale A B
  c.faces.foldlM
    (draw_triangle rotatedVertices shades lightDir offsetX offsetY width height) s

/-- The shading table of `main`, line 307. -/
def shades : List Char := ".,-~:;=!*#$@".toList

/-- The light direction of `main`, line 306. -/
def lightDir : Point3D ℝ := { x := 0, y := 0, z := -1 }

end RealShapes

/-! ## Face geometry, the frame of `main`, and sequences of calls -/

section Frame

variable {α : Type} [LinearOrderedField α]

/-- Lines 124-130 of `Cube::draw` (187-193, 263-269 in the other two): the
cross product of the edge vectors `u = p2 - p1` and `v = p3 - p1`, before it is
normalised. -/
def face_cross (p1 p2 p3 : Point3D α) : Point3D α :=
  let u : Point3D α := { x := p2.x - p1.x, y := p2.y - p1.y, z := p2.z - p1.z }
  let v : Point3D α := { x := p3.x - p1.x, y := p3.y - p1.y, z := p3.z - p1.z }
  { x := u.y * v.z - u.z * v.y,
    y := u.z * v.x - u.x * v.z,
    z := u.x * v.y - u.y * v.x }

/-- Line 131 (194, 270): `normalLength`, the length of the cross product. -/
noncomputable def normal_length (p1 p2 p3 : Point3D ℝ) : ℝ :=
  let normal : Point3D ℝ := face_cross p1 p2 p3
  Real.sqrt (normal.x * normal.x + normal.y * normal.y + normal.z * normal.z)

/-- Lines 310-311 of `main`: `memset(b, 32, width * height)` and
`memset(z, 0, width * height * sizeof(float))`. -/
def clear_buffers (width height : Int) : Buffers α :=
  { z := List.replicate (width * height).toNat 0,
    b := List.replicate (width * height).toNat (Char.ofNat 32) }

/-- The argument of `putchar` on line 323: `k % width ? b[k] : 10`.  The C++
`%` on `int` is the remainder of the truncating division. -/
def emit_char (b : List Char) (width : Int) (k : Int) : Option Char :=
  if Int.tmod k width ≠ 0 then readAt b k else some (Char.ofNat 10)

/-- The display loop of `main`, lines 322-324:
`for (k = 0; k < width * height; k++) putchar(k % width ? b[k] : 10);`,
returning the characters written. -/
def emit_frame (b : List Char) (width height : Int) : Option (List Char) :=
  (List.range (width * height).toNat).mapM (fun (k : Nat) => emit_char b width (k : Int))

/-- The cursor-home sequence `ESC [ H` printed on line 321. -/
def cursor_home : List Char := [Char.ofNat 27, '[', 'H']

/-- Lines 321-324: everything one frame writes to the terminal. -/
def print_frame (b : List Char) (width height : Int) : Option (List Char) :=
  (emit_frame b width height).map (fun out => cursor_home ++ out)

/-- The shapes constructed on lines 302-304 of `main`. -/
noncomputable def pyramid : Pyramid ℝ := Pyramid.new 1.5

/-- The cube of `main`, line 303. -/
noncomputable def cube : Cube ℝ := Cube.new 1.5

/-- The sphere of `main`, line 304. -/
noncomputable def sphere : Sphere ℝ := Sphere.new 10 10 2.0

variable [FloorRing α]

/-- One call of a rasterizer routine on the shared buffers: `draw_line` or
`fill_face`, with all its arguments but the buffers and the screen size. -/
inductive DrawCall (α : Type) where
  | line (p1 p2 : Point3D α) (ch : Char) (offsetX offsetY : α)
  | face (p1 p2 p3 p4 : Point3D α) (shadeChar : Char) (offsetX offsetY : α)

/-- Performing one call on the buffers. -/
def DrawCall.run (width height : Int) (s : Buffers α) : DrawCall α → Option (Buffers α)
  | DrawCall.line p1 p2 ch offsetX offsetY =>
    draw_line p1 p2 s ch offsetX offsetY width height
  | DrawCall.face p1 p2 p3 p4 shadeChar offsetX offsetY =>
    fill_face p1 p2 p3 p4 s shadeChar offsetX offsetY width height

/-- Performing a sequence of calls, first to last, within one frame. -/
def run_calls (width height : Int) (calls : List (DrawCall α)) (s : Buffers α) :
    Option (Buffers α) :=
  calls.foldlM (DrawCall.run width height) s

end Frame

/-! ## Buffer access lemmas -/

theorem readAt_eq_some_iff {β : Type} (buf : List β) (o : Int) (v : β) :
    readAt buf o = some v ↔ 0 ≤ o ∧ buf[o.toNat]? = some v := by
  unfold readAt
  by_cases h : 0 ≤ o <;> simp [h]

theorem readAt_lt_length {β : Type} {buf : List β} {o : Int} {v : β}
    (h : readAt buf o = some v) : 0 ≤ o ∧ o.toNat < buf.length := by
  rw [readAt_eq_some_iff] at h
  obtain ⟨h0, h1⟩ := h
  exact ⟨h0, (List.getElem?_eq_some.1 h1).1⟩

theorem readAt_isSome_of_lt {β : Type} (buf : List β) (o : Int) (h0 : 0 ≤ o)
    (h1 : o.toNat < buf.length) : ∃ v, readAt buf o = some v := by
  unfold readAt
  exact ⟨buf[o.toNat], by simp [h0, List.getElem?_eq_getElem h1]⟩

theorem writeAt_of_lt {β : Type} (buf : List β) (o : Int) (v : β) (h0 : 0 ≤ o)
    (h1 : o.toNat < buf.length) : writeAt buf o v = some (buf.set o.toNat v) := by
  unfold writeAt
  simp [h0, h1]

theorem readAt_set_same {β : Type} (buf : List β) (o : Int) (v : β) (h0 : 0 ≤ o)
    (h1 : o.toNat < buf.length) : readAt (buf.set o.toNat v) o = some v := by
  unfold readAt
  simp [h0, h1]

theorem readAt_set_other {β : Type} (buf : List β) (o k : Int) (v : β) (h0 : 0 ≤ o)
    (hk : k ≠ o) : readAt (buf.set o.toNat v) k = readAt buf k := by
  unfold readAt
  by_cases h : 0 ≤ k
  · have hne : o.toNat ≠ k.toNat := by omega
    simp [h, List.getElem?_set_ne hne]
  · simp [h]

/-- A loop whose body always succeeds on states satisfying `P`, keeps `P` and
relates the state before to the state after by a preorder `R`, does the same as
a whole. -/
theorem foldlM_option_invariant {σ ι : Type} (f : σ → ι → Option σ) (P : σ → Prop)
    (R : σ → σ → Prop) (hrefl : ∀ s, R s s) (htrans : ∀ a b c, R a b → R b c → R a c)
    (l : List ι)
    (hstep : ∀ s i, i ∈ l → P s → ∃ s', f s i = some s' ∧ P s' ∧ R s s') :
    ∀ s, P s → ∃ s', l.foldlM f s = some s' ∧ P s' ∧ R s s' := by
  induction l with
  | nil =>
    intro s hs
    exact ⟨s, rfl, hs, hrefl s⟩
  | cons a l ih =>
    intro s hs
    obtain ⟨s1, h1, hP1, hR1⟩ := hstep s a (List.mem_cons_self a l) hs
    have hstep2 : ∀ s i, i ∈ l → P s → ∃ s', f s i = some s' ∧ P s' ∧ R s s' :=
      fun s i hi hP => hstep s i (List.mem_cons_of_mem a hi) hP
    obtain ⟨s2, h2, hP2, hR2⟩ := ih hstep2 s1 hP1
    refine ⟨s2, ?_, hP2, htrans _ _ _ hR1 hR2⟩
    rw [List.foldlM_cons, h1]
    exact h2

section RasterizerLemmas

variable {α : Type} [LinearOrderedField α]

/-- In-bounds coordinates give an in-bounds linear index. -/
theorem index_in_range (x y width height : Int)
    (hg : y ≥ 0 ∧ y < height ∧ x ≥ 0 ∧ x < width) :
    0 ≤ x + width * y ∧ x + width * y < width * height := by
  obtain ⟨hy0, hy1, hx0, hx1⟩ := hg
  have hw : 0 < width := lt_of_le_of_lt hx0 hx1
  constructor
  · positivity
  · have h1 : width * (y + 1) ≤ width * height := by
      apply mul_le_mul_of_nonneg_left _ hw.le
      omega
    linarith

/-- Two pixels of the screen with the same linear index are the same pixel. -/
theorem index_injective (x y x1 y1 width : Int) (hx : 0 ≤ x ∧ x < width)
    (hx1 : 0 ≤ x1 ∧ x1 < width) (h : x + width * y = x1 + width * y1) :
    x = x1 ∧ y = y1 := by
  have hy : y = y1 := by
    rcases lt_trichotomy y y1 with hlt | heq | hgt
    · exfalso
      have : width * (y + 1) ≤ width * y1 :=
        mul_le_mul_of_nonneg_left (by omega) (by omega)
      nlinarith
    · exact heq
    · exfalso
      have : width * (y1 + 1) ≤ width * y :=
        mul_le_mul_of_nonneg_left (by omega) (by omega)
      nlinarith
  subst hy
  exact ⟨by linarith, rfl⟩

/-- A sample outside the screen leaves the buffers as they are, whatever they
are: no cell is read or written. -/
theorem depth_write_outside (x y : Int) (D : α) (ch : Char) (width height : Int)
    (s : Buffers α) (hg : ¬ (y ≥ 0 ∧ y < height ∧ x ≥ 0 ∧ x < width)) :
    depth_write x y D ch width height s = some s := by
  unfold depth_write
  simp only [hg, if_false]

/-- A sample inside the screen reads `z[o]`: on a buffer without that cell the
access fails. -/
theorem depth_write_reads (x y : Int) (D : α) (ch : Char) (width height : Int)
    (s : Buffers α) (hg : y ≥ 0 ∧ y < height ∧ x ≥ 0 ∧ x < width)
    (hr : readAt s.z (x + width * y) = none) :
    depth_write x y D ch width height s = none := by
  unfold depth_write
  simp only [hg, and_self, if_true, hr]

/-- The depth-tested write at a pixel inside the screen, with the stored depth
`zo` known. -/
theorem depth_write_in_bounds (x y width height : Int) (D zo : α) (ch : Char)
    (s : Buffers α) (hg : y ≥ 0 ∧ y < height ∧ x ≥ 0 ∧ x < width)
    (hr : readAt s.z (x + width * y) = some zo) (hb : s.b.length = s.z.length) :
    depth_write x y D ch width height s =
      some (if D > zo then
        { z := s.z.set (x + width * y).toNat D, b := s.b.set (x + width * y).toNat ch }
        else s) := by
  obtain ⟨h0, h1⟩ := readAt_lt_length hr
  unfold depth_write
  simp only [hg, and_self, if_true, hr]
  by_cases hD : D > zo
  · simp only [hD, if_true]
    rw [writeAt_of_lt _ _ _ h0 h1, writeAt_of_lt _ _ _ h0 (hb ▸ h1)]
  · simp only [hD, if_false]

/-- On buffers of size `width * height` the depth-tested write always
succeeds, keeps both sizes, and changes no cell other than the one of an
on-screen sample. -/
theorem depth_write_sized (x y : Int) (D : α) (ch : Char) (width height : Int)
    (s : Buffers α) (hs : Sized width height s) :
    ∃ s1, depth_write x y D ch width height s = some s1 ∧ Sized width height s1 ∧
      ∀ k : Int, (¬ (y ≥ 0 ∧ y < height ∧ x ≥ 0 ∧ x < width) ∨ k ≠ x + width * y) →
        readAt s1.z k = readAt s.z k ∧ readAt s1.b k = readAt s.b k := by
  by_cases hg : y ≥ 0 ∧ y < height ∧ x ≥ 0 ∧ x < width
  · obtain ⟨ho0, ho1⟩ := index_in_range x y width height hg
    have hlz : (x + width * y).toNat < s.z.length := by
      have := hs.1
      omega
    have hlen : s.b.length = s.z.length := by
      have h1 := hs.1
      have h2 := hs.2
      omega
    obtain ⟨zo, hzo⟩ := readAt_isSome_of_lt s.z _ ho0 hlz
    rw [depth_write_in_bounds x y width height D zo ch s hg hzo hlen]
    by_cases hD : D > zo
    · simp only [hD, if_true]
      refine ⟨_, rfl, ?_, ?_⟩
      · constructor
        · simpa using hs.1
        · simpa using hs.2
      · intro k hk
        have hne : k ≠ x + width * y := by
          rcases hk with hk | hk
          · exact absurd hg hk
          · exact hk
        exact ⟨readAt_set_other _ _ _ _ ho0 hne, readAt_set_other _ _ _ _ ho0 hne⟩
    · simp only [hD, if_false]
      exact ⟨s, rfl, hs, fun _ _ => ⟨rfl, rfl⟩⟩
  · rw [depth_write_outside x y D ch width height s hg]
    exact ⟨s, rfl, hs, fun _ _ => ⟨rfl, rfl⟩⟩

end RasterizerLemmas
section LoopLemmas

variable {α : Type} [LinearOrderedField α] [FloorRing α]

/-- On buffers of size `width * height`, `draw_line` succeeds and keeps the sizes. -/
theorem draw_line_total (p1 p2 : Point3D α) (ch : Char) (offsetX offsetY : α)
    (width height : Int) (s : Buffers α) (hs : Sized width height s) :
    ∃ s1, draw_line p1 p2 s ch offsetX offsetY width height = some s1 ∧
      Sized width height s1 := by
  obtain ⟨s1, h1, hP, _⟩ := foldlM_option_invariant
    (draw_line_step p1 p2 ch offsetX offsetY width height) (Sized width height)
    (fun _ _ => True) (fun _ => trivial) (fun _ _ _ _ _ => trivial) (List.range 21)
    (fun t i _ ht => by
      obtain ⟨t1, e1, hP1, _⟩ := depth_write_sized
        (project_point (line_sample p1 p2 i) offsetX offsetY width height).x
        (project_point (line_sample p1 p2 i) offsetX offsetY width height).y
        (project_point (line_sample p1 p2 i) offsetX offsetY width height).D
        ch width height t ht
      exact ⟨t1, e1, hP1, trivial⟩) s hs
  exact ⟨s1, h1, hP⟩

/-- On buffers of size `width * height`, `fill_face` succeeds and keeps the sizes. -/
theorem fill_face_total (p1 p2 p3 p4 : Point3D α) (ch : Char) (offsetX offsetY : α)
    (width height : Int) (s : Buffers α) (hs : Sized width height s) :
    ∃ s1, fill_face p1 p2 p3 p4 s ch offsetX offsetY width height = some s1 ∧
      Sized width height s1 := by
  obtain ⟨s1, h1, hP, _⟩ := foldlM_option_invariant
    (fill_face_row p1 p2 p3 p4 ch offsetX offsetY width height) (Sized width height)
    (fun _ _ => True) (fun _ => trivial) (fun _ _ _ _ _ => trivial) (List.range 21)
    (fun t i _ ht => foldlM_option_invariant
      (fill_face_step p1 p2 p3 p4 ch offsetX offsetY width height i) (Sized width height)
      (fun _ _ => True) (fun _ => trivial) (fun _ _ _ _ _ => trivial) (List.range 21)
      (fun t j _ ht => by
        obtain ⟨t1, e1, hP1, _⟩ := depth_write_sized
          (project_point (face_sample p1 p2 p3 p4 i j) offsetX offsetY width height).x
          (project_point (face_sample p1 p2 p3 p4 i j) offsetX offsetY width height).y
          (project_point (face_sample p1 p2 p3 p4 i j) offsetX offsetY width height).D
          ch width height t ht
        exact ⟨t1, e1, hP1, trivial⟩) t ht) s hs
  exact ⟨s1, h1, hP⟩

end LoopLemmas

/-! ## Claims about the rasterizer -/

section RasterizerClaims

variable {α : Type} [LinearOrderedField α]

/-- C1. Depth test is order-independent and closer wins: at a pixel inside the
screen whose stored depth `z0` is below `d2`, the two depth-tested writes with
inverse depths `d1 < d2` and glyphs `g1`, `g2` succeed in either order, both
orders end in the same buffers, and the pixel then holds depth `d2` and glyph
`g2`. -/
theorem depth_test_closer_wins (x y width height : Int) (s : Buffers α)
    (z0 d1 d2 : α) (g1 g2 : Char)
    (hg : y ≥ 0 ∧ y < height ∧ x ≥ 0 ∧ x < width) (hs : Sized width height s)
    (h0 : readAt s.z (x + width * y) = some z0) (hz0 : z0 < d2) (h12 : d1 < d2) :
    ∃ s12 s21 : Buffers α,
      (depth_write x y d1 g1 width height s).bind (depth_write x y d2 g2 width height)
        = some s12 ∧
      (depth_write x y d2 g2 width height s).bind (depth_write x y d1 g1 width height)
        = some s21 ∧
      s12 = s21 ∧
      readAt s12.z (x + width * y) = some d2 ∧ readAt s12.b (x + width * y) = some g2 ∧
      readAt s21.z (x + width * y) = some d2 ∧ readAt s21.b (x + width * y) = some g2 := by
  obtain ⟨ho0, ho1⟩ := readAt_lt_length h0
  have hlen : s.b.length = s.z.length := by
    have h1 := hs.1
    have h2 := hs.2
    omega
  have ho1b : (x + width * y).toNat < s.b.length := hlen ▸ ho1
  have hsfz : readAt (s.z.set (x + width * y).toNat d2) (x + width * y) = some d2 :=
    readAt_set_same _ _ _ ho0 ho1
  have hsfb : readAt (s.b.set (x + width * y).toNat g2) (x + width * y) = some g2 :=
    readAt_set_same _ _ _ ho0 ho1b
  have h21 : (depth_write x y d2 g2 width height s).bind (depth_write x y d1 g1 width height)
      = some { z := s.z.set (x + width * y).toNat d2, b := s.b.set (x + width * y).toNat g2 } := by
    rw [depth_write_in_bounds x y width height d2 z0 g2 s hg h0 hlen]
    have hgt : d2 > z0 := hz0
    simp only [hgt, if_true, Option.some_bind]
    rw [depth_write_in_bounds x y width height d1 d2 g1 _ hg hsfz (by simp [hlen])]
    have hn : ¬ d1 > d2 := not_lt.2 h12.le
    simp only [hn, if_false]
  have h12s : (depth_write x y d1 g1 width height s).bind (depth_write x y d2 g2 width height)
      = some { z := s.z.set (x + width * y).toNat d2, b := s.b.set (x + width * y).toNat g2 } := by
    rw [depth_write_in_bounds x y width height d1 z0 g1 s hg h0 hlen]
    by_cases h1 : d1 > z0
    · simp only [h1, if_true, Option.some_bind]
      rw [depth_write_in_bounds x y width height d2 d1 g2 _ hg
        (readAt_set_same _ _ _ ho0 ho1) (by simp [hlen])]
      have hgt : d2 > d1 := h12
      simp only [hgt, if_true, List.set_set]
    · simp only [h1, if_false, Option.some_bind]
      rw [depth_write_in_bounds x y width height d2 z0 g2 s hg h0 hlen]
      have hgt : d2 > z0 := hz0
      simp only [hgt, if_true]
  exact ⟨_, _, h12s, h21, rfl, hsfz, hsfb, hsfz, hsfb⟩

/-- Witness for C1 on a 2x2 screen over `ℚ`: pixel (1, 1), stored depth 0,
candidates 1/5 with glyph `a` and 1/4 with glyph `b`. -/
theorem depth_test_closer_wins_witness :
    ∃ s12 s21 : Buffers ℚ,
      (depth_write 1 1 (1/5 : ℚ) 'a' 2 2 ⟨[0, 0, 0, 0], [' ', ' ', ' ', ' ']⟩).bind
        (depth_write 1 1 (1/4 : ℚ) 'b' 2 2) = some s12 ∧
      (depth_write 1 1 (1/4 : ℚ) 'b' 2 2 ⟨[0, 0, 0, 0], [' ', ' ', ' ', ' ']⟩).bind
        (depth_write 1 1 (1/5 : ℚ) 'a' 2 2) = some s21 ∧
      s12 = s21 ∧
      readAt s12.z (1 + 2 * 1) = some (1/4) ∧ readAt s12.b (1 + 2 * 1) = some 'b' ∧
      readAt s21.z (1 + 2 * 1) = some (1/4) ∧ readAt s21.b (1 + 2 * 1) = some 'b' :=
  depth_test_closer_wins 1 1 2 2 ⟨[0, 0, 0, 0], [' ', ' ', ' ', ' ']⟩ 0 (1/5) (1/4) 'a' 'b'
    (by decide) (by constructor <;> decide) (by simp [readAt]) (by norm_num) (by norm_num)

variable [FloorRing α]

/-- C2. Bounds safety.  On buffers of size `width * height`, `draw_line` and
`fill_face` run to completion without any access outside either buffer, for all
points, glyphs and offsets, and keep both sizes.  A sample whose integer
coordinates are inside the screen has linear index `0 ≤ o < width * height`, and
`z[o]` is really read (on buffers lacking that cell the access fails); a sample
whose integer coordinates are outside returns the buffers as they are, whatever
they are, so it touches neither.  (Positivity of `width` and `height` follows
from the size hypothesis whenever a pixel is on the screen and is not needed
otherwise.) -/
theorem bounds_safety (p1 p2 p3 p4 : Point3D α) (ch : Char) (offsetX offsetY : α)
    (width height : Int) (s : Buffers α) (hs : Sized width height s) :
    (∃ s1, draw_line p1 p2 s ch offsetX offsetY width height = some s1 ∧
      Sized width height s1) ∧
    (∃ s1, fill_face p1 p2 p3 p4 s ch offsetX offsetY width height = some s1 ∧
      Sized width height s1) ∧
    (∀ (x y : Int) (D : α) (t : Buffers α), (y ≥ 0 ∧ y < height ∧ x ≥ 0 ∧ x < width) →
      (0 ≤ x + width * y ∧ x + width * y < width * height) ∧
      (readAt t.z (x + width * y) = none → depth_write x y D ch width height t = none)) ∧
    (∀ (x y : Int) (D : α) (t : Buffers α), ¬ (y ≥ 0 ∧ y < height ∧ x ≥ 0 ∧ x < width) →
      depth_write x y D ch width height t = some t) := by
  refine ⟨draw_line_total p1 p2 ch offsetX offsetY width height s hs,
    fill_face_total p1 p2 p3 p4 ch offsetX offsetY width height s hs, ?_, ?_⟩
  · intro x y D t hg
    exact ⟨index_in_range x y width height hg, depth_write_reads x y D ch width height t hg⟩
  · intro x y D t hg
    exact depth_write_outside x y D ch width height t hg


/-- Witness for C2: a line and a quad drawn into a cleared 4x4 screen over `ℚ`. -/
theorem bounds_safety_witness :
    (∃ s1, draw_line (⟨0, 0, 0⟩ : Point3D ℚ) ⟨1, 1, 0⟩
        ⟨List.replicate 16 0, List.replicate 16 ' '⟩ '#' 0 0 4 4 = some s1 ∧
      Sized 4 4 s1) ∧
    (∃ s1, fill_face (⟨0, 0, 0⟩ : Point3D ℚ) ⟨1, 0, 0⟩ ⟨1, 1, 0⟩ ⟨0, 1, 0⟩
        ⟨List.replicate 16 0, List.replicate 16 ' '⟩ '#' 0 0 4 4 = some s1 ∧
      Sized 4 4 s1) :=
  ⟨(bounds_safety (⟨0, 0, 0⟩ : Point3D ℚ) ⟨1, 1, 0⟩ ⟨1, 1, 0⟩ ⟨0, 1, 0⟩ '#' 0 0 4 4
      ⟨List.replicate 16 0, List.replicate 16 ' '⟩ (by constructor <;> simp)).1,
   (bounds_safety (⟨0, 0, 0⟩ : Point3D ℚ) ⟨1, 0, 0⟩ ⟨1, 1, 0⟩ ⟨0, 1, 0⟩ '#' 0 0 4 4
      ⟨List.replicate 16 0, List.replicate 16 ' '⟩ (by constructor <;> simp)).2.1⟩

/-- C3. A quad fill that lands entirely outside the buffer changes nothing: if
each of the 441 grid samples projects to integer coordinates outside the
screen, `fill_face` returns exactly the buffers it was given (of whatever
size).  More generally, on buffers of size `width * height`, `fill_face`
succeeds and every pixel of the screen that no sample projects onto keeps its
depth and its glyph. -/
theorem fill_face_frame (p1 p2 p3 p4 : Point3D α) (shadeChar : Char) (offsetX offsetY : α)
    (width height : Int) (s : Buffers α) :
    ((∀ i j : Nat, i ≤ 20 → j ≤ 20 →
        ¬ ((project_point (face_sample p1 p2 p3 p4 i j) offsetX offsetY width height).y ≥ 0 ∧
           (project_point (face_sample p1 p2 p3 p4 i j) offsetX offsetY width height).y < height ∧
           (project_point (face_sample p1 p2 p3 p4 i j) offsetX offsetY width height).x ≥ 0 ∧
           (project_point (face_sample p1 p2 p3 p4 i j) offsetX offsetY width height).x < width)) →
      fill_face p1 p2 p3 p4 s shadeChar offsetX offsetY width height = some s) ∧
    (Sized width height s →
      ∃ s1, fill_face p1 p2 p3 p4 s shadeChar offsetX offsetY width height = some s1 ∧
        ∀ x y : Int, (y ≥ 0 ∧ y < height ∧ x ≥ 0 ∧ x < width) →
          (∀ i j : Nat, i ≤ 20 → j ≤ 20 →
            ¬ ((project_point (face_sample p1 p2 p3 p4 i j) offsetX offsetY width height).x = x ∧
               (project_point (face_sample p1 p2 p3 p4 i j) offsetX offsetY width height).y = y)) →
          readAt s1.z (x + width * y) = readAt s.z (x + width * y) ∧
          readAt s1.b (x + width * y) = readAt s.b (x + width * y)) := by
  constructor
  · intro hout
    obtain ⟨s1, h1, _, hR⟩ := foldlM_option_invariant
      (fill_face_row p1 p2 p3 p4 shadeChar offsetX offsetY width height) (fun _ => True)
      (fun a b => b = a) (fun _ => rfl) (fun _ _ _ h1 h2 => h2.trans h1) (List.range 21)
      (fun t i hi _ => foldlM_option_invariant
        (fill_face_step p1 p2 p3 p4 shadeChar offsetX offsetY width height i) (fun _ => True)
        (fun a b => b = a) (fun _ => rfl) (fun _ _ _ h1 h2 => h2.trans h1) (List.range 21)
        (fun t j hj _ => ⟨t, depth_write_outside _ _ _ _ _ _ _
          (hout i j (Nat.lt_succ_iff.1 (List.mem_range.1 hi))
            (Nat.lt_succ_iff.1 (List.mem_range.1 hj))), trivial, rfl⟩) t trivial) s trivial
    rw [hR] at h1
    exact h1
  · intro hs
    have key : ∀ k : Int,
        (∀ i j : Nat, i ≤ 20 → j ≤ 20 →
          ((project_point (face_sample p1 p2 p3 p4 i j) offsetX offsetY width height).y ≥ 0 ∧
           (project_point (face_sample p1 p2 p3 p4 i j) offsetX offsetY width height).y < height ∧
           (project_point (face_sample p1 p2 p3 p4 i j) offsetX offsetY width height).x ≥ 0 ∧
           (project_point (face_sample p1 p2 p3 p4 i j) offsetX offsetY width height).x < width) →
          k ≠ (project_point (face_sample p1 p2 p3 p4 i j) offsetX offsetY width height).x +
            width * (project_point (face_sample p1 p2 p3 p4 i j) offsetX offsetY width height).y) →
        ∃ s1, fill_face p1 p2 p3 p4 s shadeChar offsetX offsetY width height = some s1 ∧
          Sized width height s1 ∧
          (readAt s1.z k = readAt s.z k ∧ readAt s1.b k = readAt s.b k) := by
      intro k hk
      exact foldlM_option_invariant
        (fill_face_row p1 p2 p3 p4 shadeChar offsetX offsetY width height) (Sized width height)
        (fun a b => readAt b.z k = readAt a.z k ∧ readAt b.b k = readAt a.b k)
        (fun _ => ⟨rfl, rfl⟩)
        (fun _ _ _ h1 h2 => ⟨h2.1.trans h1.1, h2.2.trans h1.2⟩) (List.range 21)
        (fun t i hi ht => foldlM_option_invariant
          (fill_face_step p1 p2 p3 p4 shadeChar offsetX offsetY width height i)
          (Sized width height)
          (fun a b => readAt b.z k = readAt a.z k ∧ readAt b.b k = readAt a.b k)
          (fun _ => ⟨rfl, rfl⟩)
          (fun _ _ _ h1 h2 => ⟨h2.1.trans h1.1, h2.2.trans h1.2⟩) (List.range 21)
          (fun t j hj ht => by
            obtain ⟨t1, e1, hP1, hfr⟩ := depth_write_sized
              (project_point (face_sample p1 p2 p3 p4 i j) offsetX offsetY width height).x
              (project_point (face_sample p1 p2 p3 p4 i j) offsetX offsetY width height).y
              (project_point (face_sample p1 p2 p3 p4 i j) offsetX offsetY width height).D
              shadeChar width height t ht
            refine ⟨t1, e1, hP1, hfr k ?_⟩
            by_cases hg :
              ((project_point (face_sample p1 p2 p3 p4 i j) offsetX offsetY width height).y ≥ 0 ∧
               (project_point (face_sample p1 p2 p3 p4 i j) offsetX offsetY width height).y < height ∧
               (project_point (face_sample p1 p2 p3 p4 i j) offsetX offsetY width height).x ≥ 0 ∧
               (project_point (face_sample p1 p2 p3 p4 i j) offsetX offsetY width height).x < width)
            · exact Or.inr (hk i j (Nat.lt_succ_iff.1 (List.mem_range.1 hi))
                (Nat.lt_succ_iff.1 (List.mem_range.1 hj)) hg)
            · exact Or.inl hg) t ht) s hs
    -- the buffers after the call do not depend on the pixel looked at
    obtain ⟨s1, h1, _⟩ := fill_face_total p1 p2 p3 p4 shadeChar offsetX offsetY width height s hs
    refine ⟨s1, h1, ?_⟩
    intro x y hg hno
    obtain ⟨s2, h2, _, hr⟩ := key (x + width * y) (by
      intro i j hi hj hgq heq
      obtain ⟨hx, hy⟩ := index_injective x y _ _ width ⟨hg.2.2.1, hg.2.2.2⟩
        ⟨hgq.2.2.1, hgq.2.2.2⟩ heq
      exact hno i j hi hj ⟨hx.symm, hy.symm⟩)
    rw [h1] at h2
    cases h2
    exact hr

/-- Witness for C3: a quad in the plane `x = 0` drawn with horizontal offset
100 on a 2x2 screen; every sample has screen column 100. -/
theorem fill_face_frame_witness :
    fill_face (⟨0, 0, 0⟩ : Point3D ℚ) ⟨0, 1, 0⟩ ⟨0, 1, 1⟩ ⟨0, 0, 1⟩
      ⟨[0, 0, 0, 0], [' ', ' ', ' ', ' ']⟩ '#' 100 0 2 2
      = some ⟨[0, 0, 0, 0], [' ', ' ', ' ', ' ']⟩ :=
  (fill_face_frame (⟨0, 0, 0⟩ : Point3D ℚ) ⟨0, 1, 0⟩ ⟨0, 1, 1⟩ ⟨0, 0, 1⟩ '#' 100 0 2 2
    ⟨[0, 0, 0, 0], [' ', ' ', ' ', ' ']⟩).1 (by
      intro i j _ _
      simp [project_point, face_sample, toInt])

end RasterizerClaims

/-! ## Truncation -/

section Truncation

variable {α : Type} [LinearOrderedField α] [FloorRing α]

theorem toInt_of_nonneg (r : α) (h : 0 ≤ r) : toInt r = ⌊r⌋ := by
  unfold toInt
  simp [h]

/-- Truncation toward zero: `toInt r` is an integer `n` with `|n| ≤ |r|` and
`|r - n| < 1`. -/
theorem toInt_trunc (r : α) :
    |((toInt r : Int) : α)| ≤ |r| ∧ |r - ((toInt r : Int) : α)| < 1 := by
  unfold toInt
  by_cases h : 0 ≤ r
  · simp only [h, if_true]
    have h1 : ((⌊r⌋ : Int) : α) ≤ r := Int.floor_le r
    have h2 : r < ((⌊r⌋ : Int) : α) + 1 := Int.lt_floor_add_one r
    have h3 : (0 : α) ≤ ((⌊r⌋ : Int) : α) := by exact_mod_cast Int.floor_nonneg.2 h
    rw [abs_of_nonneg h3, abs_of_nonneg h, abs_of_nonneg (by linarith)]
    exact ⟨h1, by linarith⟩
  · simp only [h, if_false]
    have hr : r < 0 := not_le.1 h
    have h1 : r ≤ ((⌈r⌉ : Int) : α) := Int.le_ceil r
    have h2 : ((⌈r⌉ : Int) : α) < r + 1 := Int.ceil_lt_add_one r
    have h3 : ((⌈r⌉ : Int) : α) ≤ 0 := by
      have : ⌈r⌉ ≤ 0 := Int.ceil_le.2 (by simpa using hr.le)
      exact_mod_cast this
    rw [abs_of_nonpos h3, abs_of_neg hr, abs_of_nonpos (by linarith)]
    exact ⟨by linarith, by linarith⟩

/-- The two clamping statements of the `draw` methods as one expression. -/
theorem shade_bucket_eq_clamp (I : α) :
    shade_bucket I = max 0 (min 11 (toInt ((I + 1) * 5.5))) := by
  unfold shade_bucket
  simp only []
  split_ifs <;> omega

end Truncation

/-! ## Claims about shading -/

section ShadingClaims

variable {α : Type} [LinearOrderedField α] [FloorRing α]

/-- C4, counterexample.  For the face with corners (0,0,0), (0,1,0), (3,0,4)
and the light direction (0,0,-1) of `main` the unit normal is (4/5, 0, -3/5),
the intensity is 3/5 and (3/5 + 1) * 5.5 = 8.8: the `draw` methods compute the
bucket 8 (glyph `*`), while `clamp(round(8.8), 0, 11)` is 9 (glyph `#`). -/
theorem shade_bucket_not_round :
    face_bucket ⟨0, 0, 0⟩ ⟨0, 1, 0⟩ ⟨3, 0, 4⟩ lightDir = 8 ∧
    spec_bucket (light_intensity (face_normal ⟨0, 0, 0⟩ ⟨0, 1, 0⟩ ⟨3, 0, 4⟩) lightDir) = 9 ∧
    face_shade ⟨0, 0, 0⟩ ⟨0, 1, 0⟩ ⟨3, 0, 4⟩ shades lightDir = some '*' ∧
    readAt shades 9 = some '#' := by
  have hsqrt : Real.sqrt 25 = 5 := by
    rw [show (25 : ℝ) = 5 ^ 2 by norm_num]
    exact Real.sqrt_sq (by norm_num)
  have hI : light_intensity (face_normal ⟨0, 0, 0⟩ ⟨0, 1, 0⟩ ⟨3, 0, 4⟩) lightDir = 3 / 5 := by
    simp only [light_intensity, face_normal, lightDir]
    norm_num [hsqrt]
  have hb : face_bucket ⟨0, 0, 0⟩ ⟨0, 1, 0⟩ ⟨3, 0, 4⟩ lightDir = 8 := by
    unfold face_bucket
    rw [hI, shade_bucket_eq_clamp]
    have h8 : toInt ((3 / 5 + 1) * 5.5 : ℝ) = 8 := by
      rw [toInt_of_nonneg _ (by norm_num), Int.floor_eq_iff]
      norm_num
    rw [h8]
    decide
  refine ⟨hb, ?_, ?_, by decide⟩
  · rw [hI]
    unfold spec_bucket
    have h9 : round ((3 / 5 + 1) * 5.5 : ℝ) = 9 := by
      rw [round_eq, Int.floor_eq_iff]
      norm_num
    rw [h9]
    decide
  · unfold face_shade
    rw [hb]
    decide

/-- C4, amended.  The bucket of the `draw` methods is
`clamp(trunc((intensity + 1) * 5.5), 0, 11)` with `trunc` the truncation toward
zero of the `(int)` cast (`|trunc t| ≤ |t|`, `|t - trunc t| < 1`), which is
`min(11, floor((intensity + 1) * 5.5))` for every intensity `≥ -1`; the bucket
of a face is that of `intensity = dot(normal, lightDir)`, and the glyph passed
to `fill_face` is `shades[N]`. -/
theorem shade_bucket_formula (I : α) (p1 p2 p3 light : Point3D ℝ) (table : List Char) :
    shade_bucket I = max 0 (min 11 (toInt ((I + 1) * 5.5))) ∧
    (|((toInt ((I + 1) * 5.5) : Int) : α)| ≤ |(I + 1) * 5.5| ∧
      |(I + 1) * 5.5 - ((toInt ((I + 1) * 5.5) : Int) : α)| < 1) ∧
    (-1 ≤ I → shade_bucket I = min 11 ⌊(I + 1) * 5.5⌋) ∧
    face_bucket p1 p2 p3 light =
      max 0 (min 11 (toInt ((light_intensity (face_normal p1 p2 p3) light + 1) * 5.5))) ∧
    face_shade p1 p2 p3 table light = readAt table (face_bucket p1 p2 p3 light) ∧
    (∀ (rv : List (Point3D ℝ)) (face : List Int) (q1 q2 q3 q4 : Point3D ℝ) (ox oy : ℝ)
        (width height : Int) (s : Buffers ℝ),
      vertex_at rv face 0 = some q1 → vertex_at rv face 1 = some q2 →
      vertex_at rv face 2 = some q3 →
      (vertex_at rv face 3 = some q4 →
        Cube.draw_face rv table light ox oy width height s face =
          (readAt table (face_bucket q1 q2 q3 light)).bind
            (fun c => fill_face q1 q2 q3 q4 s c ox oy width height)) ∧
      draw_triangle rv table light ox oy width height s face =
        (readAt table (face_bucket q1 q2 q3 light)).bind
          (fun c => fill_face q1 q2 q3 q3 s c ox oy width height)) := by
  refine ⟨shade_bucket_eq_clamp I, toInt_trunc _, ?_, shade_bucket_eq_clamp _, rfl, ?_⟩
  · intro hI
    have h0 : (0 : α) ≤ (I + 1) * 5.5 := by
      apply mul_nonneg (by linarith)
      norm_num
    rw [shade_bucket_eq_clamp, toInt_of_nonneg _ h0]
    have : 0 ≤ ⌊(I + 1) * 5.5⌋ := Int.floor_nonneg.2 h0
    omega
  · intro rv face q1 q2 q3 q4 ox oy width height s h1 h2 h3
    constructor
    · intro h4
      unfold Cube.draw_face face_shade
      rw [h1, h2, h3, h4]
      dsimp only
      cases readAt table (face_bucket q1 q2 q3 light) <;> rfl
    · unfold draw_triangle face_shade
      rw [h1, h2, h3]
      dsimp only
      cases readAt table (face_bucket q1 q2 q3 light) <;> rfl

/-- Witness for C4 (amended): intensity 3/5 over `ℚ` is above -1, so its
bucket is `min(11, floor(8.8))`. -/
theorem shade_bucket_formula_witness :
    shade_bucket (3 / 5 : ℚ) = min 11 ⌊((3 / 5 : ℚ) + 1) * 5.5⌋ :=
  (shade_bucket_formula (3 / 5 : ℚ) ⟨0, 0, 0⟩ ⟨0, 1, 0⟩ ⟨3, 0, 4⟩ lightDir shades).2.2.1
    (by norm_num)

/-- C5. Shading bucket range: for every intensity the bucket `N` of the `draw`
methods satisfies `0 ≤ N ≤ 11`, so `shades[N]` reads inside the 12-character
table of `main` (and inside any table of at least 12 characters); intensity -1
gives `N = 0` and intensity +1 gives `N = 11`; the same holds for the bucket of
every face and light direction. -/
theorem shade_bucket_range (I : α) (p1 p2 p3 light : Point3D ℝ) :
    (0 ≤ shade_bucket I ∧ shade_bucket I ≤ 11) ∧
    shade_bucket (-1 : α) = 0 ∧ shade_bucket (1 : α) = 11 ∧
    shades.length = 12 ∧
    (∃ c, readAt shades (shade_bucket I) = some c) ∧
    (∀ table : List Char, 12 ≤ table.length → ∃ c, readAt table (shade_bucket I) = some c) ∧
    (0 ≤ face_bucket p1 p2 p3 light ∧ face_bucket p1 p2 p3 light ≤ 11) ∧
    (∃ c, face_shade p1 p2 p3 shades light = some c) := by
  have hr : ∀ J : α, 0 ≤ shade_bucket J ∧ shade_bucket J ≤ 11 := by
    intro J
    rw [shade_bucket_eq_clamp]
    omega
  have hrR : ∀ J : ℝ, 0 ≤ shade_bucket J ∧ shade_bucket J ≤ 11 := by
    intro J
    rw [shade_bucket_eq_clamp]
    omega
  have hlen : shades.length = 12 := by decide
  have hread : ∀ (table : List Char) (N : Int), 12 ≤ table.length → 0 ≤ N → N ≤ 11 →
      ∃ c, readAt table N = some c := by
    intro table N ht h0 h1
    exact readAt_isSome_of_lt table N h0 (by omega)
  refine ⟨hr I, ?_, ?_, hlen, hread shades _ hlen.ge (hr I).1 (hr I).2,
    fun table ht => hread table _ ht (hr I).1 (hr I).2, hrR _, ?_⟩
  · rw [shade_bucket_eq_clamp]
    have : toInt ((-1 + 1) * 5.5 : α) = 0 := by
      rw [toInt_of_nonneg _ (by norm_num)]
      norm_num
    rw [this]
    decide
  · rw [shade_bucket_eq_clamp]
    have : toInt ((1 + 1) * 5.5 : α) = 11 := by
      rw [toInt_of_nonneg _ (by norm_num), Int.floor_eq_iff]
      norm_num
    rw [this]
    decide
  · unfold face_shade
    exact hread shades _ hlen.ge (hrR _).1 (hrR _).2

/-- Witness for C5: a table of 13 characters read at the bucket of intensity 0. -/
theorem shade_bucket_range_witness :
    ∃ c, readAt "0123456789abc".toList (shade_bucket (0 : ℚ)) = some c :=
  (shade_bucket_range (0 : ℚ) ⟨0, 0, 0⟩ ⟨0, 1, 0⟩ ⟨3, 0, 4⟩ lightDir).2.2.2.2.2.1
    "0123456789abc".toList (by decide)

end ShadingClaims

/-! ## Claims about rotation and projection -/

section TransformClaims

/-- With both angles zero all sines vanish and all cosines are one. -/
theorem rotate_point_zero (p : Point3D ℝ) : rotate_point p 0 0 = p := by
  simp [rotate_point, rotate_with]

/-- C6. Rotation identity: `rotate_point(p, 0, 0) = p` for every point `p`. -/
theorem rotation_identity (p : Point3D ℝ) : rotate_point p 0 0 = p := by
  unfold rotate_point rotate_with
  simp only [Real.cos_zero, Real.sin_zero, mul_zero, mul_one, sub_zero, add_zero, zero_add]

/-- C7. Rotation periodicity: `rotate_point` repeats every 2π in each angle. -/
theorem rotate_point_periodic (p : Point3D ℝ) (A B : ℝ) :
    rotate_point p (A + 2 * Real.pi) B = rotate_point p A B ∧
    rotate_point p A (B + 2 * Real.pi) = rotate_point p A B := by
  simp [rotate_point, Real.cos_add_two_pi, Real.sin_add_two_pi]

/-- C8, counterexample.  For `p = (0, 1, 0)` and `A = B = π/2` the fused
rotation gives (0, 0, -1), while the angle-A-only rotation followed by the
angle-B-only rotation gives (1, 0, 0). -/
theorem rotate_point_not_A_then_B :
    rotate_point ⟨0, 1, 0⟩ (Real.pi / 2) (Real.pi / 2) = ⟨0, 0, -1⟩ ∧
    rotate_point (rotate_point ⟨0, 1, 0⟩ (Real.pi / 2) 0) 0 (Real.pi / 2) = ⟨1, 0, 0⟩ ∧
    rotate_point ⟨0, 1, 0⟩ (Real.pi / 2) (Real.pi / 2) ≠
      rotate_point (rotate_point ⟨0, 1, 0⟩ (Real.pi / 2) 0) 0 (Real.pi / 2) := by
  have h1 : rotate_point ⟨0, 1, 0⟩ (Real.pi / 2) (Real.pi / 2) = ⟨0, 0, -1⟩ := by
    simp [rotate_point, rotate_with]
  have h2 : rotate_point (rotate_point ⟨0, 1, 0⟩ (Real.pi / 2) 0) 0 (Real.pi / 2)
      = ⟨1, 0, 0⟩ := by
    simp [rotate_point, rotate_with]
  refine ⟨h1, h2, ?_⟩
  rw [h1, h2]
  intro h
  have hx : (0 : ℝ) = 1 := congrArg Point3D.x h
  norm_num at hx

/-- C8, amended.  The fused `rotate_point(p, A, B)` is the angle-B-only
rotation applied first, followed by the angle-A-only rotation:
`rotate_point(p, A, B) = rotate_point(rotate_point(p, 0, B), A, 0)`. -/
theorem rotate_point_B_then_A (p : Point3D ℝ) (A B : ℝ) :
    rotate_point p A B = rotate_point (rotate_point p 0 B) A 0 := by
  simp only [rotate_point, rotate_with, Real.cos_zero, Real.sin_zero, Point3D.mk.injEq]
  refine ⟨?_, ?_, ?_⟩ <;> ring

variable {α : Type} [LinearOrderedField α] [FloorRing α]

/-- C9. Projection: for a point with `p.z ≠ -5`, `project_point` returns
`D = 1/(p.z+5)` (so `D * (p.z + 5) = 1`), `x` the truncation of
`offsetX + 30*D*p.x` and `y` the truncation of `offsetY + height/2 + 15*D*p.y`,
where `height/2` is the C++ quotient of two `int`s (the exact half when
`height` is even) and the truncation `n` of `t` satisfies `|n| ≤ |t|` and
`|t - n| < 1`.  Scenario: vertex 2 of the Cube of scale 1.0 is (1,1,-1); scaled,
rotated by (0,0) and projected with offset (25,-10), width 100 and height 40 it
gives `x = 32`, `y = 13`, `D = 1/4`. -/
theorem project_point_spec (p : Point3D α) (offsetX offsetY : α) (width height : Int)
    (hz : p.z ≠ -5) :
    (project_point p offsetX offsetY width height).D = 1 / (p.z + 5) ∧
    (project_point p offsetX offsetY width height).D * (p.z + 5) = 1 ∧
    (project_point p offsetX offsetY width height).x =
      toInt (offsetX + 30 * (1 / (p.z + 5)) * p.x) ∧
    (project_point p offsetX offsetY width height).y =
      toInt (offsetY + ((Int.tdiv height 2 : Int) : α) + 15 * (1 / (p.z + 5)) * p.y) ∧
    (|(((project_point p offsetX offsetY width height).x : Int) : α)|
        ≤ |offsetX + 30 * (1 / (p.z + 5)) * p.x| ∧
      |offsetX + 30 * (1 / (p.z + 5)) * p.x
        - (((project_point p offsetX offsetY width height).x : Int) : α)| < 1) ∧
    (|(((project_point p offsetX offsetY width height).y : Int) : α)|
        ≤ |offsetY + ((Int.tdiv height 2 : Int) : α) + 15 * (1 / (p.z + 5)) * p.y| ∧
      |offsetY + ((Int.tdiv height 2 : Int) : α) + 15 * (1 / (p.z + 5)) * p.y
        - (((project_point p offsetX offsetY width height).y : Int) : α)| < 1) ∧
    (2 ∣ height → ((Int.tdiv height 2 : Int) : α) = (height : α) / 2) ∧
    (Cube.new (1 : ℝ)).vertices[2]? = some (⟨1, 1, -1⟩ : Point3D ℝ) ∧
    (rotated_vertices (Cube.new (1 : ℝ)).vertices (Cube.new (1 : ℝ)).scale 0 0)[2]?.map
        (fun (v : Point3D ℝ) => project_point v 25 (-10) 100 40)
      = some { x := 32, y := 13, D := 1 / 4 } := by
  have hne : p.z + 5 ≠ 0 := fun h => hz (by linarith)
  refine ⟨rfl, ?_, rfl, rfl, toInt_trunc _, toInt_trunc _, ?_, rfl, ?_⟩
  · simp only [project_point]
    field_simp
  · rintro ⟨k, rfl⟩
    rw [Int.mul_tdiv_cancel_left k (by norm_num : (2 : Int) ≠ 0)]
    push_cast
    ring
  · have hv : (rotated_vertices (Cube.new (1 : ℝ)).vertices (Cube.new (1 : ℝ)).scale 0 0)[2]?
        = some (rotate_point ⟨1 * 1, 1 * 1, -1 * 1⟩ 0 0) := rfl
    have hd : Int.tdiv 40 2 = 20 := by decide
    have hx : toInt (65 / 2 : ℝ) = 32 := by
      rw [toInt_of_nonneg _ (by norm_num), Int.floor_eq_iff]
      norm_num
    have hy : toInt (55 / 4 : ℝ) = 13 := by
      rw [toInt_of_nonneg _ (by norm_num), Int.floor_eq_iff]
      norm_num
    rw [hv, rotate_point_zero]
    simp only [Option.map_some', project_point, mul_one, hd]
    norm_num
    exact ⟨hx, hy⟩

/-- Witness for C9: the point (1, 1, -1) over `ℚ` with the offsets and
dimensions of the scenario. -/
theorem project_point_spec_witness :
    (project_point (⟨1, 1, -1⟩ : Point3D ℚ) 25 (-10) 100 40).D * (-1 + 5) = 1 :=
  (project_point_spec (⟨1, 1, -1⟩ : Point3D ℚ) 25 (-10) 100 40 (by norm_num)).2.1

end TransformClaims

/-! ## Claims about the topology of the shapes -/

section TopologyClaims

variable {α : Type} [LinearOrderedField α]

theorem length_flatMap_const {ι β : Type} (l : List ι) (g : ι → List β) (c : Nat)
    (h : ∀ i, (g i).length = c) : (l.flatMap g).length = l.length * c := by
  induction l with
  | nil => simp
  | cons a l ih =>
    rw [List.flatMap_cons, List.length_append, ih, h a, List.length_cons]
    ring

theorem sphere_vertices_length (m n : Int) :
    (sphere_vertices m n).length = (m + 1).toNat * (n + 1).toNat := by
  unfold sphere_vertices
  rw [length_flatMap_const _ _ (n + 1).toNat (fun i => by simp), List.length_range]

theorem sphere_faces_length (m n : Int) :
    (sphere_faces m n).length = 2 * (m.toNat * n.toNat) := by
  unfold sphere_faces
  rw [length_flatMap_const _ _ (n.toNat * 2)
    (fun i => by rw [length_flatMap_const _ _ 2 (fun j => by simp), List.length_range]),
    List.length_range]
  ring

theorem sphere_faces_triangles (m n : Int) : ∀ f ∈ sphere_faces m n, f.length = 3 := by
  intro f hf
  simp only [sphere_faces, List.mem_flatMap, List.mem_range, List.mem_cons,
    List.mem_singleton, List.not_mem_nil, or_false] at hf
  obtain ⟨i, _, j, _, h | h⟩ := hf <;> simp [h]

/-- C10. Topology counts: the constructed Cube has 8 vertices and 6 faces of 4
indices each; the Pyramid has 5 vertices and 4 faces of 3 indices each; and for
division counts `m ≥ 1`, `n ≥ 1` the Sphere has `(m+1)*(n+1)` vertices and
`2*m*n` faces of 3 indices each. -/
theorem topology_counts (scale : α) (scaleS : ℝ) (m n : Int) (hm : 1 ≤ m) (hn : 1 ≤ n) :
    ((Cube.new scale).vertices.length = 8 ∧ (Cube.new scale).faces.length = 6 ∧
      ∀ f ∈ (Cube.new scale).faces, f.length = 4) ∧
    ((Pyramid.new scale).vertices.length = 5 ∧ (Pyramid.new scale).faces.length = 4 ∧
      ∀ f ∈ (Pyramid.new scale).faces, f.length = 3) ∧
    (((Sphere.new m n scaleS).vertices.length : Int) = (m + 1) * (n + 1) ∧
      ((Sphere.new m n scaleS).faces.length : Int) = 2 * m * n ∧
      ∀ f ∈ (Sphere.new m n scaleS).faces, f.length = 3) := by
  refine ⟨⟨rfl, rfl, ?_⟩, ⟨rfl, rfl, ?_⟩, ?_, ?_, ?_⟩
  · intro f hf
    simp only [Cube.new, List.mem_cons, List.mem_singleton, List.not_mem_nil, or_false] at hf
    rcases hf with h | h | h | h | h | h <;> simp [h]
  · intro f hf
    simp only [Pyramid.new, List.mem_cons, List.mem_singleton, List.not_mem_nil, or_false] at hf
    rcases hf with h | h | h | h <;> simp [h]
  · simp only [Sphere.new, sphere_vertices_length]
    push_cast
    rw [Int.toNat_of_nonneg (by omega), Int.toNat_of_nonneg (by omega)]
  · simp only [Sphere.new, sphere_faces_length]
    push_cast
    rw [Int.toNat_of_nonneg (by omega), Int.toNat_of_nonneg (by omega)]
    ring
  · exact sphere_faces_triangles m n

/-- Witness for C10: the shapes of `main`, `Cube(1.5)`, `Pyramid(1.5)` and
`Sphere(10, 10, 2.0)`, whose sphere has 121 vertices and 200 faces. -/
theorem topology_counts_witness :
    (((Sphere.new 10 10 2).vertices.length : Int) = (10 + 1) * (10 + 1) ∧
      ((Sphere.new 10 10 2).faces.length : Int) = 2 * 10 * 10 ∧
      ∀ f ∈ (Sphere.new 10 10 2).faces, f.length = 3) :=
  (topology_counts (1.5 : ℚ) 2 10 10 (by decide) (by decide)).2.2

end TopologyClaims

/-! ## Rotation as a linear isometry -/

section RotationLemmas

variable {α : Type} [LinearOrderedField α]

/-- The fused transform preserves the dot product as soon as the four
trigonometric values satisfy the Pythagorean identity. -/
theorem rotate_with_dot (p q : Point3D α) (cosA sinA cosB sinB : α)
    (hA : cosA * cosA + sinA * sinA = 1) (hB : cosB * cosB + sinB * sinB = 1) :
    (rotate_with p cosA sinA cosB sinB).x * (rotate_with q cosA sinA cosB sinB).x +
      (rotate_with p cosA sinA cosB sinB).y * (rotate_with q cosA sinA cosB sinB).y +
      (rotate_with p cosA sinA cosB sinB).z * (rotate_with q cosA sinA cosB sinB).z
    = p.x * q.x + p.y * q.y + p.z * q.z := by
  simp only [rotate_with]
  linear_combination
    (p.y * q.y + (p.x * sinB + p.z * cosB) * (q.x * sinB + q.z * cosB)) * hA +
    (p.x * q.x + p.z * q.z) * hB

/-- The fused transform is additive. -/
theorem rotate_with_add (p q : Point3D α) (cosA sinA cosB sinB : α) :
    rotate_with ⟨p.x + q.x, p.y + q.y, p.z + q.z⟩ cosA sinA cosB sinB =
      ⟨(rotate_with p cosA sinA cosB sinB).x + (rotate_with q cosA sinA cosB sinB).x,
       (rotate_with p cosA sinA cosB sinB).y + (rotate_with q cosA sinA cosB sinB).y,
       (rotate_with p cosA sinA cosB sinB).z + (rotate_with q cosA sinA cosB sinB).z⟩ := by
  simp only [rotate_with, Point3D.mk.injEq]
  refine ⟨?_, ?_, ?_⟩ <;> ring

/-- The fused transform commutes with scaling. -/
theorem rotate_with_smul (c : α) (p : Point3D α) (cosA sinA cosB sinB : α) :
    rotate_with ⟨c * p.x, c * p.y, c * p.z⟩ cosA sinA cosB sinB =
      ⟨c * (rotate_with p cosA sinA cosB sinB).x,
       c * (rotate_with p cosA sinA cosB sinB).y,
       c * (rotate_with p cosA sinA cosB sinB).z⟩ := by
  simp only [rotate_with, Point3D.mk.injEq]
  refine ⟨?_, ?_, ?_⟩ <;> ring

theorem cos_sq_add_sin_sq_mul (A : ℝ) : Real.cos A * Real.cos A + Real.sin A * Real.sin A = 1 := by
  have := Real.cos_sq_add_sin_sq A
  nlinarith [this]

/-- `rotate_point` preserves the dot product. -/
theorem rotate_point_dot (p q : Point3D ℝ) (A B : ℝ) :
    (rotate_point p A B).x * (rotate_point q A B).x +
      (rotate_point p A B).y * (rotate_point q A B).y +
      (rotate_point p A B).z * (rotate_point q A B).z
    = p.x * q.x + p.y * q.y + p.z * q.z :=
  rotate_with_dot p q _ _ _ _ (cos_sq_add_sin_sq_mul A) (cos_sq_add_sin_sq_mul B)

end RotationLemmas

/-! ## Claims about rotation axes and rigidity -/

section RotationClaims

/-- C16. Evaluation of the code against the comment on `rotate_point`
("angles A (Y-axis) and B (X-axis)").  The code does the opposite: the
angle-A-only rotation keeps the x component and the angle-B-only rotation keeps
the y component, for every point and angle; and `rotate_point((0,1,0), π/2, 0)`
is (0,0,-1), whose y component is not 1, while `rotate_point((1,0,0), 0, π/2)`
is (0,0,1), whose x component is not 1. -/
theorem rotate_point_axes_swapped :
    (∀ (p : Point3D ℝ) (A : ℝ), (rotate_point p A 0).x = p.x) ∧
    (∀ (p : Point3D ℝ) (B : ℝ), (rotate_point p 0 B).y = p.y) ∧
    rotate_point ⟨0, 1, 0⟩ (Real.pi / 2) 0 = ⟨0, 0, -1⟩ ∧
    (rotate_point ⟨0, 1, 0⟩ (Real.pi / 2) 0).y ≠ 1 ∧
    rotate_point ⟨1, 0, 0⟩ 0 (Real.pi / 2) = ⟨0, 0, 1⟩ ∧
    (rotate_point ⟨1, 0, 0⟩ 0 (Real.pi / 2)).x ≠ 1 := by
  refine ⟨?_, ?_, ?_, ?_, ?_, ?_⟩
  · intro p A
    simp [rotate_point, rotate_with]
  · intro p B
    simp [rotate_point, rotate_with]
  · simp [rotate_point, rotate_with]
  · simp [rotate_point, rotate_with]
  · simp [rotate_point, rotate_with]
  · simp [rotate_point, rotate_with]

/-- C17. `rotate_point` is a rigid rotation: it preserves the squared length
`x^2 + y^2 + z^2` of every point, it is linear (additive and compatible with
scaling), and it preserves the dot product of any two points. -/
theorem rotate_point_rigid (p q : Point3D ℝ) (c A B : ℝ) :
    (rotate_point p A B).x ^ 2 + (rotate_point p A B).y ^ 2 + (rotate_point p A B).z ^ 2
      = p.x ^ 2 + p.y ^ 2 + p.z ^ 2 ∧
    rotate_point ⟨p.x + q.x, p.y + q.y, p.z + q.z⟩ A B =
      ⟨(rotate_point p A B).x + (rotate_point q A B).x,
       (rotate_point p A B).y + (rotate_point q A B).y,
       (rotate_point p A B).z + (rotate_point q A B).z⟩ ∧
    rotate_point ⟨c * p.x, c * p.y, c * p.z⟩ A B =
      ⟨c * (rotate_point p A B).x, c * (rotate_point p A B).y, c * (rotate_point p A B).z⟩ ∧
    (rotate_point p A B).x * (rotate_point q A B).x +
      (rotate_point p A B).y * (rotate_point q A B).y +
      (rotate_point p A B).z * (rotate_point q A B).z
      = p.x * q.x + p.y * q.y + p.z * q.z := by
  refine ⟨?_, rotate_with_add p q _ _ _ _, rotate_with_smul c p _ _ _ _,
    rotate_point_dot p q A B⟩
  have h := rotate_point_dot p p A B
  simp only [pow_two]
  exact h

end RotationClaims

/-! ## Claims about triangles and face indices -/

section TriangleClaims

variable {α : Type} [LinearOrderedField α]

/-- A lookup `rotatedVertices[face[k]]` succeeds, and returns a rotated vertex,
when `k` is a position of the face and every index of the face is in range. -/
theorem vertex_at_some (rv : List (Point3D ℝ)) (face : List Int) (k : Nat)
    (hk : k < face.length) (hidx : ∀ idx ∈ face, 0 ≤ idx ∧ idx < (rv.length : Int)) :
    ∃ p, vertex_at rv face k = some p ∧ p ∈ rv := by
  have hmem : face[k] ∈ face := List.getElem_mem hk
  obtain ⟨h0, h1⟩ := hidx _ hmem
  have hlt : (face[k]).toNat < rv.length := by omega
  refine ⟨rv[(face[k]).toNat], ?_, List.getElem_mem hlt⟩
  unfold vertex_at readAt
  simp [List.getElem?_eq_getElem hk, h0, List.getElem?_eq_getElem hlt]

theorem rotated_vertices_length (vs : List (Point3D ℝ)) (scale A B : ℝ) :
    (rotated_vertices vs scale A B).length = vs.length := by
  simp [rotated_vertices]

/-- Every index of a sphere face is a valid vertex index. -/
theorem sphere_faces_index (m n : Int) (hm : 1 ≤ m) (hn : 1 ≤ n) :
    ∀ f ∈ sphere_faces m n, ∀ idx ∈ f, 0 ≤ idx ∧ idx < (m + 1) * (n + 1) := by
  intro f hf
  simp only [sphere_faces, List.mem_flatMap, List.mem_range, List.mem_cons,
    List.mem_singleton, List.not_mem_nil, or_false] at hf
  obtain ⟨i, hi, j, hj, hf⟩ := hf
  have hi1 : (i : Int) + 1 ≤ m := by omega
  have hj1 : (j : Int) + 1 ≤ n := by omega
  have hi0 : (0 : Int) ≤ i := Int.ofNat_nonneg i
  have hj0 : (0 : Int) ≤ j := Int.ofNat_nonneg j
  have hprod : 0 ≤ (i : Int) * (n + 1) := by positivity
  have hup : ((i : Int) + 2) * (n + 1) ≤ (m + 1) * (n + 1) :=
    mul_le_mul_of_nonneg_right (by omega) (by omega)
  intro idx hidx
  rcases hf with rfl | rfl
  · simp only [List.mem_cons, List.mem_singleton, List.not_mem_nil, or_false] at hidx
    rcases hidx with rfl | rfl | rfl <;> constructor <;> nlinarith
  · simp only [List.mem_cons, List.mem_singleton, List.not_mem_nil, or_false] at hidx
    rcases hidx with rfl | rfl | rfl <;> constructor <;> nlinarith

/-- C11. Face indices are valid: for the Cube, the Pyramid and every
Sphere(m, n) with `m, n ≥ 1`, every index stored in every face is `≥ 0` and
below the number of vertices of the shape, so every lookup
`rotatedVertices[face[k]]` of the `draw` methods (k < 4 for the cube, k < 3 for
the other two) succeeds, for every scale and rotation. -/
theorem face_indices_valid (scale A B : ℝ) (m n : Int) (hm : 1 ≤ m) (hn : 1 ≤ n) :
    (∀ f ∈ (Cube.new scale).faces, ∀ idx ∈ f,
      0 ≤ idx ∧ idx < ((Cube.new scale).vertices.length : Int)) ∧
    (∀ f ∈ (Pyramid.new scale).faces, ∀ idx ∈ f,
      0 ≤ idx ∧ idx < ((Pyramid.new scale).vertices.length : Int)) ∧
    (∀ f ∈ (Sphere.new m n scale).faces, ∀ idx ∈ f,
      0 ≤ idx ∧ idx < ((Sphere.new m n scale).vertices.length : Int)) ∧
    (∀ f ∈ (Cube.new scale).faces, ∀ k : Nat, k < 4 →
      ∃ p, vertex_at (rotated_vertices (Cube.new scale).vertices (Cube.new scale).scale A B)
        f k = some p) ∧
    (∀ f ∈ (Pyramid.new scale).faces, ∀ k : Nat, k < 3 →
      ∃ p, vertex_at (rotated_vertices (Pyramid.new scale).vertices
        (Pyramid.new scale).scale A B) f k = some p) ∧
    (∀ f ∈ (Sphere.new m n scale).faces, ∀ k : Nat, k < 3 →
      ∃ p, vertex_at (rotated_vertices (Sphere.new m n scale).vertices
        (Sphere.new m n scale).scale A B) f k = some p) := by
  have hc : ∀ f ∈ (Cube.new scale).faces, f.length = 4 ∧ ∀ idx ∈ f,
      0 ≤ idx ∧ idx < ((Cube.new scale).vertices.length : Int) := by
    intro f hf
    simp only [Cube.new, List.mem_cons, List.mem_singleton, List.not_mem_nil, or_false] at hf
    rcases hf with rfl | rfl | rfl | rfl | rfl | rfl <;>
      exact ⟨rfl, by simp [Cube.new]⟩
  have hp : ∀ f ∈ (Pyramid.new scale).faces, f.length = 3 ∧ ∀ idx ∈ f,
      0 ≤ idx ∧ idx < ((Pyramid.new scale).vertices.length : Int) := by
    intro f hf
    simp only [Pyramid.new, List.mem_cons, List.mem_singleton, List.not_mem_nil, or_false] at hf
    rcases hf with rfl | rfl | rfl | rfl <;>
      exact ⟨rfl, by simp [Pyramid.new]⟩
  have hs : ∀ f ∈ (Sphere.new m n scale).faces, f.length = 3 ∧ ∀ idx ∈ f,
      0 ≤ idx ∧ idx < ((Sphere.new m n scale).vertices.length : Int) := by
    intro f hf
    refine ⟨sphere_faces_triangles m n f hf, ?_⟩
    intro idx hidx
    have hlen : ((Sphere.new m n scale).vertices.length : Int) = (m + 1) * (n + 1) := by
      simp only [Sphere.new, sphere_vertices_length]
      push_cast
      rw [Int.toNat_of_nonneg (by omega), Int.toNat_of_nonneg (by omega)]
    rw [hlen]
    exact sphere_faces_index m n hm hn f hf idx hidx
  refine ⟨fun f hf => (hc f hf).2, fun f hf => (hp f hf).2, fun f hf => (hs f hf).2,
    ?_, ?_, ?_⟩
  · intro f hf k hk
    obtain ⟨p, h, _⟩ := vertex_at_some
      (rotated_vertices (Cube.new scale).vertices (Cube.new scale).scale A B) f k
      (by rw [(hc f hf).1]; exact hk)
      (by rw [rotated_vertices_length]; exact (hc f hf).2)
    exact ⟨p, h⟩
  · intro f hf k hk
    obtain ⟨p, h, _⟩ := vertex_at_some
      (rotated_vertices (Pyramid.new scale).vertices (Pyramid.new scale).scale A B) f k
      (by rw [(hp f hf).1]; exact hk)
      (by rw [rotated_vertices_length]; exact (hp f hf).2)
    exact ⟨p, h⟩
  · intro f hf k hk
    obtain ⟨p, h, _⟩ := vertex_at_some
      (rotated_vertices (Sphere.new m n scale).vertices (Sphere.new m n scale).scale A B) f k
      (by rw [(hs f hf).1]; exact hk)
      (by rw [rotated_vertices_length]; exact (hs f hf).2)
    exact ⟨p, h⟩

/-- Witness for C11: the index 11 of the face {0, 11, 1} of the sphere of
`main`, `Sphere(10, 10, 2.0)`, is a valid index into its 121 vertices. -/
theorem face_indices_valid_witness :
    0 ≤ (11 : Int) ∧ (11 : Int) < ((Sphere.new 10 10 2).vertices.length : Int) :=
  (face_indices_valid 2 0 0 10 10 (by decide) (by decide)).2.2.1 [0, 11, 1]
    (by
      simp only [Sphere.new, sphere_faces, List.mem_flatMap, List.mem_range]
      exact ⟨0, by decide, 0, by decide, by decide⟩)
    11 (by decide)

/-- C14. Triangular faces degenerate the bilinear patch into the triangle.
With the third corner passed twice, the sample for loop indices `i, j ≤ 20`
(`u = i/20`, `v = j/20`) is `w1*p1 + w2*p2 + w3*p3` with `w1 = (1-u)(1-v)`,
`w2 = u(1-v)`, `w3 = v`, all three weights are `≥ 0` and sum to 1, and every
sample with `v = 1` (`j = 20`) is `p3`; the face loop of `Pyramid::draw` and
`Sphere::draw` calls `fill_face` with `(p1, p2, p3, p3)`. -/
theorem triangle_patch (p1 p2 p3 : Point3D α) (i j : Nat) (hi : i ≤ 20) (hj : j ≤ 20) :
    face_sample p1 p2 p3 p3 i j =
      ⟨(1 - (i : α) / 20) * (1 - (j : α) / 20) * p1.x + (i : α) / 20 * (1 - (j : α) / 20) * p2.x
          + (j : α) / 20 * p3.x,
       (1 - (i : α) / 20) * (1 - (j : α) / 20) * p1.y + (i : α) / 20 * (1 - (j : α) / 20) * p2.y
          + (j : α) / 20 * p3.y,
       (1 - (i : α) / 20) * (1 - (j : α) / 20) * p1.z + (i : α) / 20 * (1 - (j : α) / 20) * p2.z
          + (j : α) / 20 * p3.z⟩ ∧
    0 ≤ (1 - (i : α) / 20) * (1 - (j : α) / 20) ∧
    0 ≤ (i : α) / 20 * (1 - (j : α) / 20) ∧
    0 ≤ (j : α) / 20 ∧
    (1 - (i : α) / 20) * (1 - (j : α) / 20) + (i : α) / 20 * (1 - (j : α) / 20)
      + (j : α) / 20 = 1 ∧
    face_sample p1 p2 p3 p3 i 20 = p3 ∧
    (∀ (rv : List (Point3D ℝ)) (table : List Char) (light : Point3D ℝ) (ox oy : ℝ)
        (width height : Int) (s : Buffers ℝ) (face : List Int) (q1 q2 q3 : Point3D ℝ),
      vertex_at rv face 0 = some q1 → vertex_at rv face 1 = some q2 →
      vertex_at rv face 2 = some q3 →
      draw_triangle rv table light ox oy width height s face =
        (face_shade q1 q2 q3 table light).bind
          (fun c => fill_face q1 q2 q3 q3 s c ox oy width height)) := by
  have hi1 : (i : α) / 20 ≤ 1 := by
    rw [div_le_one (by norm_num)]
    exact_mod_cast hi
  have hj1 : (j : α) / 20 ≤ 1 := by
    rw [div_le_one (by norm_num)]
    exact_mod_cast hj
  have hi0 : (0 : α) ≤ (i : α) / 20 := by positivity
  have hj0 : (0 : α) ≤ (j : α) / 20 := by positivity
  refine ⟨?_, mul_nonneg (by linarith) (by linarith), mul_nonneg hi0 (by linarith), hj0,
    by ring, ?_, ?_⟩
  · simp only [face_sample, Nat.cast_ofNat, Point3D.mk.injEq]
    refine ⟨?_, ?_, ?_⟩ <;> ring
  · cases p3
    simp only [face_sample, Nat.cast_ofNat, Point3D.mk.injEq]
    refine ⟨?_, ?_, ?_⟩ <;> field_simp <;> ring
  · intro rv table light ox oy width height s face q1 q2 q3 h1 h2 h3
    unfold draw_triangle
    rw [h1, h2, h3]
    dsimp only
    cases face_shade q1 q2 q3 table light <;> rfl

/-- Witness for C14: the theorem at `i = 10`, `j = 5` for a triangle over `ℚ`; its
sixth part says that the sample `(10, 20)` is the third corner. -/
theorem triangle_patch_witness :
    face_sample (⟨0, 0, 0⟩ : Point3D ℚ) ⟨1, 0, 0⟩ ⟨0, 1, 0⟩ ⟨0, 1, 0⟩ 10 20 = ⟨0, 1, 0⟩ :=
  (triangle_patch (⟨0, 0, 0⟩ : Point3D ℚ) ⟨1, 0, 0⟩ ⟨0, 1, 0⟩ 10 5
    (by decide) (by decide)).2.2.2.2.2.1

end TriangleClaims

/-! ## Claims about the frame output -/

section FrameClaims

/-- A traversal in `Option` whose function succeeds on every element. -/
theorem mapM_option_eq_map {ι β : Type} (l : List ι) (f : ι → Option β) (g : ι → β)
    (h : ∀ a ∈ l, f a = some (g a)) : l.mapM f = some (l.map g) := by
  induction l with
  | nil => rfl
  | cons a l ih =>
    have ha := h a (List.mem_cons_self a l)
    have hl := ih (fun b hb => h b (List.mem_cons_of_mem a hb))
    rw [List.mapM_cons, ha, hl]
    rfl

/-- The character that the display loop writes for index `k`. -/
theorem emit_char_eq (b : List Char) (width : Int) (k : Nat) (hw : 0 < width)
    (hk : k < b.length) :
    emit_char b width (k : Int) =
      some (if (k : Int) % width = 0 then Char.ofNat 10 else b.getD k (Char.ofNat 32)) := by
  have hmod : Int.tmod (k : Int) width = (k : Int) % width :=
    Int.tmod_eq_emod (Int.ofNat_nonneg k) hw.le
  unfold emit_char
  rw [hmod]
  by_cases h0 : (k : Int) % width = 0
  · simp [h0]
  · simp only [ne_eq, h0, not_false_eq_true, if_true, if_false]
    unfold readAt
    simp [List.getElem?_eq_getElem hk, List.getD_eq_getElem?_getD]

/-- C15. Frame emission rule: for `width > 0`, `height ≥ 0` and a character
buffer `b` of size `width * height`, one frame prints the cursor-home sequence
followed by exactly `width * height` characters, the `k`-th of which is a
newline when `k mod width = 0` and `b[k]` otherwise.  So each row `r` starts
with a newline at index `width * r`, and the column-0 characters of the buffer
are never displayed: two buffers that agree outside column 0 print the same.
(`height ≥ 0` follows from the size of the buffer.) -/
theorem frame_emission (b : List Char) (width height : Int) (hw : 0 < width)
    (hb : (b.length : Int) = width * height) :
    ∃ out : List Char,
      emit_frame b width height = some out ∧
      print_frame b width height = some (cursor_home ++ out) ∧
      (out.length : Int) = width * height ∧
      (∀ k : Nat, (k : Int) < width * height →
        out[k]? = some (if (k : Int) % width = 0 then Char.ofNat 10
          else b.getD k (Char.ofNat 32)) ∧
        ((k : Int) % width ≠ 0 → out[k]? = b[k]?)) ∧
      (∀ r : Nat, (r : Int) < height → out[(width * r).toNat]? = some (Char.ofNat 10)) ∧
      (∀ b2 : List Char, b2.length = b.length →
        (∀ k : Nat, (k : Int) % width ≠ 0 → b2[k]? = b[k]?) →
        emit_frame b2 width height = some out) := by
  have hlen : (width * height).toNat = b.length := by omega
  have hout : ∀ c : List Char, c.length = b.length →
      emit_frame c width height = some ((List.range b.length).map (fun (k : Nat) =>
        if (k : Int) % width = 0 then Char.ofNat 10 else c.getD k (Char.ofNat 32))) := by
    intro c hc
    unfold emit_frame
    rw [hlen]
    apply mapM_option_eq_map
    intro k hk
    exact emit_char_eq c width k hw (by rw [hc]; exact List.mem_range.1 hk)
  have hget : ∀ k : Nat, k < b.length →
      ((List.range b.length).map (fun (k : Nat) =>
        if (k : Int) % width = 0 then Char.ofNat 10 else b.getD k (Char.ofNat 32)))[k]?
        = some (if (k : Int) % width = 0 then Char.ofNat 10
          else b.getD k (Char.ofNat 32)) := by
    intro k hkb
    rw [List.getElem?_map, List.getElem?_range hkb]
    rfl
  refine ⟨_, hout b rfl, ?_, ?_, ?_, ?_, ?_⟩
  · unfold print_frame
    rw [hout b rfl]
    rfl
  · rw [List.length_map, List.length_range]
    exact hb
  · intro k hk
    have hkb : k < b.length := by omega
    refine ⟨hget k hkb, ?_⟩
    intro hne
    rw [hget k hkb]
    simp [hne, List.getElem?_eq_getElem hkb, List.getD_eq_getElem?_getD]
  · intro r hr
    have hr0 : (0 : Int) ≤ r := Int.ofNat_nonneg r
    have hlt : width * (r : Int) < width * height := mul_lt_mul_of_pos_left hr hw
    have hnn : 0 ≤ width * (r : Int) := mul_nonneg hw.le hr0
    have hkb : (width * (r : Int)).toNat < b.length := by omega
    have hmod : (((width * (r : Int)).toNat : Nat) : Int) % width = 0 := by
      rw [Int.toNat_of_nonneg hnn]
      exact Int.mul_emod_right width r
    rw [hget _ hkb, if_pos hmod]
  · intro b2 hlen2 hagree
    rw [hout b2 hlen2]
    congr 1
    apply List.map_congr_left
    intro k hk
    by_cases h0 : (k : Int) % width = 0
    · simp [h0]
    · have := hagree k h0
      simp [h0, List.getD_eq_getElem?_getD, this]

/-- Witness for C15: a 2x2 buffer `abcd` prints newline, `b`, newline, `d`. -/
theorem frame_emission_witness :
    ∃ out : List Char,
      emit_frame ['a', 'b', 'c', 'd'] 2 2 = some out ∧
      print_frame ['a', 'b', 'c', 'd'] 2 2 = some (cursor_home ++ out) ∧
      (out.length : Int) = 2 * 2 ∧
      (∀ k : Nat, (k : Int) < 2 * 2 →
        out[k]? = some (if (k : Int) % 2 = 0 then Char.ofNat 10
          else ['a', 'b', 'c', 'd'].getD k (Char.ofNat 32)) ∧
        ((k : Int) % 2 ≠ 0 → out[k]? = ['a', 'b', 'c', 'd'][k]?)) ∧
      (∀ r : Nat, (r : Int) < 2 → out[((2 : Int) * r).toNat]? = some (Char.ofNat 10)) ∧
      (∀ b2 : List Char, b2.length = ['a', 'b', 'c', 'd'].length →
        (∀ k : Nat, (k : Int) % 2 ≠ 0 → b2[k]? = ['a', 'b', 'c', 'd'][k]?) →
        emit_frame b2 2 2 = some out) :=
  frame_emission ['a', 'b', 'c', 'd'] 2 2 (by decide) (by decide)

end FrameClaims

/-! ## The depth test, cell by cell -/

/-- On buffers of the same size, a cell of one is a cell of the other. -/
theorem cell_of_sized {α : Type} (width height : Int) (s s1 : Buffers α) (hs : Sized width height s)
    (hs1 : Sized width height s1) (k : Int) (zk : α) (hz : readAt s1.z k = some zk) :
    ∃ z0 b0, readAt s.z k = some z0 ∧ readAt s.b k = some b0 := by
  obtain ⟨h0, h1⟩ := readAt_lt_length hz
  have e1 := hs.1
  have e2 := hs.2
  have e3 := hs1.1
  obtain ⟨z0, hz0⟩ := readAt_isSome_of_lt s.z k h0 (by omega)
  obtain ⟨b0, hb0⟩ := readAt_isSome_of_lt s.b k h0 (by omega)
  exact ⟨z0, b0, hz0, hb0⟩

section CellLemmas

variable {α : Type} [LinearOrderedField α]

/-- A loop as in `foldlM_option_invariant` whose body moreover establishes a
fact `Q i` about its element `i` that later iterations cannot destroy: after
the loop, `Q i` holds for every element. -/
theorem foldlM_option_after {σ ι : Type} (f : σ → ι → Option σ) (P : σ → Prop)
    (R : σ → σ → Prop) (Q : ι → σ → Prop) (hrefl : ∀ s, R s s)
    (htrans : ∀ a b c, R a b → R b c → R a c) (hQ : ∀ i a b, Q i a → R a b → Q i b)
    (l : List ι)
    (hstep : ∀ s i, i ∈ l → P s → ∃ s', f s i = some s' ∧ P s' ∧ R s s' ∧ Q i s') :
    ∀ s, P s → ∃ s', l.foldlM f s = some s' ∧ P s' ∧ R s s' ∧ ∀ i ∈ l, Q i s' := by
  induction l with
  | nil =>
    intro s hs
    exact ⟨s, rfl, hs, hrefl s, fun _ h => absurd h (List.not_mem_nil _)⟩
  | cons a l ih =>
    intro s hs
    obtain ⟨s1, h1, hP1, hR1, hQ1⟩ := hstep s a (List.mem_cons_self a l) hs
    obtain ⟨s2, h2, hP2, hR2, hQ2⟩ :=
      ih (fun s i hi hP => hstep s i (List.mem_cons_of_mem a hi) hP) s1 hP1
    refine ⟨s2, ?_, hP2, htrans _ _ _ hR1 hR2, ?_⟩
    · rw [List.foldlM_cons, h1]
      exact h2
    · intro i hi
      rcases List.mem_cons.1 hi with rfl | hi
      · exact hQ _ _ _ hQ1 hR2
      · exact hQ2 i hi

/-- On buffers of size `width * height`, the effect of one depth-tested write
on an arbitrary cell `k` holding depth `zk` and glyph `bk`: a sample on the
screen with linear index `k` leaves the larger of `zk` and `D`, and the glyph
`ch` exactly when `D > zk`; every other sample leaves the cell alone. -/
theorem depth_write_cell (x y : Int) (D : α) (ch : Char) (width height : Int)
    (s : Buffers α) (hs : Sized width height s) (k : Int) (zk : α) (bk : Char)
    (hz : readAt s.z k = some zk) (hb : readAt s.b k = some bk) :
    ∃ s1, depth_write x y D ch width height s = some s1 ∧ Sized width height s1 ∧
      readAt s1.z k = some
        (if (y ≥ 0 ∧ y < height ∧ x ≥ 0 ∧ x < width) ∧ x + width * y = k
          then max zk D else zk) ∧
      readAt s1.b k = some
        (if ((y ≥ 0 ∧ y < height ∧ x ≥ 0 ∧ x < width) ∧ x + width * y = k) ∧ D > zk
          then ch else bk) := by
  obtain ⟨s1, h1, hS1, hfr⟩ := depth_write_sized x y D ch width height s hs
  refine ⟨s1, h1, hS1, ?_⟩
  by_cases hit : (y ≥ 0 ∧ y < height ∧ x ≥ 0 ∧ x < width) ∧ x + width * y = k
  · obtain ⟨hg, hk⟩ := hit
    subst hk
    have hlen : s.b.length = s.z.length := by
      have e1 := hs.1
      have e2 := hs.2
      omega
    obtain ⟨ho0, ho1⟩ := readAt_lt_length hz
    rw [depth_write_in_bounds x y width height D zk ch s hg hz hlen] at h1
    by_cases hD : D > zk
    · simp only [hD, if_true, Option.some.injEq] at h1
      subst h1
      simp only [hg, and_self, if_true, hD]
      rw [max_eq_right (le_of_lt hD)]
      exact ⟨readAt_set_same _ _ _ ho0 ho1, readAt_set_same _ _ _ ho0 (hlen ▸ ho1)⟩
    · simp only [hD, if_false, Option.some.injEq] at h1
      subst h1
      simp only [hg, and_self, if_true, hD, and_false, if_false]
      rw [max_eq_left (not_lt.1 hD)]
      exact ⟨hz, hb⟩
  · simp only [hit, if_false, false_and]
    have hk : ¬ (y ≥ 0 ∧ y < height ∧ x ≥ 0 ∧ x < width) ∨ k ≠ x + width * y := by
      by_cases hg : (y ≥ 0 ∧ y < height ∧ x ≥ 0 ∧ x < width)
      · exact Or.inr (fun h => hit ⟨hg, h.symm⟩)
      · exact Or.inl hg
    obtain ⟨e1, e2⟩ := hfr k hk
    exact ⟨e1.trans hz, e2.trans hb⟩

/-- The invariant of the depth buffer within a frame: both buffers have the
size of the screen, every depth is `≥ 0`, and a cell of depth 0 is blank. -/
theorem depth_write_inv (x y : Int) (D : α) (ch : Char) (width height : Int)
    (s : Buffers α) (hs : Sized width height s)
    (hinv : ∀ k zk bk, readAt s.z k = some zk → readAt s.b k = some bk →
      0 ≤ zk ∧ (zk = 0 → bk = Char.ofNat 32)) :
    ∃ s1, depth_write x y D ch width height s = some s1 ∧
      (Sized width height s1 ∧
        ∀ k zk bk, readAt s1.z k = some zk → readAt s1.b k = some bk →
          0 ≤ zk ∧ (zk = 0 → bk = Char.ofNat 32)) ∧
      (∀ k zk, readAt s.z k = some zk → ∃ zk1, readAt s1.z k = some zk1 ∧ zk ≤ zk1) := by
  obtain ⟨s1, h1, hS1, _⟩ := depth_write_sized x y D ch width height s hs
  refine ⟨s1, h1, ⟨hS1, ?_⟩, ?_⟩
  · intro k zk1 bk1 hz1 hb1
    obtain ⟨z0, b0, hz0, hb0⟩ := cell_of_sized width height s s1 hs hS1 k zk1 hz1
    obtain ⟨s2, h2, _, hz2, hb2⟩ :=
      depth_write_cell x y D ch width height s hs k z0 b0 hz0 hb0
    rw [h1] at h2
    cases h2
    rw [hz1] at hz2
    rw [hb1] at hb2
    obtain ⟨hnn, hblank⟩ := hinv k z0 b0 hz0 hb0
    have ez := Option.some.inj hz2
    have eb := Option.some.inj hb2
    by_cases hit : (y ≥ 0 ∧ y < height ∧ x ≥ 0 ∧ x < width) ∧ x + width * y = k
    · by_cases hD : D > z0
      · simp only [hit, hD, and_self, if_true] at ez eb
        rw [ez, max_eq_right (le_of_lt hD)]
        have hpos : 0 < D := lt_of_le_of_lt hnn hD
        exact ⟨hpos.le, fun h => absurd h (ne_of_gt hpos)⟩
      · simp only [hit, hD, and_false, if_true, if_false] at ez eb
        rw [ez, eb, max_eq_left (not_lt.1 hD)]
        exact ⟨hnn, hblank⟩
    · simp only [hit, false_and, if_false] at ez eb
      rw [ez, eb]
      exact ⟨hnn, hblank⟩
  · intro k zk hz
    have e1 := hs.1
    have e2 := hs.2
    obtain ⟨h0, hl⟩ := readAt_lt_length hz
    obtain ⟨b0, hb0⟩ := readAt_isSome_of_lt s.b k h0 (by omega)
    obtain ⟨s2, h2, _, hz2, _⟩ :=
      depth_write_cell x y D ch width height s hs k zk b0 hz hb0
    rw [h1] at h2
    cases h2
    refine ⟨_, hz2, ?_⟩
    split_ifs
    · exact le_max_left _ _
    · exact le_refl _

/-- The cleared buffers have the size of the screen, depth 0 and a blank in
every cell. -/
theorem clear_buffers_inv (width height : Int) (hwh : 0 ≤ width * height) :
    Sized width height (clear_buffers width height : Buffers α) ∧
    ∀ k zk bk, readAt (clear_buffers width height : Buffers α).z k = some zk →
      readAt (clear_buffers width height : Buffers α).b k = some bk →
      zk = 0 ∧ bk = Char.ofNat 32 := by
  constructor
  · constructor <;> simp [clear_buffers, Int.toNat_of_nonneg hwh]
  · intro k zk bk hz hb
    rw [readAt_eq_some_iff] at hz hb
    simp only [clear_buffers] at hz hb
    have h1 := List.getElem?_eq_some.1 hz.2
    have h2 := List.getElem?_eq_some.1 hb.2
    obtain ⟨_, e1⟩ := h1
    obtain ⟨_, e2⟩ := h2
    simp only [List.getElem_replicate] at e1 e2
    exact ⟨e1.symm, e2.symm⟩

end CellLemmas

/-! ## Claims about the depth buffer -/

section DepthClaims

variable {α : Type} [LinearOrderedField α] [FloorRing α]

/-- The frame invariant and the monotonicity of depths through one call of
`draw_line` or `fill_face`. -/
theorem draw_call_inv (width height : Int) (c : DrawCall α) (s : Buffers α)
    (hP : Sized width height s ∧
      ∀ k zk bk, readAt s.z k = some zk → readAt s.b k = some bk →
        0 ≤ zk ∧ (zk = 0 → bk = Char.ofNat 32)) :
    ∃ s1, DrawCall.run width height s c = some s1 ∧
      (Sized width height s1 ∧
        ∀ k zk bk, readAt s1.z k = some zk → readAt s1.b k = some bk →
          0 ≤ zk ∧ (zk = 0 → bk = Char.ofNat 32)) ∧
      (∀ k zk, readAt s.z k = some zk → ∃ zk1, readAt s1.z k = some zk1 ∧ zk ≤ zk1) := by
  have hrefl : ∀ t : Buffers α,
      ∀ k zk, readAt t.z k = some zk → ∃ zk1, readAt t.z k = some zk1 ∧ zk ≤ zk1 :=
    fun t k zk h => ⟨zk, h, le_refl _⟩
  have htrans : ∀ a b c : Buffers α,
      (∀ k zk, readAt a.z k = some zk → ∃ zk1, readAt b.z k = some zk1 ∧ zk ≤ zk1) →
      (∀ k zk, readAt b.z k = some zk → ∃ zk1, readAt c.z k = some zk1 ∧ zk ≤ zk1) →
      ∀ k zk, readAt a.z k = some zk → ∃ zk1, readAt c.z k = some zk1 ∧ zk ≤ zk1 := by
    intro a b c hab hbc k zk h
    obtain ⟨z1, h1, l1⟩ := hab k zk h
    obtain ⟨z2, h2, l2⟩ := hbc k z1 h1
    exact ⟨z2, h2, le_trans l1 l2⟩
  cases c with
  | line p1 p2 ch offsetX offsetY =>
    exact foldlM_option_invariant
      (draw_line_step p1 p2 ch offsetX offsetY width height)
      (fun t => Sized width height t ∧
        ∀ k zk bk, readAt t.z k = some zk → readAt t.b k = some bk →
          0 ≤ zk ∧ (zk = 0 → bk = Char.ofNat 32))
      (fun a b => ∀ k zk, readAt a.z k = some zk → ∃ zk1, readAt b.z k = some zk1 ∧ zk ≤ zk1)
      hrefl htrans (List.range 21)
      (fun t i _ ht => depth_write_inv _ _ _ ch width height t ht.1 ht.2) s hP
  | face p1 p2 p3 p4 shadeChar offsetX offsetY =>
    exact foldlM_option_invariant
      (fill_face_row p1 p2 p3 p4 shadeChar offsetX offsetY width height)
      (fun t => Sized width height t ∧
        ∀ k zk bk, readAt t.z k = some zk → readAt t.b k = some bk →
          0 ≤ zk ∧ (zk = 0 → bk = Char.ofNat 32))
      (fun a b => ∀ k zk, readAt a.z k = some zk → ∃ zk1, readAt b.z k = some zk1 ∧ zk ≤ zk1)
      hrefl htrans (List.range 21)
      (fun t i _ ht => foldlM_option_invariant
        (fill_face_step p1 p2 p3 p4 shadeChar offsetX offsetY width height i)
        (fun t => Sized width height t ∧
          ∀ k zk bk, readAt t.z k = some zk → readAt t.b k = some bk →
            0 ≤ zk ∧ (zk = 0 → bk = Char.ofNat 32))
        (fun a b => ∀ k zk, readAt a.z k = some zk →
          ∃ zk1, readAt b.z k = some zk1 ∧ zk ≤ zk1)
        hrefl htrans (List.range 21)
        (fun t j _ ht => depth_write_inv _ _ _ shadeChar width height t ht.1 ht.2) t ht) s hP

/-- The same through a sequence of calls. -/
theorem run_calls_inv (width height : Int) (calls : List (DrawCall α)) (s : Buffers α)
    (hP : Sized width height s ∧
      ∀ k zk bk, readAt s.z k = some zk → readAt s.b k = some bk →
        0 ≤ zk ∧ (zk = 0 → bk = Char.ofNat 32)) :
    ∃ s1, run_calls width height calls s = some s1 ∧
      (Sized width height s1 ∧
        ∀ k zk bk, readAt s1.z k = some zk → readAt s1.b k = some bk →
          0 ≤ zk ∧ (zk = 0 → bk = Char.ofNat 32)) ∧
      (∀ k zk, readAt s.z k = some zk → ∃ zk1, readAt s1.z k = some zk1 ∧ zk ≤ zk1) :=
  foldlM_option_invariant (DrawCall.run width height)
    (fun t => Sized width height t ∧
      ∀ k zk bk, readAt t.z k = some zk → readAt t.b k = some bk →
        0 ≤ zk ∧ (zk = 0 → bk = Char.ofNat 32))
    (fun a b => ∀ k zk, readAt a.z k = some zk → ∃ zk1, readAt b.z k = some zk1 ∧ zk ≤ zk1)
    (fun t k zk h => ⟨zk, h, le_refl _⟩)
    (fun a b c hab hbc k zk h => by
      obtain ⟨z1, h1, l1⟩ := hab k zk h
      obtain ⟨z2, h2, l2⟩ := hbc k z1 h1
      exact ⟨z2, h2, le_trans l1 l2⟩)
    calls (fun t c _ ht => draw_call_inv width height c t ht) s hP

/-- C19. Depth-buffer invariant within a frame.  Starting from the cleared
buffers (every depth 0, every character blank), any sequence of `draw_line` /
`fill_face` calls runs to completion and afterwards every depth entry is `≥ 0`
and every cell whose depth is still 0 still holds the blank; running further
calls never decreases a depth entry; and a sample whose inverse depth is `≤ 0`
is not written: the depth-tested write returns the buffers as they are. -/
theorem depth_buffer_invariant (width height : Int) (hwh : 0 ≤ width * height)
    (calls more : List (DrawCall α)) :
    ∃ s1 s2 : Buffers α,
      run_calls width height calls (clear_buffers width height) = some s1 ∧
      run_calls width height (calls ++ more) (clear_buffers width height) = some s2 ∧
      run_calls width height more s1 = some s2 ∧
      (∀ k zk bk, readAt s1.z k = some zk → readAt s1.b k = some bk →
        0 ≤ zk ∧ (zk = 0 → bk = Char.ofNat 32)) ∧
      (∀ k zk, readAt s1.z k = some zk → ∃ zk2, readAt s2.z k = some zk2 ∧ zk ≤ zk2) ∧
      (∀ (x y : Int) (D : α) (ch : Char), D ≤ 0 →
        depth_write x y D ch width height s1 = some s1) := by
  obtain ⟨hS0, hclr⟩ := @clear_buffers_inv α _ width height hwh
  have hP0 : Sized width height (clear_buffers width height : Buffers α) ∧
      ∀ k zk bk, readAt (clear_buffers width height : Buffers α).z k = some zk →
        readAt (clear_buffers width height : Buffers α).b k = some bk →
        0 ≤ zk ∧ (zk = 0 → bk = Char.ofNat 32) := by
    refine ⟨hS0, ?_⟩
    intro k zk bk hz hb
    obtain ⟨e1, e2⟩ := hclr k zk bk hz hb
    exact ⟨e1.ge, fun _ => e2⟩
  obtain ⟨s1, h1, hP1, _⟩ := run_calls_inv width height calls _ hP0
  obtain ⟨s2, h2, _, hR2⟩ := run_calls_inv width height more s1 hP1
  refine ⟨s1, s2, h1, ?_, h2, hP1.2, hR2, ?_⟩
  · unfold run_calls at h1 h2 ⊢
    rw [List.foldlM_append, h1]
    exact h2
  · intro x y D ch hD
    by_cases hg : y ≥ 0 ∧ y < height ∧ x ≥ 0 ∧ x < width
    · obtain ⟨ho0, ho1⟩ := index_in_range x y width height hg
      have e1 := hP1.1.1
      have e2 := hP1.1.2
      obtain ⟨zo, hzo⟩ := readAt_isSome_of_lt s1.z (x + width * y) ho0 (by omega)
      obtain ⟨bo, hbo⟩ := readAt_isSome_of_lt s1.b (x + width * y) ho0 (by omega)
      rw [depth_write_in_bounds x y width height D zo ch s1 hg hzo (by omega)]
      have hnn := (hP1.2 _ zo bo hzo hbo).1
      have hD2 : ¬ D > zo := not_lt.2 (le_trans hD hnn)
      simp only [hD2, if_false]
    · exact depth_write_outside x y D ch width height s1 hg

/-- Witness for C19: on a 4x4 screen over `ℚ`, a quad followed by a line. -/
theorem depth_buffer_invariant_witness :
    ∃ s1 s2 : Buffers ℚ,
      run_calls 4 4 [DrawCall.face ⟨0, 0, 0⟩ ⟨1, 0, 0⟩ ⟨1, 1, 0⟩ ⟨0, 1, 0⟩ '#' 0 0]
        (clear_buffers 4 4) = some s1 ∧
      run_calls 4 4 ([DrawCall.face ⟨0, 0, 0⟩ ⟨1, 0, 0⟩ ⟨1, 1, 0⟩ ⟨0, 1, 0⟩ '#' 0 0] ++
        [DrawCall.line ⟨0, 0, -1⟩ ⟨1, 1, -1⟩ '*' 0 0]) (clear_buffers 4 4) = some s2 ∧
      run_calls 4 4 [DrawCall.line ⟨0, 0, -1⟩ ⟨1, 1, -1⟩ '*' 0 0] s1 = some s2 ∧
      (∀ k zk bk, readAt s1.z k = some zk → readAt s1.b k = some bk →
        0 ≤ zk ∧ (zk = 0 → bk = Char.ofNat 32)) ∧
      (∀ k zk, readAt s1.z k = some zk → ∃ zk2, readAt s2.z k = some zk2 ∧ zk ≤ zk2) ∧
      (∀ (x y : Int) (D : ℚ) (ch : Char), D ≤ 0 →
        depth_write x y D ch 4 4 s1 = some s1) :=
  depth_buffer_invariant 4 4 (by decide)
    [DrawCall.face ⟨0, 0, 0⟩ ⟨1, 0, 0⟩ ⟨1, 1, 0⟩ ⟨0, 1, 0⟩ '#' 0 0]
    [DrawCall.line ⟨0, 0, -1⟩ ⟨1, 1, -1⟩ '*' 0 0]

end DepthClaims

section FrontmostClaims

variable {α : Type} [LinearOrderedField α] [FloorRing α]

/-- C13. `fill_face` keeps the frontmost fragment.  On buffers of size
`width * height`, for a pixel `(x, y)` of the screen with prior depth `z0` and
prior glyph `b0`, `fill_face` succeeds and afterwards the stored depth `M` of
the pixel is the maximum of `z0` and the inverse depths `D = 1/(z+5)` of the
grid samples (`i, j ≤ 20`) that project to `(x, y)`: it is `≥ z0`, `≥` each of
those inverse depths, and equal to `z0` or to one of them; the glyph is the
given glyph if `M > z0` and `b0` otherwise. -/
theorem fill_face_frontmost (p1 p2 p3 p4 : Point3D α) (shadeChar : Char)
    (offsetX offsetY : α) (width height : Int) (s : Buffers α)
    (hs : Sized width height s) (x y : Int)
    (hg : y ≥ 0 ∧ y < height ∧ x ≥ 0 ∧ x < width) (z0 : α) (b0 : Char)
    (hz0 : readAt s.z (x + width * y) = some z0)
    (hb0 : readAt s.b (x + width * y) = some b0) :
    ∃ (s1 : Buffers α) (M : α),
      fill_face p1 p2 p3 p4 s shadeChar offsetX offsetY width height = some s1 ∧
      readAt s1.z (x + width * y) = some M ∧
      readAt s1.b (x + width * y) = some (if M > z0 then shadeChar else b0) ∧
      z0 ≤ M ∧
      (∀ i j : Nat, i ≤ 20 → j ≤ 20 →
        (project_point (face_sample p1 p2 p3 p4 i j) offsetX offsetY width height).x = x →
        (project_point (face_sample p1 p2 p3 p4 i j) offsetX offsetY width height).y = y →
        (project_point (face_sample p1 p2 p3 p4 i j) offsetX offsetY width height).D ≤ M) ∧
      (M = z0 ∨ ∃ i j : Nat, i ≤ 20 ∧ j ≤ 20 ∧
        (project_point (face_sample p1 p2 p3 p4 i j) offsetX offsetY width height).x = x ∧
        (project_point (face_sample p1 p2 p3 p4 i j) offsetX offsetY width height).y = y ∧
        M = (project_point (face_sample p1 p2 p3 p4 i j) offsetX offsetY width height).D) ∧
      (∀ i j : Nat,
        (project_point (face_sample p1 p2 p3 p4 i j) offsetX offsetY width height).D
          = 1 / ((face_sample p1 p2 p3 p4 i j).z + 5)) := by
  -- the invariant of both loops, about the cell of the pixel
  let P : Buffers α → Prop := fun t =>
    Sized width height t ∧ ∃ M : α,
      readAt t.z (x + width * y) = some M ∧
      readAt t.b (x + width * y) = some (if M > z0 then shadeChar else b0) ∧
      z0 ≤ M ∧
      (M = z0 ∨ ∃ i j : Nat, i ≤ 20 ∧ j ≤ 20 ∧
        (project_point (face_sample p1 p2 p3 p4 i j) offsetX offsetY width height).x = x ∧
        (project_point (face_sample p1 p2 p3 p4 i j) offsetX offsetY width height).y = y ∧
        M = (project_point (face_sample p1 p2 p3 p4 i j) offsetX offsetY width height).D)
  let R : Buffers α → Buffers α → Prop := fun a b =>
    ∀ zk, readAt a.z (x + width * y) = some zk →
      ∃ zk1, readAt b.z (x + width * y) = some zk1 ∧ zk ≤ zk1
  let Q : Nat → Nat → Buffers α → Prop := fun i j t =>
    (project_point (face_sample p1 p2 p3 p4 i j) offsetX offsetY width height).x = x →
    (project_point (face_sample p1 p2 p3 p4 i j) offsetX offsetY width height).y = y →
    ∃ zk, readAt t.z (x + width * y) = some zk ∧
      (project_point (face_sample p1 p2 p3 p4 i j) offsetX offsetY width height).D ≤ zk
  have hrefl : ∀ t, R t t := fun t zk h => ⟨zk, h, le_refl _⟩
  have htrans : ∀ a b c, R a b → R b c → R a c := by
    intro a b c hab hbc zk h
    obtain ⟨z1, h1, l1⟩ := hab zk h
    obtain ⟨z2, h2, l2⟩ := hbc z1 h1
    exact ⟨z2, h2, le_trans l1 l2⟩
  have hQ : ∀ i j a b, Q i j a → R a b → Q i j b := by
    intro i j a b hq hab hx hy
    obtain ⟨zk, h1, l1⟩ := hq hx hy
    obtain ⟨z2, h2, l2⟩ := hab zk h1
    exact ⟨z2, h2, le_trans l1 l2⟩
  -- one sample
  have hstep : ∀ (i j : Nat), i ≤ 20 → j ≤ 20 → ∀ t, P t →
      ∃ t1, fill_face_step p1 p2 p3 p4 shadeChar offsetX offsetY width height i t j = some t1 ∧
        P t1 ∧ R t t1 ∧ Q i j t1 := by
    intro i j hi hj t ht
    obtain ⟨hS, M, hzM, hbM, hzM0, hM⟩ := ht
    obtain ⟨t1, e1, hS1, hz1, hb1⟩ := depth_write_cell
      (project_point (face_sample p1 p2 p3 p4 i j) offsetX offsetY width height).x
      (project_point (face_sample p1 p2 p3 p4 i j) offsetX offsetY width height).y
      (project_point (face_sample p1 p2 p3 p4 i j) offsetX offsetY width height).D
      shadeChar width height t hS (x + width * y) M _ hzM hbM
    refine ⟨t1, e1, ?_, ?_, ?_⟩
    · refine ⟨hS1, ?_⟩
      by_cases hit :
        ((project_point (face_sample p1 p2 p3 p4 i j) offsetX offsetY width height).y ≥ 0 ∧
         (project_point (face_sample p1 p2 p3 p4 i j) offsetX offsetY width height).y < height ∧
         (project_point (face_sample p1 p2 p3 p4 i j) offsetX offsetY width height).x ≥ 0 ∧
         (project_point (face_sample p1 p2 p3 p4 i j) offsetX offsetY width height).x < width) ∧
        (project_point (face_sample p1 p2 p3 p4 i j) offsetX offsetY width height).x +
          width * (project_point (face_sample p1 p2 p3 p4 i j) offsetX offsetY width height).y
          = x + width * y
      · obtain ⟨hxq, hyq⟩ := index_injective _ _ x y width
          ⟨hit.1.2.2.1, hit.1.2.2.2⟩ ⟨hg.2.2.1, hg.2.2.2⟩ hit.2
        by_cases hD : (project_point (face_sample p1 p2 p3 p4 i j)
            offsetX offsetY width height).D > M
        · simp only [hit, hD, and_self, if_true] at hz1 hb1
          rw [max_eq_right (le_of_lt hD)] at hz1
          have hgt : (project_point (face_sample p1 p2 p3 p4 i j)
              offsetX offsetY width height).D > z0 := lt_of_le_of_lt hzM0 hD
          refine ⟨_, hz1, ?_, hgt.le, Or.inr ⟨i, j, hi, hj, hxq, hyq, rfl⟩⟩
          simp only [hgt, if_true]
          exact hb1
        · simp only [hit, hD, and_false, if_true, if_false] at hz1 hb1
          rw [max_eq_left (not_lt.1 hD)] at hz1
          exact ⟨M, hz1, hb1, hzM0, hM⟩
      · simp only [hit, false_and, if_false] at hz1 hb1
        exact ⟨M, hz1, hb1, hzM0, hM⟩
    · intro zk hzk
      rw [hzM] at hzk
      cases hzk
      refine ⟨_, hz1, ?_⟩
      split_ifs
      · exact le_max_left _ _
      · exact le_refl _
    · intro hxq hyq
      have hit :
          ((project_point (face_sample p1 p2 p3 p4 i j) offsetX offsetY width height).y ≥ 0 ∧
           (project_point (face_sample p1 p2 p3 p4 i j) offsetX offsetY width height).y < height ∧
           (project_point (face_sample p1 p2 p3 p4 i j) offsetX offsetY width height).x ≥ 0 ∧
           (project_point (face_sample p1 p2 p3 p4 i j) offsetX offsetY width height).x < width) ∧
          (project_point (face_sample p1 p2 p3 p4 i j) offsetX offsetY width height).x +
            width * (project_point (face_sample p1 p2 p3 p4 i j) offsetX offsetY width height).y
            = x + width * y := by
        rw [hxq, hyq]
        exact ⟨hg, rfl⟩
      simp only [hit, and_self, if_true] at hz1
      exact ⟨_, hz1, le_max_right _ _⟩
  -- the inner loop, then the outer loop
  have hrow : ∀ (i : Nat), i ≤ 20 → ∀ t, P t →
      ∃ t1, fill_face_row p1 p2 p3 p4 shadeChar offsetX offsetY width height t i = some t1 ∧
        P t1 ∧ R t t1 ∧ ∀ j : Nat, j ≤ 20 → Q i j t1 := by
    intro i hi t ht
    obtain ⟨t1, e1, hP1, hR1, hQ1⟩ := foldlM_option_after
      (fill_face_step p1 p2 p3 p4 shadeChar offsetX offsetY width height i) P R (Q i)
      hrefl htrans (hQ i) (List.range 21)
      (fun t j hj hP => hstep i j hi (Nat.lt_succ_iff.1 (List.mem_range.1 hj)) t hP) t ht
    exact ⟨t1, e1, hP1, hR1,
      fun j hj => hQ1 j (List.mem_range.2 (Nat.lt_succ_iff.2 hj))⟩
  have hP0 : P s := ⟨hs, z0, hz0, by simpa using hb0, le_refl _, Or.inl rfl⟩
  obtain ⟨s1, e1, hP1, _, hQ1⟩ := foldlM_option_after
    (fill_face_row p1 p2 p3 p4 shadeChar offsetX offsetY width height) P R
    (fun i t => ∀ j : Nat, j ≤ 20 → Q i j t)
    hrefl htrans (fun i a b hq hab j hj => hQ i j a b (hq j hj) hab) (List.range 21)
    (fun t i hi hP => hrow i (Nat.lt_succ_iff.1 (List.mem_range.1 hi)) t hP) s hP0
  obtain ⟨_, M, hzM, hbM, hzM0, hM⟩ := hP1
  refine ⟨s1, M, e1, hzM, hbM, hzM0, ?_, hM, fun _ _ => rfl⟩
  intro i j hi hj hxq hyq
  obtain ⟨zk, hzk, hle⟩ := hQ1 i (List.mem_range.2 (Nat.lt_succ_iff.2 hi)) j hj hxq hyq
  rw [hzM] at hzk
  cases hzk
  exact hle

/-- Witness for C13: the unit quad in the plane `z = 0` on a cleared 2x2 screen
over `ℚ`, looked at through the pixel (1, 1). -/
theorem fill_face_frontmost_witness :
    ∃ (s1 : Buffers ℚ) (M : ℚ),
      fill_face (⟨0, 0, 0⟩ : Point3D ℚ) ⟨1, 0, 0⟩ ⟨1, 1, 0⟩ ⟨0, 1, 0⟩
        ⟨[0, 0, 0, 0], [' ', ' ', ' ', ' ']⟩ '#' 0 0 2 2 = some s1 ∧
      readAt s1.z (1 + 2 * 1) = some M ∧
      readAt s1.b (1 + 2 * 1) = some (if M > 0 then '#' else ' ') ∧
      0 ≤ M ∧
      (∀ i j : Nat, i ≤ 20 → j ≤ 20 →
        (project_point (face_sample (⟨0, 0, 0⟩ : Point3D ℚ) ⟨1, 0, 0⟩ ⟨1, 1, 0⟩ ⟨0, 1, 0⟩ i j)
          0 0 2 2).x = 1 →
        (project_point (face_sample (⟨0, 0, 0⟩ : Point3D ℚ) ⟨1, 0, 0⟩ ⟨1, 1, 0⟩ ⟨0, 1, 0⟩ i j)
          0 0 2 2).y = 1 →
        (project_point (face_sample (⟨0, 0, 0⟩ : Point3D ℚ) ⟨1, 0, 0⟩ ⟨1, 1, 0⟩ ⟨0, 1, 0⟩ i j)
          0 0 2 2).D ≤ M) ∧
      (M = 0 ∨ ∃ i j : Nat, i ≤ 20 ∧ j ≤ 20 ∧
        (project_point (face_sample (⟨0, 0, 0⟩ : Point3D ℚ) ⟨1, 0, 0⟩ ⟨1, 1, 0⟩ ⟨0, 1, 0⟩ i j)
          0 0 2 2).x = 1 ∧
        (project_point (face_sample (⟨0, 0, 0⟩ : Point3D ℚ) ⟨1, 0, 0⟩ ⟨1, 1, 0⟩ ⟨0, 1, 0⟩ i j)
          0 0 2 2).y = 1 ∧
        M = (project_point (face_sample (⟨0, 0, 0⟩ : Point3D ℚ) ⟨1, 0, 0⟩ ⟨1, 1, 0⟩ ⟨0, 1, 0⟩
          i j) 0 0 2 2).D) ∧
      (∀ i j : Nat,
        (project_point (face_sample (⟨0, 0, 0⟩ : Point3D ℚ) ⟨1, 0, 0⟩ ⟨1, 1, 0⟩ ⟨0, 1, 0⟩ i j)
          0 0 2 2).D
          = 1 / ((face_sample (⟨0, 0, 0⟩ : Point3D ℚ) ⟨1, 0, 0⟩ ⟨1, 1, 0⟩ ⟨0, 1, 0⟩ i j).z
            + 5)) :=
  fill_face_frontmost (⟨0, 0, 0⟩ : Point3D ℚ) ⟨1, 0, 0⟩ ⟨1, 1, 0⟩ ⟨0, 1, 0⟩ '#' 0 0 2 2
    ⟨[0, 0, 0, 0], [' ', ' ', ' ', ' ']⟩ (by constructor <;> decide) 1 1 (by decide) 0 ' '
    (by simp [readAt]) (by simp [readAt])

end FrontmostClaims

/-! ## Cross products under rotation and scaling -/

section CrossLemmas

variable {α : Type} [LinearOrderedField α]

/-- The cross product of the edges turns with the points. -/
theorem face_cross_rotate_with (p1 p2 p3 : Point3D α) (cosA sinA cosB sinB : α)
    (hA : cosA * cosA + sinA * sinA = 1) (hB : cosB * cosB + sinB * sinB = 1) :
    face_cross (rotate_with p1 cosA sinA cosB sinB) (rotate_with p2 cosA sinA cosB sinB)
      (rotate_with p3 cosA sinA cosB sinB)
    = rotate_with (face_cross p1 p2 p3) cosA sinA cosB sinB := by
  simp only [face_cross, rotate_with, Point3D.mk.injEq]
  refine ⟨?_, ?_, ?_⟩
  · linear_combination
      (cosB * ((p2.y - p1.y) * (p3.z - p1.z) - (p2.z - p1.z) * (p3.y - p1.y))
        - sinB * ((p2.x - p1.x) * (p3.y - p1.y) - (p2.y - p1.y) * (p3.x - p1.x))) * hA
  · linear_combination
      (cosA * ((p2.z - p1.z) * (p3.x - p1.x) - (p2.x - p1.x) * (p3.z - p1.z))) * hB
  · linear_combination
      (-sinA * ((p2.z - p1.z) * (p3.x - p1.x) - (p2.x - p1.x) * (p3.z - p1.z))) * hB

/-- Scaling the three points by `c` scales the cross product by `c * c`. -/
theorem face_cross_scale (p1 p2 p3 : Point3D α) (c : α) :
    face_cross ⟨p1.x * c, p1.y * c, p1.z * c⟩ ⟨p2.x * c, p2.y * c, p2.z * c⟩
      ⟨p3.x * c, p3.y * c, p3.z * c⟩
    = ⟨(face_cross p1 p2 p3).x * (c * c), (face_cross p1 p2 p3).y * (c * c),
       (face_cross p1 p2 p3).z * (c * c)⟩ := by
  simp only [face_cross, Point3D.mk.injEq]
  refine ⟨?_, ?_, ?_⟩ <;> ring

/-- The cross product only depends on the two edge vectors. -/
theorem face_cross_of_edges (p1 p2 p3 q1 q2 q3 : Point3D α)
    (hux : p2.x - p1.x = q2.x - q1.x) (huy : p2.y - p1.y = q2.y - q1.y)
    (huz : p2.z - p1.z = q2.z - q1.z) (hvx : p3.x - p1.x = q3.x - q1.x)
    (hvy : p3.y - p1.y = q3.y - q1.y) (hvz : p3.z - p1.z = q3.z - q1.z) :
    face_cross p1 p2 p3 = face_cross q1 q2 q3 := by
  simp only [face_cross, hux, huy, huz, hvx, hvy, hvz]

/-- A point whose squared length vanishes is the origin. -/
theorem eq_zero_of_normsq (p : Point3D α) (h : p.x * p.x + p.y * p.y + p.z * p.z = 0) :
    p = ⟨0, 0, 0⟩ := by
  have hx : p.x = 0 := by nlinarith [mul_self_nonneg p.x, mul_self_nonneg p.y, mul_self_nonneg p.z]
  have hy : p.y = 0 := by nlinarith [mul_self_nonneg p.x, mul_self_nonneg p.y, mul_self_nonneg p.z]
  have hz : p.z = 0 := by nlinarith [mul_self_nonneg p.x, mul_self_nonneg p.y, mul_self_nonneg p.z]
  cases p
  simp only [Point3D.mk.injEq]
  exact ⟨hx, hy, hz⟩

end CrossLemmas

section RealCrossLemmas

/-- The face normal of the `draw` methods is the cross product divided by
`normalLength`. -/
theorem face_normal_eq (p1 p2 p3 : Point3D ℝ) :
    face_normal p1 p2 p3 =
      ⟨(face_cross p1 p2 p3).x / normal_length p1 p2 p3,
       (face_cross p1 p2 p3).y / normal_length p1 p2 p3,
       (face_cross p1 p2 p3).z / normal_length p1 p2 p3⟩ := rfl

/-- The vertex that a `draw` method stores for the model vertex `v`. -/
theorem rotated_vertices_get (vs : List (Point3D ℝ)) (scale A B : ℝ) (k : Nat) :
    (rotated_vertices vs scale A B)[k]? =
      (vs[k]?).map (fun (v : Point3D ℝ) =>
        rotate_point ⟨v.x * scale, v.y * scale, v.z * scale⟩ A B) := by
  simp [rotated_vertices, List.getElem?_map]

/-- The cross product of a face after the scaling and rotation of `draw`. -/
theorem face_cross_drawn (v1 v2 v3 : Point3D ℝ) (scale A B : ℝ) :
    face_cross (rotate_point ⟨v1.x * scale, v1.y * scale, v1.z * scale⟩ A B)
      (rotate_point ⟨v2.x * scale, v2.y * scale, v2.z * scale⟩ A B)
      (rotate_point ⟨v3.x * scale, v3.y * scale, v3.z * scale⟩ A B)
    = rotate_point ⟨(face_cross v1 v2 v3).x * (scale * scale),
        (face_cross v1 v2 v3).y * (scale * scale),
        (face_cross v1 v2 v3).z * (scale * scale)⟩ A B := by
  unfold rotate_point
  rw [face_cross_rotate_with _ _ _ _ _ _ _ (cos_sq_add_sin_sq_mul A) (cos_sq_add_sin_sq_mul B),
    face_cross_scale]

/-- Squared length of the cross product of a drawn face. -/
theorem face_cross_drawn_normsq (v1 v2 v3 : Point3D ℝ) (scale A B : ℝ) :
    (face_cross (rotate_point ⟨v1.x * scale, v1.y * scale, v1.z * scale⟩ A B)
      (rotate_point ⟨v2.x * scale, v2.y * scale, v2.z * scale⟩ A B)
      (rotate_point ⟨v3.x * scale, v3.y * scale, v3.z * scale⟩ A B)).x *
    (face_cross (rotate_point ⟨v1.x * scale, v1.y * scale, v1.z * scale⟩ A B)
      (rotate_point ⟨v2.x * scale, v2.y * scale, v2.z * scale⟩ A B)
      (rotate_point ⟨v3.x * scale, v3.y * scale, v3.z * scale⟩ A B)).x +
    (face_cross (rotate_point ⟨v1.x * scale, v1.y * scale, v1.z * scale⟩ A B)
      (rotate_point ⟨v2.x * scale, v2.y * scale, v2.z * scale⟩ A B)
      (rotate_point ⟨v3.x * scale, v3.y * scale, v3.z * scale⟩ A B)).y *
    (face_cross (rotate_point ⟨v1.x * scale, v1.y * scale, v1.z * scale⟩ A B)
      (rotate_point ⟨v2.x * scale, v2.y * scale, v2.z * scale⟩ A B)
      (rotate_point ⟨v3.x * scale, v3.y * scale, v3.z * scale⟩ A B)).y +
    (face_cross (rotate_point ⟨v1.x * scale, v1.y * scale, v1.z * scale⟩ A B)
      (rotate_point ⟨v2.x * scale, v2.y * scale, v2.z * scale⟩ A B)
      (rotate_point ⟨v3.x * scale, v3.y * scale, v3.z * scale⟩ A B)).z *
    (face_cross (rotate_point ⟨v1.x * scale, v1.y * scale, v1.z * scale⟩ A B)
      (rotate_point ⟨v2.x * scale, v2.y * scale, v2.z * scale⟩ A B)
      (rotate_point ⟨v3.x * scale, v3.y * scale, v3.z * scale⟩ A B)).z
    = scale ^ 4 * ((face_cross v1 v2 v3).x * (face_cross v1 v2 v3).x +
        (face_cross v1 v2 v3).y * (face_cross v1 v2 v3).y +
        (face_cross v1 v2 v3).z * (face_cross v1 v2 v3).z) := by
  rw [face_cross_drawn, rotate_point_dot]
  ring

/-- A drawn face has a nonzero cross product, hence a nonzero `normalLength`,
exactly when the scale is nonzero and the model face has a nonzero cross
product. -/
theorem face_cross_drawn_ne_zero (v1 v2 v3 : Point3D ℝ) (scale A B : ℝ)
    (hscale : scale ≠ 0) (hc : face_cross v1 v2 v3 ≠ ⟨0, 0, 0⟩) :
    face_cross (rotate_point ⟨v1.x * scale, v1.y * scale, v1.z * scale⟩ A B)
      (rotate_point ⟨v2.x * scale, v2.y * scale, v2.z * scale⟩ A B)
      (rotate_point ⟨v3.x * scale, v3.y * scale, v3.z * scale⟩ A B) ≠ ⟨0, 0, 0⟩ ∧
    normal_length (rotate_point ⟨v1.x * scale, v1.y * scale, v1.z * scale⟩ A B)
      (rotate_point ⟨v2.x * scale, v2.y * scale, v2.z * scale⟩ A B)
      (rotate_point ⟨v3.x * scale, v3.y * scale, v3.z * scale⟩ A B) ≠ 0 := by
  have hpos : 0 < (face_cross v1 v2 v3).x * (face_cross v1 v2 v3).x +
      (face_cross v1 v2 v3).y * (face_cross v1 v2 v3).y +
      (face_cross v1 v2 v3).z * (face_cross v1 v2 v3).z := by
    rcases lt_or_eq_of_le (add_nonneg (add_nonneg (mul_self_nonneg (face_cross v1 v2 v3).x)
      (mul_self_nonneg (face_cross v1 v2 v3).y)) (mul_self_nonneg (face_cross v1 v2 v3).z))
      with h | h
    · exact h
    · exact absurd (eq_zero_of_normsq _ h.symm) hc
  have hs4 : 0 < scale ^ 4 := by positivity
  have hn := face_cross_drawn_normsq v1 v2 v3 scale A B
  have hnpos := mul_pos hs4 hpos
  rw [← hn] at hnpos
  constructor
  · intro h0
    rw [h0] at hnpos
    norm_num at hnpos
  · unfold normal_length
    exact (Real.sqrt_pos.2 hnpos).ne'

end RealCrossLemmas

/-! ## Claims about the faces of the cube -/

section CubeFaceClaims

/-- A lookup `rotatedVertices[face[k]]` with both indices known. -/
theorem vertex_at_eq (rv : List (Point3D ℝ)) (face : List Int) (k idx : Nat) (p : Point3D ℝ)
    (h1 : face[k]? = some (idx : Int)) (h2 : rv[idx]? = some p) :
    vertex_at rv face k = some p := by
  unfold vertex_at readAt
  simp [h1, h2]

/-- C20, counterexample.  For the cube of scale -1, not rotated, the face
{0,1,2,3} has its four corners at height `z = 1`, no vertex of the cube lies
above that height, and the cross product computed by `Cube::draw` for this
face is (0, 0, 4): the normal points up, away from the centre, out of the
cube. -/
theorem cube_face_normal_outward :
    ∃ a1 a2 a3 a4 : Point3D ℝ,
      vertex_at (rotated_vertices (Cube.new (-1 : ℝ)).vertices (Cube.new (-1 : ℝ)).scale 0 0)
        [0, 1, 2, 3] 0 = some a1 ∧
      vertex_at (rotated_vertices (Cube.new (-1 : ℝ)).vertices (Cube.new (-1 : ℝ)).scale 0 0)
        [0, 1, 2, 3] 1 = some a2 ∧
      vertex_at (rotated_vertices (Cube.new (-1 : ℝ)).vertices (Cube.new (-1 : ℝ)).scale 0 0)
        [0, 1, 2, 3] 2 = some a3 ∧
      vertex_at (rotated_vertices (Cube.new (-1 : ℝ)).vertices (Cube.new (-1 : ℝ)).scale 0 0)
        [0, 1, 2, 3] 3 = some a4 ∧
      a1.z = 1 ∧ a2.z = 1 ∧ a3.z = 1 ∧ a4.z = 1 ∧
      (∀ p ∈ rotated_vertices (Cube.new (-1 : ℝ)).vertices (Cube.new (-1 : ℝ)).scale 0 0,
        p.z ≤ 1) ∧
      face_cross a1 a2 a3 = ⟨0, 0, 4⟩ ∧
      0 < (face_cross a1 a2 a3).x * a1.x + (face_cross a1 a2 a3).y * a1.y +
        (face_cross a1 a2 a3).z * a1.z := by
  have hrv : rotated_vertices (Cube.new (-1 : ℝ)).vertices (Cube.new (-1 : ℝ)).scale 0 0 =
      [⟨1, 1, 1⟩, ⟨-1, 1, 1⟩, ⟨-1, -1, 1⟩, ⟨1, -1, 1⟩,
       ⟨1, 1, -1⟩, ⟨-1, 1, -1⟩, ⟨-1, -1, -1⟩, ⟨1, -1, -1⟩] := by
    simp [rotated_vertices, Cube.new, rotate_point_zero]
  rw [hrv]
  refine ⟨⟨1, 1, 1⟩, ⟨-1, 1, 1⟩, ⟨-1, -1, 1⟩, ⟨1, -1, 1⟩,
    vertex_at_eq _ _ 0 0 _ rfl rfl, vertex_at_eq _ _ 1 1 _ rfl rfl,
    vertex_at_eq _ _ 2 2 _ rfl rfl, vertex_at_eq _ _ 3 3 _ rfl rfl,
    rfl, rfl, rfl, rfl, ?_, ?_, ?_⟩
  · intro p hp
    simp only [List.mem_cons, List.mem_singleton, List.not_mem_nil, or_false] at hp
    rcases hp with rfl | rfl | rfl | rfl | rfl | rfl | rfl | rfl <;> norm_num
  · simp only [face_cross, Point3D.mk.injEq]
    norm_num
  · simp only [face_cross]
    norm_num

/-- C20, amended.  For every scale, rotation, light direction and shading
table, `Cube::draw` computes for the faces {0,1,2,3} and {4,5,6,7} identical
edge vectors `p2 - p1` and `p3 - p1`, hence the identical cross product,
normal, intensity, bucket and glyph.  With the centre of the cube at the
origin, the dot product of the cross product with a corner of the face is
`-4 * scale^3` for {0,1,2,3} and `4 * scale^3` for {4,5,6,7}: for positive scale
the normal of {0,1,2,3} points into the cube and that of {4,5,6,7} out of it,
for negative scale it is the other way round. -/
theorem cube_opposite_faces (scale A B : ℝ) (light : Point3D ℝ) (table : List Char) :
    ∃ a1 a2 a3 b1 b2 b3 : Point3D ℝ,
      ((Cube.new scale).faces[0]? = some [0, 1, 2, 3] ∧
        (Cube.new scale).faces[1]? = some [4, 5, 6, 7]) ∧
      (vertex_at (rotated_vertices (Cube.new scale).vertices (Cube.new scale).scale A B)
          [0, 1, 2, 3] 0 = some a1 ∧
        vertex_at (rotated_vertices (Cube.new scale).vertices (Cube.new scale).scale A B)
          [0, 1, 2, 3] 1 = some a2 ∧
        vertex_at (rotated_vertices (Cube.new scale).vertices (Cube.new scale).scale A B)
          [0, 1, 2, 3] 2 = some a3) ∧
      (vertex_at (rotated_vertices (Cube.new scale).vertices (Cube.new scale).scale A B)
          [4, 5, 6, 7] 0 = some b1 ∧
        vertex_at (rotated_vertices (Cube.new scale).vertices (Cube.new scale).scale A B)
          [4, 5, 6, 7] 1 = some b2 ∧
        vertex_at (rotated_vertices (Cube.new scale).vertices (Cube.new scale).scale A B)
          [4, 5, 6, 7] 2 = some b3) ∧
      (a2.x - a1.x = b2.x - b1.x ∧ a2.y - a1.y = b2.y - b1.y ∧ a2.z - a1.z = b2.z - b1.z) ∧
      (a3.x - a1.x = b3.x - b1.x ∧ a3.y - a1.y = b3.y - b1.y ∧ a3.z - a1.z = b3.z - b1.z) ∧
      face_cross a1 a2 a3 = face_cross b1 b2 b3 ∧
      face_normal a1 a2 a3 = face_normal b1 b2 b3 ∧
      light_intensity (face_normal a1 a2 a3) light
        = light_intensity (face_normal b1 b2 b3) light ∧
      face_bucket a1 a2 a3 light = face_bucket b1 b2 b3 light ∧
      face_shade a1 a2 a3 table light = face_shade b1 b2 b3 table light ∧
      (face_cross a1 a2 a3).x * a1.x + (face_cross a1 a2 a3).y * a1.y +
        (face_cross a1 a2 a3).z * a1.z = -4 * scale ^ 3 ∧
      (face_cross b1 b2 b3).x * b1.x + (face_cross b1 b2 b3).y * b1.y +
        (face_cross b1 b2 b3).z * b1.z = 4 * scale ^ 3 ∧
      (0 < scale →
        (face_cross a1 a2 a3).x * a1.x + (face_cross a1 a2 a3).y * a1.y +
          (face_cross a1 a2 a3).z * a1.z < 0 ∧
        0 < (face_cross b1 b2 b3).x * b1.x + (face_cross b1 b2 b3).y * b1.y +
          (face_cross b1 b2 b3).z * b1.z) ∧
      (scale < 0 →
        0 < (face_cross a1 a2 a3).x * a1.x + (face_cross a1 a2 a3).y * a1.y +
          (face_cross a1 a2 a3).z * a1.z ∧
        (face_cross b1 b2 b3).x * b1.x + (face_cross b1 b2 b3).y * b1.y +
          (face_cross b1 b2 b3).z * b1.z < 0) := by
  -- the six rotated corners
  have hedge : ∀ (v w v2 w2 : Point3D ℝ),
      w.x - v.x = w2.x - v2.x → w.y - v.y = w2.y - v2.y → w.z - v.z = w2.z - v2.z →
      (rotate_point ⟨w.x * scale, w.y * scale, w.z * scale⟩ A B).x -
        (rotate_point ⟨v.x * scale, v.y * scale, v.z * scale⟩ A B).x =
        (rotate_point ⟨w2.x * scale, w2.y * scale, w2.z * scale⟩ A B).x -
        (rotate_point ⟨v2.x * scale, v2.y * scale, v2.z * scale⟩ A B).x ∧
      (rotate_point ⟨w.x * scale, w.y * scale, w.z * scale⟩ A B).y -
        (rotate_point ⟨v.x * scale, v.y * scale, v.z * scale⟩ A B).y =
        (rotate_point ⟨w2.x * scale, w2.y * scale, w2.z * scale⟩ A B).y -
        (rotate_point ⟨v2.x * scale, v2.y * scale, v2.z * scale⟩ A B).y ∧
      (rotate_point ⟨w.x * scale, w.y * scale, w.z * scale⟩ A B).z -
        (rotate_point ⟨v.x * scale, v.y * scale, v.z * scale⟩ A B).z =
        (rotate_point ⟨w2.x * scale, w2.y * scale, w2.z * scale⟩ A B).z -
        (rotate_point ⟨v2.x * scale, v2.y * scale, v2.z * scale⟩ A B).z := by
    intro v w v2 w2 hx hy hz
    simp only [rotate_point, rotate_with]
    refine ⟨?_, ?_, ?_⟩
    · linear_combination (scale * Real.cos B) * hx - (scale * Real.sin B) * hz
    · linear_combination (scale * Real.sin A * Real.sin B) * hx + (scale * Real.cos A) * hy
        + (scale * Real.sin A * Real.cos B) * hz
    · linear_combination (scale * Real.cos A * Real.sin B) * hx - (scale * Real.sin A) * hy
        + (scale * Real.cos A * Real.cos B) * hz
  have hu := hedge ⟨-1, -1, -1⟩ ⟨1, -1, -1⟩ ⟨-1, -1, 1⟩ ⟨1, -1, 1⟩
    (by norm_num) (by norm_num) (by norm_num)
  have hv := hedge ⟨-1, -1, -1⟩ ⟨1, 1, -1⟩ ⟨-1, -1, 1⟩ ⟨1, 1, 1⟩
    (by norm_num) (by norm_num) (by norm_num)
  have hcross := face_cross_of_edges _ _ _ _ _ _ hu.1 hu.2.1 hu.2.2 hv.1 hv.2.1 hv.2.2
  have hlen : normal_length
      (rotate_point ⟨(⟨-1, -1, -1⟩ : Point3D ℝ).x * scale, (⟨-1, -1, -1⟩ : Point3D ℝ).y * scale,
        (⟨-1, -1, -1⟩ : Point3D ℝ).z * scale⟩ A B)
      (rotate_point ⟨(⟨1, -1, -1⟩ : Point3D ℝ).x * scale, (⟨1, -1, -1⟩ : Point3D ℝ).y * scale,
        (⟨1, -1, -1⟩ : Point3D ℝ).z * scale⟩ A B)
      (rotate_point ⟨(⟨1, 1, -1⟩ : Point3D ℝ).x * scale, (⟨1, 1, -1⟩ : Point3D ℝ).y * scale,
        (⟨1, 1, -1⟩ : Point3D ℝ).z * scale⟩ A B)
      = normal_length
      (rotate_point ⟨(⟨-1, -1, 1⟩ : Point3D ℝ).x * scale, (⟨-1, -1, 1⟩ : Point3D ℝ).y * scale,
        (⟨-1, -1, 1⟩ : Point3D ℝ).z * scale⟩ A B)
      (rotate_point ⟨(⟨1, -1, 1⟩ : Point3D ℝ).x * scale, (⟨1, -1, 1⟩ : Point3D ℝ).y * scale,
        (⟨1, -1, 1⟩ : Point3D ℝ).z * scale⟩ A B)
      (rotate_point ⟨(⟨1, 1, 1⟩ : Point3D ℝ).x * scale, (⟨1, 1, 1⟩ : Point3D ℝ).y * scale,
        (⟨1, 1, 1⟩ : Point3D ℝ).z * scale⟩ A B) := by
    unfold normal_length
    rw [hcross]
  have hnormal : face_normal
      (rotate_point ⟨(⟨-1, -1, -1⟩ : Point3D ℝ).x * scale, (⟨-1, -1, -1⟩ : Point3D ℝ).y * scale,
        (⟨-1, -1, -1⟩ : Point3D ℝ).z * scale⟩ A B)
      (rotate_point ⟨(⟨1, -1, -1⟩ : Point3D ℝ).x * scale, (⟨1, -1, -1⟩ : Point3D ℝ).y * scale,
        (⟨1, -1, -1⟩ : Point3D ℝ).z * scale⟩ A B)
      (rotate_point ⟨(⟨1, 1, -1⟩ : Point3D ℝ).x * scale, (⟨1, 1, -1⟩ : Point3D ℝ).y * scale,
        (⟨1, 1, -1⟩ : Point3D ℝ).z * scale⟩ A B)
      = face_normal
      (rotate_point ⟨(⟨-1, -1, 1⟩ : Point3D ℝ).x * scale, (⟨-1, -1, 1⟩ : Point3D ℝ).y * scale,
        (⟨-1, -1, 1⟩ : Point3D ℝ).z * scale⟩ A B)
      (rotate_point ⟨(⟨1, -1, 1⟩ : Point3D ℝ).x * scale, (⟨1, -1, 1⟩ : Point3D ℝ).y * scale,
        (⟨1, -1, 1⟩ : Point3D ℝ).z * scale⟩ A B)
      (rotate_point ⟨(⟨1, 1, 1⟩ : Point3D ℝ).x * scale, (⟨1, 1, 1⟩ : Point3D ℝ).y * scale,
        (⟨1, 1, 1⟩ : Point3D ℝ).z * scale⟩ A B) := by
    rw [face_normal_eq, face_normal_eq, hcross, hlen]
  have hda : ∀ v0 v1 v2 : Point3D ℝ,
      (face_cross (rotate_point ⟨v0.x * scale, v0.y * scale, v0.z * scale⟩ A B)
          (rotate_point ⟨v1.x * scale, v1.y * scale, v1.z * scale⟩ A B)
          (rotate_point ⟨v2.x * scale, v2.y * scale, v2.z * scale⟩ A B)).x *
        (rotate_point ⟨v0.x * scale, v0.y * scale, v0.z * scale⟩ A B).x +
      (face_cross (rotate_point ⟨v0.x * scale, v0.y * scale, v0.z * scale⟩ A B)
          (rotate_point ⟨v1.x * scale, v1.y * scale, v1.z * scale⟩ A B)
          (rotate_point ⟨v2.x * scale, v2.y * scale, v2.z * scale⟩ A B)).y *
        (rotate_point ⟨v0.x * scale, v0.y * scale, v0.z * scale⟩ A B).y +
      (face_cross (rotate_point ⟨v0.x * scale, v0.y * scale, v0.z * scale⟩ A B)
          (rotate_point ⟨v1.x * scale, v1.y * scale, v1.z * scale⟩ A B)
          (rotate_point ⟨v2.x * scale, v2.y * scale, v2.z * scale⟩ A B)).z *
        (rotate_point ⟨v0.x * scale, v0.y * scale, v0.z * scale⟩ A B).z
      = scale ^ 3 * ((face_cross v0 v1 v2).x * v0.x + (face_cross v0 v1 v2).y * v0.y
          + (face_cross v0 v1 v2).z * v0.z) := by
    intro v0 v1 v2
    rw [face_cross_drawn, rotate_point_dot]
    ring
  have hdotA := hda ⟨-1, -1, -1⟩ ⟨1, -1, -1⟩ ⟨1, 1, -1⟩
  have hdotB := hda ⟨-1, -1, 1⟩ ⟨1, -1, 1⟩ ⟨1, 1, 1⟩
  have hcA : (scale ^ 3 * ((face_cross (⟨-1, -1, -1⟩ : Point3D ℝ) ⟨1, -1, -1⟩ ⟨1, 1, -1⟩).x *
      (⟨-1, -1, -1⟩ : Point3D ℝ).x +
      (face_cross (⟨-1, -1, -1⟩ : Point3D ℝ) ⟨1, -1, -1⟩ ⟨1, 1, -1⟩).y *
      (⟨-1, -1, -1⟩ : Point3D ℝ).y +
      (face_cross (⟨-1, -1, -1⟩ : Point3D ℝ) ⟨1, -1, -1⟩ ⟨1, 1, -1⟩).z *
      (⟨-1, -1, -1⟩ : Point3D ℝ).z)) = -4 * scale ^ 3 := by
    simp only [face_cross]
    ring
  have hcB : (scale ^ 3 * ((face_cross (⟨-1, -1, 1⟩ : Point3D ℝ) ⟨1, -1, 1⟩ ⟨1, 1, 1⟩).x *
      (⟨-1, -1, 1⟩ : Point3D ℝ).x +
      (face_cross (⟨-1, -1, 1⟩ : Point3D ℝ) ⟨1, -1, 1⟩ ⟨1, 1, 1⟩).y *
      (⟨-1, -1, 1⟩ : Point3D ℝ).y +
      (face_cross (⟨-1, -1, 1⟩ : Point3D ℝ) ⟨1, -1, 1⟩ ⟨1, 1, 1⟩).z *
      (⟨-1, -1, 1⟩ : Point3D ℝ).z)) = 4 * scale ^ 3 := by
    simp only [face_cross]
    ring
  rw [hcA] at hdotA
  rw [hcB] at hdotB
  refine ⟨_, _, _, _, _, _, ⟨rfl, rfl⟩,
    ⟨vertex_at_eq _ _ 0 0 _ rfl rfl, vertex_at_eq _ _ 1 1 _ rfl rfl,
      vertex_at_eq _ _ 2 2 _ rfl rfl⟩,
    ⟨vertex_at_eq _ _ 0 4 _ rfl rfl, vertex_at_eq _ _ 1 5 _ rfl rfl,
      vertex_at_eq _ _ 2 6 _ rfl rfl⟩,
    hu, hv, hcross, hnormal, ?_, ?_, ?_, hdotA, hdotB, ?_, ?_⟩
  · exact congrArg (fun n => light_intensity n light) hnormal
  · exact congrArg (fun n => shade_bucket (light_intensity n light)) hnormal
  · exact congrArg (fun n => readAt table (shade_bucket (light_intensity n light))) hnormal
  · intro hs
    have h3 : 0 < scale ^ 3 := by positivity
    exact ⟨lt_of_eq_of_lt hdotA (by linarith), lt_of_lt_of_eq (by linarith) hdotB.symm⟩
  · intro hs
    have h3 : scale ^ 3 < 0 := by
      have h4 : 0 < (-scale) ^ 3 := by
        have h5 : 0 < -scale := by linarith
        positivity
      have h6 : (-scale) ^ 3 = -(scale ^ 3) := by ring
      linarith
    exact ⟨lt_of_lt_of_eq (by linarith) hdotA.symm, lt_of_eq_of_lt hdotB (by linarith)⟩

/-- Witness for C20 (amended): the cube of `main`, scale 1.5, turned by
`A = 0.04`, `B = 0.02` as after the first frame. -/
theorem cube_opposite_faces_witness :
    ∃ a1 a2 a3 b1 b2 b3 : Point3D ℝ,
      (vertex_at (rotated_vertices (Cube.new (1.5 : ℝ)).vertices (Cube.new (1.5 : ℝ)).scale
          0.04 0.02) [0, 1, 2, 3] 0 = some a1 ∧
        vertex_at (rotated_vertices (Cube.new (1.5 : ℝ)).vertices (Cube.new (1.5 : ℝ)).scale
          0.04 0.02) [4, 5, 6, 7] 0 = some b1) ∧
      face_normal a1 a2 a3 = face_normal b1 b2 b3 ∧
      (face_cross a1 a2 a3).x * a1.x + (face_cross a1 a2 a3).y * a1.y +
          (face_cross a1 a2 a3).z * a1.z < 0 ∧
      0 < (face_cross b1 b2 b3).x * b1.x + (face_cross b1 b2 b3).y * b1.y +
          (face_cross b1 b2 b3).z * b1.z := by
  obtain ⟨a1, a2, a3, b1, b2, b3, _, ha, hb, _, _, _, hn, _, _, _, _, _, hpos, _⟩ :=
    cube_opposite_faces 1.5 0.04 0.02 lightDir shades
  have h := hpos (by norm_num)
  exact ⟨a1, a2, a3, b1, b2, b3, ⟨ha.1, hb.1⟩, hn, h.1, h.2⟩

end CubeFaceClaims

/-! ## Distance of the samples from the origin -/

section DistanceLemmas

variable {α : Type} [LinearOrderedField α]

/-- A point between two points of squared length at most `c` has squared
length at most `c`. -/
theorem normsq_between_le (a b : Point3D α) (t c : α) (ht0 : 0 ≤ t) (ht1 : t ≤ 1)
    (ha : a.x * a.x + a.y * a.y + a.z * a.z ≤ c)
    (hb : b.x * b.x + b.y * b.y + b.z * b.z ≤ c) :
    ((1 - t) * a.x + t * b.x) * ((1 - t) * a.x + t * b.x) +
      ((1 - t) * a.y + t * b.y) * ((1 - t) * a.y + t * b.y) +
      ((1 - t) * a.z + t * b.z) * ((1 - t) * a.z + t * b.z) ≤ c := by
  have h1 : 0 ≤ 1 - t := by linarith
  have key : c - (((1 - t) * a.x + t * b.x) * ((1 - t) * a.x + t * b.x) +
      ((1 - t) * a.y + t * b.y) * ((1 - t) * a.y + t * b.y) +
      ((1 - t) * a.z + t * b.z) * ((1 - t) * a.z + t * b.z))
      = (1 - t) * (c - (a.x * a.x + a.y * a.y + a.z * a.z))
        + t * (c - (b.x * b.x + b.y * b.y + b.z * b.z))
        + t * (1 - t) * ((a.x - b.x) * (a.x - b.x) + (a.y - b.y) * (a.y - b.y)
          + (a.z - b.z) * (a.z - b.z)) := by ring
  have hsq : 0 ≤ (a.x - b.x) * (a.x - b.x) + (a.y - b.y) * (a.y - b.y)
      + (a.z - b.z) * (a.z - b.z) :=
    add_nonneg (add_nonneg (mul_self_nonneg _) (mul_self_nonneg _)) (mul_self_nonneg _)
  have hnn : 0 ≤ (1 - t) * (c - (a.x * a.x + a.y * a.y + a.z * a.z))
        + t * (c - (b.x * b.x + b.y * b.y + b.z * b.z))
        + t * (1 - t) * ((a.x - b.x) * (a.x - b.x) + (a.y - b.y) * (a.y - b.y)
          + (a.z - b.z) * (a.z - b.z)) :=
    add_nonneg (add_nonneg (mul_nonneg h1 (by linarith)) (mul_nonneg ht0 (by linarith)))
      (mul_nonneg (mul_nonneg ht0 h1) hsq)
  linarith

/-- Every grid sample of a patch whose four corners have squared length at
most `c` has squared length at most `c`. -/
theorem face_sample_normsq_le (p1 p2 p3 p4 : Point3D α) (c : α) (i j : Nat)
    (hi : i ≤ 20) (hj : j ≤ 20)
    (h1 : p1.x * p1.x + p1.y * p1.y + p1.z * p1.z ≤ c)
    (h2 : p2.x * p2.x + p2.y * p2.y + p2.z * p2.z ≤ c)
    (h3 : p3.x * p3.x + p3.y * p3.y + p3.z * p3.z ≤ c)
    (h4 : p4.x * p4.x + p4.y * p4.y + p4.z * p4.z ≤ c) :
    (face_sample p1 p2 p3 p4 i j).x * (face_sample p1 p2 p3 p4 i j).x +
      (face_sample p1 p2 p3 p4 i j).y * (face_sample p1 p2 p3 p4 i j).y +
      (face_sample p1 p2 p3 p4 i j).z * (face_sample p1 p2 p3 p4 i j).z ≤ c := by
  have hu1 : (i : α) / 20 ≤ 1 := by
    rw [div_le_one (by norm_num)]
    exact_mod_cast hi
  have hv1 : (j : α) / 20 ≤ 1 := by
    rw [div_le_one (by norm_num)]
    exact_mod_cast hj
  have hu0 : (0 : α) ≤ (i : α) / 20 := by positivity
  have hv0 : (0 : α) ≤ (j : α) / 20 := by positivity
  have h12 := normsq_between_le p1 p2 ((i : α) / 20) c hu0 hu1 h1 h2
  have h43 := normsq_between_le p4 p3 ((i : α) / 20) c hu0 hu1 h4 h3
  have hall := normsq_between_le
    ⟨(1 - (i : α) / 20) * p1.x + (i : α) / 20 * p2.x,
     (1 - (i : α) / 20) * p1.y + (i : α) / 20 * p2.y,
     (1 - (i : α) / 20) * p1.z + (i : α) / 20 * p2.z⟩
    ⟨(1 - (i : α) / 20) * p4.x + (i : α) / 20 * p3.x,
     (1 - (i : α) / 20) * p4.y + (i : α) / 20 * p3.y,
     (1 - (i : α) / 20) * p4.z + (i : α) / 20 * p3.z⟩
    ((j : α) / 20) c hv0 hv1 h12 h43
  have ex : (face_sample p1 p2 p3 p4 i j).x =
      (1 - (j : α) / 20) * ((1 - (i : α) / 20) * p1.x + (i : α) / 20 * p2.x)
        + (j : α) / 20 * ((1 - (i : α) / 20) * p4.x + (i : α) / 20 * p3.x) := by
    simp only [face_sample, Nat.cast_ofNat]
    ring
  have ey : (face_sample p1 p2 p3 p4 i j).y =
      (1 - (j : α) / 20) * ((1 - (i : α) / 20) * p1.y + (i : α) / 20 * p2.y)
        + (j : α) / 20 * ((1 - (i : α) / 20) * p4.y + (i : α) / 20 * p3.y) := by
    simp only [face_sample, Nat.cast_ofNat]
    ring
  have ez : (face_sample p1 p2 p3 p4 i j).z =
      (1 - (j : α) / 20) * ((1 - (i : α) / 20) * p1.z + (i : α) / 20 * p2.z)
        + (j : α) / 20 * ((1 - (i : α) / 20) * p4.z + (i : α) / 20 * p3.z) := by
    simp only [face_sample, Nat.cast_ofNat]
    ring
  rw [ex, ey, ez]
  exact hall

/-- A point of squared length below 25 is in front of the projection
singularity `z = -5`. -/
theorem z_add_five_pos (p : Point3D α) (c : α) (hc : c < 25)
    (h : p.x * p.x + p.y * p.y + p.z * p.z ≤ c) : 0 < p.z + 5 := by
  nlinarith [mul_self_nonneg p.x, mul_self_nonneg p.y, mul_self_nonneg (p.z - 5)]

end DistanceLemmas

section RealDistanceLemmas

/-- A successful lookup returns one of the rotated vertices. -/
theorem vertex_at_mem (rv : List (Point3D ℝ)) (face : List Int) (k : Nat) (p : Point3D ℝ)
    (h : vertex_at rv face k = some p) : p ∈ rv := by
  unfold vertex_at at h
  cases hf : face[k]? with
  | none => simp [hf] at h
  | some idx =>
    simp only [hf] at h
    rw [readAt_eq_some_iff] at h
    obtain ⟨hlt, he⟩ := List.getElem?_eq_some.1 h.2
    rw [← he]
    exact List.getElem_mem hlt

/-- The rotated vertices are the scaled and rotated model vertices. -/
theorem rotated_vertices_mem (vs : List (Point3D ℝ)) (scale A B : ℝ) (p : Point3D ℝ)
    (h : p ∈ rotated_vertices vs scale A B) :
    ∃ v ∈ vs, p = rotate_point ⟨v.x * scale, v.y * scale, v.z * scale⟩ A B := by
  unfold rotated_vertices at h
  obtain ⟨v, hv, rfl⟩ := List.mem_map.1 h
  exact ⟨v, hv, rfl⟩

/-- Scaling and rotating multiplies the squared length by `scale * scale`. -/
theorem rotated_normsq (v : Point3D ℝ) (scale A B : ℝ) :
    (rotate_point ⟨v.x * scale, v.y * scale, v.z * scale⟩ A B).x *
      (rotate_point ⟨v.x * scale, v.y * scale, v.z * scale⟩ A B).x +
    (rotate_point ⟨v.x * scale, v.y * scale, v.z * scale⟩ A B).y *
      (rotate_point ⟨v.x * scale, v.y * scale, v.z * scale⟩ A B).y +
    (rotate_point ⟨v.x * scale, v.y * scale, v.z * scale⟩ A B).z *
      (rotate_point ⟨v.x * scale, v.y * scale, v.z * scale⟩ A B).z
    = scale * scale * (v.x * v.x + v.y * v.y + v.z * v.z) := by
  rw [rotate_point_dot]
  ring

/-- Every lookup into the rotated vertices of a shape whose model vertices
have squared length at most `c` returns a point of squared length at most
`scale * scale * c`. -/
theorem vertex_at_normsq_le (vs : List (Point3D ℝ)) (scale A B c : ℝ)
    (hvs : ∀ v ∈ vs, v.x * v.x + v.y * v.y + v.z * v.z ≤ c)
    (face : List Int) (k : Nat) (p : Point3D ℝ)
    (h : vertex_at (rotated_vertices vs scale A B) face k = some p) :
    p.x * p.x + p.y * p.y + p.z * p.z ≤ scale * scale * c := by
  obtain ⟨v, hv, rfl⟩ := rotated_vertices_mem vs scale A B p (vertex_at_mem _ _ _ _ h)
  rw [rotated_normsq]
  exact mul_le_mul_of_nonneg_left (hvs v hv) (mul_self_nonneg scale)

theorem cube_vertices_normsq (scale : ℝ) :
    ∀ v ∈ (Cube.new scale).vertices, v.x * v.x + v.y * v.y + v.z * v.z ≤ 3 := by
  intro v hv
  simp only [Cube.new, List.mem_cons, List.mem_singleton, List.not_mem_nil, or_false] at hv
  rcases hv with rfl | rfl | rfl | rfl | rfl | rfl | rfl | rfl <;> norm_num

theorem pyramid_vertices_normsq (scale : ℝ) :
    ∀ v ∈ (Pyramid.new scale).vertices, v.x * v.x + v.y * v.y + v.z * v.z ≤ 3 := by
  intro v hv
  simp only [Pyramid.new, List.mem_cons, List.mem_singleton, List.not_mem_nil, or_false] at hv
  rcases hv with rfl | rfl | rfl | rfl | rfl <;> norm_num

theorem sphere_vertices_normsq (m n : Int) :
    ∀ v ∈ sphere_vertices m n, v.x * v.x + v.y * v.y + v.z * v.z ≤ 1 := by
  intro v hv
  simp only [sphere_vertices, List.mem_flatMap, List.mem_map, List.mem_range] at hv
  obtain ⟨i, _, j, _, rfl⟩ := hv
  have h1 := cos_sq_add_sin_sq_mul (M_PI * (i : ℝ) / (m : ℝ))
  have h2 := cos_sq_add_sin_sq_mul (2 * M_PI * (j : ℝ) / (n : ℝ))
  apply le_of_eq
  simp only []
  linear_combination
    (Real.sin (M_PI * (i : ℝ) / (m : ℝ)) * Real.sin (M_PI * (i : ℝ) / (m : ℝ))) * h2 + h1

end RealDistanceLemmas

/-! ## Claim about the projection singularity -/

section SingularityClaims

/-- C18. The projection singularity is unreachable for the scene built in
`main`.  For `Cube(1.5)`, `Pyramid(1.5)` and `Sphere(10, 10, 2.0)`, every
rotation `(A, B)` and every grid sample (`i, j ≤ 20`) of every face passed to
`fill_face`, the squared distance of the sample from the origin is at most
`27/4 = (1.5 * sqrt 3)^2` (resp. `4 = 2^2`), so `z + 5 > 0` and the inverse depth
`D` computed by `project_point` is strictly positive. -/
theorem projection_singularity_unreachable (A B offsetX offsetY : ℝ) (width height : Int) :
    (∀ f ∈ cube.faces, ∀ p1 p2 p3 p4 : Point3D ℝ,
      vertex_at (rotated_vertices cube.vertices cube.scale A B) f 0 = some p1 →
      vertex_at (rotated_vertices cube.vertices cube.scale A B) f 1 = some p2 →
      vertex_at (rotated_vertices cube.vertices cube.scale A B) f 2 = some p3 →
      vertex_at (rotated_vertices cube.vertices cube.scale A B) f 3 = some p4 →
      ∀ i j : Nat, i ≤ 20 → j ≤ 20 →
        (face_sample p1 p2 p3 p4 i j).x * (face_sample p1 p2 p3 p4 i j).x +
          (face_sample p1 p2 p3 p4 i j).y * (face_sample p1 p2 p3 p4 i j).y +
          (face_sample p1 p2 p3 p4 i j).z * (face_sample p1 p2 p3 p4 i j).z ≤ 27 / 4 ∧
        0 < (face_sample p1 p2 p3 p4 i j).z + 5 ∧
        0 < (project_point (face_sample p1 p2 p3 p4 i j) offsetX offsetY width height).D) ∧
    (∀ f ∈ pyramid.faces, ∀ p1 p2 p3 : Point3D ℝ,
      vertex_at (rotated_vertices pyramid.vertices pyramid.scale A B) f 0 = some p1 →
      vertex_at (rotated_vertices pyramid.vertices pyramid.scale A B) f 1 = some p2 →
      vertex_at (rotated_vertices pyramid.vertices pyramid.scale A B) f 2 = some p3 →
      ∀ i j : Nat, i ≤ 20 → j ≤ 20 →
        (face_sample p1 p2 p3 p3 i j).x * (face_sample p1 p2 p3 p3 i j).x +
          (face_sample p1 p2 p3 p3 i j).y * (face_sample p1 p2 p3 p3 i j).y +
          (face_sample p1 p2 p3 p3 i j).z * (face_sample p1 p2 p3 p3 i j).z ≤ 27 / 4 ∧
        0 < (face_sample p1 p2 p3 p3 i j).z + 5 ∧
        0 < (project_point (face_sample p1 p2 p3 p3 i j) offsetX offsetY width height).D) ∧
    (∀ f ∈ sphere.faces, ∀ p1 p2 p3 : Point3D ℝ,
      vertex_at (rotated_vertices sphere.vertices sphere.scale A B) f 0 = some p1 →
      vertex_at (rotated_vertices sphere.vertices sphere.scale A B) f 1 = some p2 →
      vertex_at (rotated_vertices sphere.vertices sphere.scale A B) f 2 = some p3 →
      ∀ i j : Nat, i ≤ 20 → j ≤ 20 →
        (face_sample p1 p2 p3 p3 i j).x * (face_sample p1 p2 p3 p3 i j).x +
          (face_sample p1 p2 p3 p3 i j).y * (face_sample p1 p2 p3 p3 i j).y +
          (face_sample p1 p2 p3 p3 i j).z * (face_sample p1 p2 p3 p3 i j).z ≤ 4 ∧
        0 < (face_sample p1 p2 p3 p3 i j).z + 5 ∧
        0 < (project_point (face_sample p1 p2 p3 p3 i j) offsetX offsetY width height).D) := by
  have hfin : ∀ (q : Point3D ℝ) (c : ℝ), c < 25 → q.x * q.x + q.y * q.y + q.z * q.z ≤ c →
      q.x * q.x + q.y * q.y + q.z * q.z ≤ c ∧ 0 < q.z + 5 ∧
      0 < (project_point q offsetX offsetY width height).D := by
    intro q c hc hq
    have hz := z_add_five_pos q c hc hq
    refine ⟨hq, hz, ?_⟩
    simp only [project_point]
    exact one_div_pos.2 hz
  have hcs : cube.scale * cube.scale * 3 = 27 / 4 := by
    simp only [cube, Cube.new]
    norm_num
  have hps : pyramid.scale * pyramid.scale * 3 = 27 / 4 := by
    simp only [pyramid, Pyramid.new]
    norm_num
  have hss : sphere.scale * sphere.scale * 1 = 4 := by
    simp only [sphere, Sphere.new]
    norm_num
  refine ⟨?_, ?_, ?_⟩
  · intro f _ p1 p2 p3 p4 h1 h2 h3 h4 i j hi hj
    have hv := cube_vertices_normsq (1.5 : ℝ)
    have b1 := vertex_at_normsq_le cube.vertices cube.scale A B 3 hv f 0 p1 h1
    have b2 := vertex_at_normsq_le cube.vertices cube.scale A B 3 hv f 1 p2 h2
    have b3 := vertex_at_normsq_le cube.vertices cube.scale A B 3 hv f 2 p3 h3
    have b4 := vertex_at_normsq_le cube.vertices cube.scale A B 3 hv f 3 p4 h4
    rw [hcs] at b1 b2 b3 b4
    exact hfin _ _ (by norm_num) (face_sample_normsq_le p1 p2 p3 p4 _ i j hi hj b1 b2 b3 b4)
  · intro f _ p1 p2 p3 h1 h2 h3 i j hi hj
    have hv := pyramid_vertices_normsq (1.5 : ℝ)
    have b1 := vertex_at_normsq_le pyramid.vertices pyramid.scale A B 3 hv f 0 p1 h1
    have b2 := vertex_at_normsq_le pyramid.vertices pyramid.scale A B 3 hv f 1 p2 h2
    have b3 := vertex_at_normsq_le pyramid.vertices pyramid.scale A B 3 hv f 2 p3 h3
    rw [hps] at b1 b2 b3
    exact hfin _ _ (by norm_num) (face_sample_normsq_le p1 p2 p3 p3 _ i j hi hj b1 b2 b3 b3)
  · intro f _ p1 p2 p3 h1 h2 h3 i j hi hj
    have hv := sphere_vertices_normsq 10 10
    have b1 := vertex_at_normsq_le sphere.vertices sphere.scale A B 1 hv f 0 p1 h1
    have b2 := vertex_at_normsq_le sphere.vertices sphere.scale A B 1 hv f 1 p2 h2
    have b3 := vertex_at_normsq_le sphere.vertices sphere.scale A B 1 hv f 2 p3 h3
    rw [hss] at b1 b2 b3
    exact hfin _ _ (by norm_num) (face_sample_normsq_le p1 p2 p3 p3 _ i j hi hj b1 b2 b3 b3)

/-- Witness for C18: the face {0,1,2,3} of the cube of `main`, not rotated,
sampled at `i = j = 10`. -/
theorem projection_singularity_unreachable_witness :
    0 < (face_sample
      (rotate_point ⟨(⟨-1, -1, -1⟩ : Point3D ℝ).x * 1.5, (⟨-1, -1, -1⟩ : Point3D ℝ).y * 1.5,
        (⟨-1, -1, -1⟩ : Point3D ℝ).z * 1.5⟩ 0 0)
      (rotate_point ⟨(⟨1, -1, -1⟩ : Point3D ℝ).x * 1.5, (⟨1, -1, -1⟩ : Point3D ℝ).y * 1.5,
        (⟨1, -1, -1⟩ : Point3D ℝ).z * 1.5⟩ 0 0)
      (rotate_point ⟨(⟨1, 1, -1⟩ : Point3D ℝ).x * 1.5, (⟨1, 1, -1⟩ : Point3D ℝ).y * 1.5,
        (⟨1, 1, -1⟩ : Point3D ℝ).z * 1.5⟩ 0 0)
      (rotate_point ⟨(⟨-1, 1, -1⟩ : Point3D ℝ).x * 1.5, (⟨-1, 1, -1⟩ : Point3D ℝ).y * 1.5,
        (⟨-1, 1, -1⟩ : Point3D ℝ).z * 1.5⟩ 0 0) 10 10).z + 5 :=
  ((projection_singularity_unreachable 0 0 25 (-10) 100 40).1 [0, 1, 2, 3]
    (by simp [cube, Cube.new]) _ _ _ _
    (vertex_at_eq _ _ 0 0 _ rfl rfl) (vertex_at_eq _ _ 1 1 _ rfl rfl)
    (vertex_at_eq _ _ 2 2 _ rfl rfl) (vertex_at_eq _ _ 3 3 _ rfl rfl)
    10 10 (by decide) (by decide)).2.1

end SingularityClaims

/-! ## The vertices and faces of the sphere -/

section SphereLemmas

/-- Indexing a concatenation of blocks of equal length `c`: position
`i * c + j` is position `j` of block `i`. -/
theorem getElem?_flatMap_const {ι β : Type} (g : ι → List β) (c : Nat)
    (hg : ∀ a, (g a).length = c) (j : Nat) (hj : j < c) :
    ∀ (l : List ι) (i : Nat) (hi : i < l.length),
      (l.flatMap g)[i * c + j]? = (g (l.get ⟨i, hi⟩))[j]? := by
  intro l
  induction l with
  | nil =>
    intro i hi
    exact absurd hi (Nat.not_lt_zero i)
  | cons a l ih =>
    intro i hi
    rw [List.flatMap_cons]
    cases i with
    | zero =>
      rw [Nat.zero_mul, Nat.zero_add, List.getElem?_append_left (by rw [hg a]; exact hj)]
      rfl
    | succ k =>
      have hk : k < l.length := Nat.lt_of_succ_lt_succ hi
      have hle : (g a).length ≤ (k + 1) * c + j := by
        rw [hg a, Nat.succ_mul]
        omega
      rw [List.getElem?_append_right hle, hg a]
      have e : (k + 1) * c + j - c = k * c + j := by
        rw [Nat.succ_mul]
        omega
      rw [e, ih k hk]
      rfl

/-- The sphere vertex with grid position `(i, j)` is stored at index
`i * (n + 1) + j`. -/
theorem sphere_vertices_get (m n : Int) (i j : Nat) (hi : (i : Int) ≤ m) (hj : (j : Int) ≤ n) :
    (sphere_vertices m n)[i * (n + 1).toNat + j]? = some (sphere_point m n i j) := by
  have hil : i < (List.range (m + 1).toNat).length := by
    rw [List.length_range]
    omega
  have hjl : j < (n + 1).toNat := by omega
  unfold sphere_vertices
  rw [getElem?_flatMap_const _ (n + 1).toNat (fun a => by simp) j hjl _ i hil]
  simp [List.getElem?_map, List.getElem?_range hjl, sphere_point]

/-- The lookup of the rotated sphere vertex with grid position `(i, j)`. -/
theorem sphere_vertex_at (m n : Int) (scale A B : ℝ) (i j : Nat) (hi : (i : Int) ≤ m)
    (hj : (j : Int) ≤ n) (face : List Int) (k : Nat)
    (hf : face[k]? = some ((i : Int) * (n + 1) + (j : Int))) :
    vertex_at (rotated_vertices (sphere_vertices m n) scale A B) face k =
      some (rotate_point ⟨(sphere_point m n i j).x * scale, (sphere_point m n i j).y * scale,
        (sphere_point m n i j).z * scale⟩ A B) := by
  have hn0 : 0 ≤ n := le_trans (Int.ofNat_nonneg j) hj
  have hcast : (((i * (n + 1).toNat + j : Nat) : Int)) = (i : Int) * (n + 1) + (j : Int) := by
    push_cast
    rw [Int.toNat_of_nonneg (by omega)]
  apply vertex_at_eq _ _ k (i * (n + 1).toNat + j)
  · rw [hf, hcast]
  · rw [rotated_vertices_get, sphere_vertices_get m n i j hi hj]
    rfl

/-- The faces of the sphere: two triangles for each grid cell `(i, j)`. -/
theorem sphere_faces_mem (m n : Int) (f : List Int) (hf : f ∈ sphere_faces m n) :
    ∃ i j : Nat, (i : Int) < m ∧ (j : Int) < n ∧
      (f = [(i : Int) * (n + 1) + (j : Int), (i : Int) * (n + 1) + (j : Int) + n + 1,
          (i : Int) * (n + 1) + (j : Int) + 1] ∨
        f = [(i : Int) * (n + 1) + (j : Int) + n + 1,
          (i : Int) * (n + 1) + (j : Int) + n + 1 + 1,
          (i : Int) * (n + 1) + (j : Int) + 1]) := by
  simp only [sphere_faces, List.mem_flatMap, List.mem_range, List.mem_cons,
    List.mem_singleton, List.not_mem_nil, or_false] at hf
  obtain ⟨i, hi, j, hj, hf⟩ := hf
  exact ⟨i, j, by omega, by omega, hf⟩

theorem M_PI_pos : 0 < M_PI := by
  unfold M_PI
  norm_num

/-- The constant that the program holds is slightly above π. -/
theorem pi_lt_M_PI : Real.pi < M_PI := by
  have h := Real.pi_lt_d20
  unfold M_PI
  norm_num at h ⊢
  linarith

theorem M_PI_lt : M_PI < 3.1416 := by
  unfold M_PI
  norm_num

/-- The cosine takes different values at `0 ≤ a < b` when `a + b < 2π`. -/
theorem cos_ne_of_lt (a b : ℝ) (ha : 0 ≤ a) (hab : a < b) (hsum : a + b < 2 * Real.pi) :
    Real.cos a ≠ Real.cos b := by
  by_cases hb : b ≤ Real.pi
  · exact (Real.cos_lt_cos_of_nonneg_of_le_pi ha hb hab).ne'
  · have hb1 : Real.pi < b := not_le.1 hb
    rw [← Real.cos_two_pi_sub b]
    exact (Real.cos_lt_cos_of_nonneg_of_le_pi ha (by linarith) (by linarith)).ne'

/-- For the ten latitude divisions of `main`: in the rows 1 to 9 the sine of
the latitude angle is positive. -/
theorem main_sin_theta_ne (i : Nat) (hi1 : 1 ≤ i) (hi9 : i ≤ 9) :
    Real.sin (M_PI * (i : ℝ) / ((10 : Int) : ℝ)) ≠ 0 := by
  have hi0 : (0 : ℝ) < (i : ℝ) := by exact_mod_cast hi1
  have hile : (i : ℝ) ≤ 9 := by exact_mod_cast hi9
  have hM := M_PI_pos
  have hM2 := M_PI_lt
  have h3 := Real.pi_gt_three
  have hmul : M_PI * (i : ℝ) ≤ M_PI * 9 := mul_le_mul_of_nonneg_left hile hM.le
  apply ne_of_gt
  apply Real.sin_pos_of_pos_of_lt_pi
  · push_cast
    positivity
  · push_cast
    rw [div_lt_iff₀ (by norm_num)]
    nlinarith

/-- For the ten latitude divisions of `main`: consecutive rows, the last one
included, have different heights. -/
theorem main_cos_theta_ne (i : Nat) (hi9 : i ≤ 9) :
    Real.cos (M_PI * (i : ℝ) / ((10 : Int) : ℝ))
      ≠ Real.cos (M_PI * ((i + 1 : Nat) : ℝ) / ((10 : Int) : ℝ)) := by
  have hi0 : (0 : ℝ) ≤ (i : ℝ) := Nat.cast_nonneg i
  have hile : (i : ℝ) ≤ 9 := by exact_mod_cast hi9
  have hM := M_PI_pos
  have hM2 := M_PI_lt
  have h3 := Real.pi_gt_three
  have hmul : M_PI * (i : ℝ) ≤ M_PI * 9 := mul_le_mul_of_nonneg_left hile hM.le
  apply cos_ne_of_lt
  · push_cast
    positivity
  · push_cast
    apply div_lt_div_of_pos_right _ (by norm_num)
    nlinarith
  · push_cast
    have e : M_PI * (i : ℝ) / 10 + M_PI * ((i : ℝ) + 1) / 10
        = (2 * (M_PI * (i : ℝ)) + M_PI) / 10 := by ring
    rw [e, div_lt_iff₀ (by norm_num)]
    nlinarith

/-- For the ten longitude divisions of `main`: consecutive columns have
different longitude directions. -/
theorem main_phi_ne (j : Nat) :
    ¬ (Real.cos (2 * M_PI * (j : ℝ) / ((10 : Int) : ℝ))
        = Real.cos (2 * M_PI * ((j + 1 : Nat) : ℝ) / ((10 : Int) : ℝ))
      ∧ Real.sin (2 * M_PI * (j : ℝ) / ((10 : Int) : ℝ))
        = Real.sin (2 * M_PI * ((j + 1 : Nat) : ℝ) / ((10 : Int) : ℝ))) := by
  rintro ⟨hc, hs⟩
  have hM := M_PI_pos
  have hM2 := M_PI_lt
  have h3 := Real.pi_gt_three
  have hd : 2 * M_PI * ((j + 1 : Nat) : ℝ) / ((10 : Int) : ℝ)
      - 2 * M_PI * (j : ℝ) / ((10 : Int) : ℝ) = 2 * M_PI / 10 := by
    push_cast
    ring
  have hcos : Real.cos (2 * M_PI / 10) = 1 := by
    rw [← hd, Real.cos_sub, ← hc, ← hs]
    exact cos_sq_add_sin_sq_mul _
  have h0 := (Real.cos_eq_one_iff_of_lt_of_lt (by linarith) (by linarith)).1 hcos
  linarith

/-- The cross product of the first triangle of a grid cell, in terms of the
sines and cosines of its two latitudes and two longitudes. -/
theorem first_triangle_cross_ne (s1 s2 k1 k2 c1 c2 t1 t2 : ℝ) (hs1 : s1 ≠ 0) (hk : k1 ≠ k2)
    (hphi : ¬ (c1 = c2 ∧ t1 = t2)) :
    face_cross (⟨s1 * c1, s1 * t1, k1⟩ : Point3D ℝ) ⟨s2 * c1, s2 * t1, k2⟩ ⟨s1 * c2, s1 * t2, k1⟩
      ≠ ⟨0, 0, 0⟩ := by
  intro h
  have hx := congrArg Point3D.x h
  have hy := congrArg Point3D.y h
  simp only [face_cross] at hx hy
  have hk' : k2 - k1 ≠ 0 := sub_ne_zero.2 (Ne.symm hk)
  have e1 : (k2 - k1) * s1 * (t2 - t1) = 0 := by linear_combination -hx
  have e2 : (k2 - k1) * s1 * (c2 - c1) = 0 := by linear_combination hy
  have ht : t2 - t1 = 0 := by
    rcases mul_eq_zero.1 e1 with h1 | h1
    · exact absurd h1 (mul_ne_zero hk' hs1)
    · exact h1
  have hc : c2 - c1 = 0 := by
    rcases mul_eq_zero.1 e2 with h1 | h1
    · exact absurd h1 (mul_ne_zero hk' hs1)
    · exact h1
  exact hphi ⟨by linarith, by linarith⟩

/-- The cross product of the second triangle of a grid cell. -/
theorem second_triangle_cross_ne (s1 s2 k1 k2 c1 c2 t1 t2 : ℝ) (hs2 : s2 ≠ 0) (hk : k1 ≠ k2)
    (hphi : ¬ (c1 = c2 ∧ t1 = t2)) :
    face_cross (⟨s2 * c1, s2 * t1, k2⟩ : Point3D ℝ) ⟨s2 * c2, s2 * t2, k2⟩ ⟨s1 * c2, s1 * t2, k1⟩
      ≠ ⟨0, 0, 0⟩ := by
  intro h
  have hx := congrArg Point3D.x h
  have hy := congrArg Point3D.y h
  simp only [face_cross] at hx hy
  have hk' : k1 - k2 ≠ 0 := sub_ne_zero.2 hk
  have e1 : (k1 - k2) * s2 * (t2 - t1) = 0 := by linear_combination hx
  have e2 : (k1 - k2) * s2 * (c2 - c1) = 0 := by linear_combination -hy
  have ht : t2 - t1 = 0 := by
    rcases mul_eq_zero.1 e1 with h1 | h1
    · exact absurd h1 (mul_ne_zero hk' hs2)
    · exact h1
  have hc : c2 - c1 = 0 := by
    rcases mul_eq_zero.1 e2 with h1 | h1
    · exact absurd h1 (mul_ne_zero hk' hs2)
    · exact h1
  exact hphi ⟨by linarith, by linarith⟩

/-- All vertices of the first row are the pole (0, 0, 1). -/
theorem sphere_point_row_zero (m n : Int) (j : Nat) : sphere_point m n 0 j = ⟨0, 0, 1⟩ := by
  simp [sphere_point]

end SphereLemmas

/-! ## Claims about degenerate normals -/

section NormalClaims

/-- A drawn face whose model corners have a nonzero cross product has a
nonzero cross product and a nonzero `normalLength`, if the scale is nonzero. -/
theorem drawn_face_ne_zero (rv : List (Point3D ℝ)) (scale A B : ℝ) (hscale : scale ≠ 0)
    (face : List Int) (v1 v2 v3 p1 p2 p3 : Point3D ℝ)
    (h1 : vertex_at rv face 0 = some (rotate_point ⟨v1.x * scale, v1.y * scale, v1.z * scale⟩ A B))
    (h2 : vertex_at rv face 1 = some (rotate_point ⟨v2.x * scale, v2.y * scale, v2.z * scale⟩ A B))
    (h3 : vertex_at rv face 2 = some (rotate_point ⟨v3.x * scale, v3.y * scale, v3.z * scale⟩ A B))
    (hc : face_cross v1 v2 v3 ≠ ⟨0, 0, 0⟩)
    (l1 : vertex_at rv face 0 = some p1) (l2 : vertex_at rv face 1 = some p2)
    (l3 : vertex_at rv face 2 = some p3) :
    face_cross p1 p2 p3 ≠ ⟨0, 0, 0⟩ ∧ normal_length p1 p2 p3 ≠ 0 := by
  rw [h1] at l1
  rw [h2] at l2
  rw [h3] at l3
  cases l1
  cases l2
  cases l3
  exact face_cross_drawn_ne_zero v1 v2 v3 scale A B hscale hc

/-- A drawn face whose model corners have a zero cross product has a zero
cross product and `normalLength = 0`. -/
theorem drawn_face_zero (rv : List (Point3D ℝ)) (scale A B : ℝ)
    (face : List Int) (v1 v2 v3 p1 p2 p3 : Point3D ℝ)
    (h1 : vertex_at rv face 0 = some (rotate_point ⟨v1.x * scale, v1.y * scale, v1.z * scale⟩ A B))
    (h2 : vertex_at rv face 1 = some (rotate_point ⟨v2.x * scale, v2.y * scale, v2.z * scale⟩ A B))
    (h3 : vertex_at rv face 2 = some (rotate_point ⟨v3.x * scale, v3.y * scale, v3.z * scale⟩ A B))
    (hc : face_cross v1 v2 v3 = ⟨0, 0, 0⟩)
    (l1 : vertex_at rv face 0 = some p1) (l2 : vertex_at rv face 1 = some p2)
    (l3 : vertex_at rv face 2 = some p3) :
    face_cross p1 p2 p3 = ⟨0, 0, 0⟩ ∧ normal_length p1 p2 p3 = 0 := by
  rw [h1] at l1
  rw [h2] at l2
  rw [h3] at l3
  cases l1
  cases l2
  cases l3
  have hz : face_cross (rotate_point ⟨v1.x * scale, v1.y * scale, v1.z * scale⟩ A B)
      (rotate_point ⟨v2.x * scale, v2.y * scale, v2.z * scale⟩ A B)
      (rotate_point ⟨v3.x * scale, v3.y * scale, v3.z * scale⟩ A B) = ⟨0, 0, 0⟩ := by
    rw [face_cross_drawn, hc]
    simp [rotate_point, rotate_with]
  refine ⟨hz, ?_⟩
  unfold normal_length
  rw [hz]
  simp

/-- A face whose `normalLength` is nonzero has a nonzero cross product. -/
theorem face_cross_ne_of_length (p1 p2 p3 : Point3D ℝ) (h : normal_length p1 p2 p3 ≠ 0) :
    face_cross p1 p2 p3 ≠ ⟨0, 0, 0⟩ := by
  intro hz
  apply h
  unfold normal_length
  rw [hz]
  simp

/-- The `normalLength` of a drawn face: the length of the cross product of the
model face, times the square of the scale. -/
theorem drawn_face_length (rv : List (Point3D ℝ)) (scale A B c : ℝ)
    (face : List Int) (v1 v2 v3 p1 p2 p3 : Point3D ℝ)
    (h1 : vertex_at rv face 0 = some (rotate_point ⟨v1.x * scale, v1.y * scale, v1.z * scale⟩ A B))
    (h2 : vertex_at rv face 1 = some (rotate_point ⟨v2.x * scale, v2.y * scale, v2.z * scale⟩ A B))
    (h3 : vertex_at rv face 2 = some (rotate_point ⟨v3.x * scale, v3.y * scale, v3.z * scale⟩ A B))
    (hc : (face_cross v1 v2 v3).x * (face_cross v1 v2 v3).x +
      (face_cross v1 v2 v3).y * (face_cross v1 v2 v3).y +
      (face_cross v1 v2 v3).z * (face_cross v1 v2 v3).z = c)
    (l1 : vertex_at rv face 0 = some p1) (l2 : vertex_at rv face 1 = some p2)
    (l3 : vertex_at rv face 2 = some p3) :
    normal_length p1 p2 p3 = Real.sqrt c * (scale * scale) := by
  rw [h1] at l1
  rw [h2] at l2
  rw [h3] at l3
  cases l1
  cases l2
  cases l3
  unfold normal_length
  dsimp only
  rw [face_cross_drawn_normsq, hc]
  have e : scale ^ 4 * c = c * (scale * scale) ^ 2 := by ring
  rw [e, Real.sqrt_mul' c (sq_nonneg _), Real.sqrt_sq (mul_self_nonneg scale)]

theorem sqrt_sixteen : Real.sqrt 16 = 4 := by
  rw [show (16 : ℝ) = 4 ^ 2 by norm_num]
  exact Real.sqrt_sq (by norm_num)

/-- The `normalLength` of every face of the drawn cube is `4 * scale^2`. -/
theorem cube_face_length (scale A B : ℝ) :
    ∀ f ∈ (Cube.new scale).faces, ∀ p1 p2 p3 : Point3D ℝ,
      vertex_at (rotated_vertices (Cube.new scale).vertices (Cube.new scale).scale A B) f 0
        = some p1 →
      vertex_at (rotated_vertices (Cube.new scale).vertices (Cube.new scale).scale A B) f 1
        = some p2 →
      vertex_at (rotated_vertices (Cube.new scale).vertices (Cube.new scale).scale A B) f 2
        = some p3 →
      normal_length p1 p2 p3 = 4 * (scale * scale) := by
  intro f hf p1 p2 p3 l1 l2 l3
  rw [← sqrt_sixteen]
  simp only [Cube.new, List.mem_cons, List.mem_singleton, List.not_mem_nil, or_false] at hf
  rcases hf with rfl | rfl | rfl | rfl | rfl | rfl
  · exact drawn_face_length _ scale A B 16 _ ⟨-1, -1, -1⟩ ⟨1, -1, -1⟩ ⟨1, 1, -1⟩ p1 p2 p3
      (vertex_at_eq _ _ 0 0 _ rfl rfl) (vertex_at_eq _ _ 1 1 _ rfl rfl)
      (vertex_at_eq _ _ 2 2 _ rfl rfl) (by simp only [face_cross]; norm_num) l1 l2 l3
  · exact drawn_face_length _ scale A B 16 _ ⟨-1, -1, 1⟩ ⟨1, -1, 1⟩ ⟨1, 1, 1⟩ p1 p2 p3
      (vertex_at_eq _ _ 0 4 _ rfl rfl) (vertex_at_eq _ _ 1 5 _ rfl rfl)
      (vertex_at_eq _ _ 2 6 _ rfl rfl) (by simp only [face_cross]; norm_num) l1 l2 l3
  · exact drawn_face_length _ scale A B 16 _ ⟨-1, -1, -1⟩ ⟨1, -1, -1⟩ ⟨1, -1, 1⟩ p1 p2 p3
      (vertex_at_eq _ _ 0 0 _ rfl rfl) (vertex_at_eq _ _ 1 1 _ rfl rfl)
      (vertex_at_eq _ _ 2 5 _ rfl rfl) (by simp only [face_cross]; norm_num) l1 l2 l3
  · exact drawn_face_length _ scale A B 16 _ ⟨1, -1, -1⟩ ⟨1, 1, -1⟩ ⟨1, 1, 1⟩ p1 p2 p3
      (vertex_at_eq _ _ 0 1 _ rfl rfl) (vertex_at_eq _ _ 1 2 _ rfl rfl)
      (vertex_at_eq _ _ 2 6 _ rfl rfl) (by simp only [face_cross]; norm_num) l1 l2 l3
  · exact drawn_face_length _ scale A B 16 _ ⟨1, 1, -1⟩ ⟨-1, 1, -1⟩ ⟨-1, 1, 1⟩ p1 p2 p3
      (vertex_at_eq _ _ 0 2 _ rfl rfl) (vertex_at_eq _ _ 1 3 _ rfl rfl)
      (vertex_at_eq _ _ 2 7 _ rfl rfl) (by simp only [face_cross]; norm_num) l1 l2 l3
  · exact drawn_face_length _ scale A B 16 _ ⟨-1, 1, -1⟩ ⟨-1, -1, -1⟩ ⟨-1, -1, 1⟩ p1 p2 p3
      (vertex_at_eq _ _ 0 3 _ rfl rfl) (vertex_at_eq _ _ 1 0 _ rfl rfl)
      (vertex_at_eq _ _ 2 4 _ rfl rfl) (by simp only [face_cross]; norm_num) l1 l2 l3

/-- The `normalLength` of every face of the drawn pyramid is `sqrt 20 * scale^2`. -/
theorem pyramid_face_length (scale A B : ℝ) :
    ∀ f ∈ (Pyramid.new scale).faces, ∀ p1 p2 p3 : Point3D ℝ,
      vertex_at (rotated_vertices (Pyramid.new scale).vertices (Pyramid.new scale).scale A B)
        f 0 = some p1 →
      vertex_at (rotated_vertices (Pyramid.new scale).vertices (Pyramid.new scale).scale A B)
        f 1 = some p2 →
      vertex_at (rotated_vertices (Pyramid.new scale).vertices (Pyramid.new scale).scale A B)
        f 2 = some p3 →
      normal_length p1 p2 p3 = Real.sqrt 20 * (scale * scale) := by
  intro f hf p1 p2 p3 l1 l2 l3
  simp only [Pyramid.new, List.mem_cons, List.mem_singleton, List.not_mem_nil, or_false] at hf
  rcases hf with rfl | rfl | rfl | rfl
  · exact drawn_face_length _ scale A B 20 _ ⟨0, 0, 1⟩ ⟨-1, -1, -1⟩ ⟨1, -1, -1⟩ p1 p2 p3
      (vertex_at_eq _ _ 0 0 _ rfl rfl) (vertex_at_eq _ _ 1 1 _ rfl rfl)
      (vertex_at_eq _ _ 2 2 _ rfl rfl) (by simp only [face_cross]; norm_num) l1 l2 l3
  · exact drawn_face_length _ scale A B 20 _ ⟨0, 0, 1⟩ ⟨1, -1, -1⟩ ⟨1, 1, -1⟩ p1 p2 p3
      (vertex_at_eq _ _ 0 0 _ rfl rfl) (vertex_at_eq _ _ 1 2 _ rfl rfl)
      (vertex_at_eq _ _ 2 3 _ rfl rfl) (by simp only [face_cross]; norm_num) l1 l2 l3
  · exact drawn_face_length _ scale A B 20 _ ⟨0, 0, 1⟩ ⟨1, 1, -1⟩ ⟨-1, 1, -1⟩ p1 p2 p3
      (vertex_at_eq _ _ 0 0 _ rfl rfl) (vertex_at_eq _ _ 1 3 _ rfl rfl)
      (vertex_at_eq _ _ 2 4 _ rfl rfl) (by simp only [face_cross]; norm_num) l1 l2 l3
  · exact drawn_face_length _ scale A B 20 _ ⟨0, 0, 1⟩ ⟨-1, 1, -1⟩ ⟨-1, -1, -1⟩ p1 p2 p3
      (vertex_at_eq _ _ 0 0 _ rfl rfl) (vertex_at_eq _ _ 1 4 _ rfl rfl)
      (vertex_at_eq _ _ 2 1 _ rfl rfl) (by simp only [face_cross]; norm_num) l1 l2 l3

/-- The first triangle of a grid cell of the first row of the sphere, drawn:
its first and third corners are the same point. -/
theorem sphere_first_triangle_pole (m n : Int) (scale A B : ℝ)
    (i j : Nat) (hi0 : i = 0) (hi : (i : Int) < m) (hj : (j : Int) < n) (p1 p2 p3 : Point3D ℝ)
    (l1 : vertex_at (rotated_vertices (sphere_vertices m n) scale A B)
      [(i : Int) * (n + 1) + (j : Int), (i : Int) * (n + 1) + (j : Int) + n + 1,
        (i : Int) * (n + 1) + (j : Int) + 1] 0 = some p1)
    (l2 : vertex_at (rotated_vertices (sphere_vertices m n) scale A B)
      [(i : Int) * (n + 1) + (j : Int), (i : Int) * (n + 1) + (j : Int) + n + 1,
        (i : Int) * (n + 1) + (j : Int) + 1] 1 = some p2)
    (l3 : vertex_at (rotated_vertices (sphere_vertices m n) scale A B)
      [(i : Int) * (n + 1) + (j : Int), (i : Int) * (n + 1) + (j : Int) + n + 1,
        (i : Int) * (n + 1) + (j : Int) + 1] 2 = some p3) :
    p1 = p3 ∧ face_cross p1 p2 p3 = ⟨0, 0, 0⟩ ∧ normal_length p1 p2 p3 = 0 := by
  subst hi0
  have h1 := sphere_vertex_at m n scale A B 0 j (by omega) (by omega)
    [((0 : Nat) : Int) * (n + 1) + (j : Int), ((0 : Nat) : Int) * (n + 1) + (j : Int) + n + 1,
      ((0 : Nat) : Int) * (n + 1) + (j : Int) + 1] 0 rfl
  have h2 := sphere_vertex_at m n scale A B (0 + 1) j (by omega) (by omega)
    [((0 : Nat) : Int) * (n + 1) + (j : Int), ((0 : Nat) : Int) * (n + 1) + (j : Int) + n + 1,
      ((0 : Nat) : Int) * (n + 1) + (j : Int) + 1] 1 (by
        simp only [List.getElem?_cons_succ, List.getElem?_cons_zero, Option.some.injEq]
        push_cast
        ring)
  have h3 := sphere_vertex_at m n scale A B 0 (j + 1) (by omega) (by omega)
    [((0 : Nat) : Int) * (n + 1) + (j : Int), ((0 : Nat) : Int) * (n + 1) + (j : Int) + n + 1,
      ((0 : Nat) : Int) * (n + 1) + (j : Int) + 1] 2 (by
        simp only [List.getElem?_cons_succ, List.getElem?_cons_zero, Option.some.injEq]
        push_cast
        ring)
  have hc : face_cross (sphere_point m n 0 j) (sphere_point m n (0 + 1) j)
      (sphere_point m n 0 (j + 1)) = ⟨0, 0, 0⟩ := by
    rw [sphere_point_row_zero, sphere_point_row_zero]
    simp [face_cross]
  have hz := drawn_face_zero _ scale A B _ _ _ _ p1 p2 p3 h1 h2 h3 hc l1 l2 l3
  refine ⟨?_, hz⟩
  rw [h1] at l1
  rw [h3] at l3
  rw [sphere_point_row_zero] at l1 l3
  exact (Option.some.inj l1).symm.trans (Option.some.inj l3)

/-- The first triangle of the grid cell `(i, j)` of the sphere, drawn, when
the sine of the latitude of row `i` is nonzero, rows `i` and `i + 1` have
different heights and columns `j` and `j + 1` different directions. -/
theorem sphere_first_triangle_ne (m n : Int) (scale A B : ℝ) (hscale : scale ≠ 0)
    (i j : Nat) (hi : (i : Int) < m) (hj : (j : Int) < n)
    (hs : Real.sin (M_PI * (i : ℝ) / (m : ℝ)) ≠ 0)
    (hk : Real.cos (M_PI * (i : ℝ) / (m : ℝ)) ≠ Real.cos (M_PI * ((i + 1 : Nat) : ℝ) / (m : ℝ)))
    (hphi : ¬ (Real.cos (2 * M_PI * (j : ℝ) / (n : ℝ))
        = Real.cos (2 * M_PI * ((j + 1 : Nat) : ℝ) / (n : ℝ))
      ∧ Real.sin (2 * M_PI * (j : ℝ) / (n : ℝ))
        = Real.sin (2 * M_PI * ((j + 1 : Nat) : ℝ) / (n : ℝ))))
    (p1 p2 p3 : Point3D ℝ)
    (l1 : vertex_at (rotated_vertices (sphere_vertices m n) scale A B)
      [(i : Int) * (n + 1) + (j : Int), (i : Int) * (n + 1) + (j : Int) + n + 1,
        (i : Int) * (n + 1) + (j : Int) + 1] 0 = some p1)
    (l2 : vertex_at (rotated_vertices (sphere_vertices m n) scale A B)
      [(i : Int) * (n + 1) + (j : Int), (i : Int) * (n + 1) + (j : Int) + n + 1,
        (i : Int) * (n + 1) + (j : Int) + 1] 1 = some p2)
    (l3 : vertex_at (rotated_vertices (sphere_vertices m n) scale A B)
      [(i : Int) * (n + 1) + (j : Int), (i : Int) * (n + 1) + (j : Int) + n + 1,
        (i : Int) * (n + 1) + (j : Int) + 1] 2 = some p3) :
    face_cross p1 p2 p3 ≠ ⟨0, 0, 0⟩ ∧ normal_length p1 p2 p3 ≠ 0 := by
  have h1 := sphere_vertex_at m n scale A B i j (by omega) (by omega)
    [(i : Int) * (n + 1) + (j : Int), (i : Int) * (n + 1) + (j : Int) + n + 1,
      (i : Int) * (n + 1) + (j : Int) + 1] 0 rfl
  have h2 := sphere_vertex_at m n scale A B (i + 1) j (by omega) (by omega)
    [(i : Int) * (n + 1) + (j : Int), (i : Int) * (n + 1) + (j : Int) + n + 1,
      (i : Int) * (n + 1) + (j : Int) + 1] 1 (by
        simp only [List.getElem?_cons_succ, List.getElem?_cons_zero, Option.some.injEq]
        push_cast
        ring)
  have h3 := sphere_vertex_at m n scale A B i (j + 1) (by omega) (by omega)
    [(i : Int) * (n + 1) + (j : Int), (i : Int) * (n + 1) + (j : Int) + n + 1,
      (i : Int) * (n + 1) + (j : Int) + 1] 2 (by
        simp only [List.getElem?_cons_succ, List.getElem?_cons_zero, Option.some.injEq]
        push_cast
        ring)
  have hc : face_cross (sphere_point m n i j) (sphere_point m n (i + 1) j)
      (sphere_point m n i (j + 1)) ≠ ⟨0, 0, 0⟩ :=
    first_triangle_cross_ne _ _ _ _ _ _ _ _ hs hk hphi
  exact drawn_face_ne_zero _ scale A B hscale _ _ _ _ p1 p2 p3 h1 h2 h3 hc l1 l2 l3

/-- The second triangle of the grid cell `(i, j)` of the sphere, drawn, when
the sine of the latitude of row `i + 1` is nonzero, rows `i` and `i + 1` have
different heights and columns `j` and `j + 1` different directions. -/
theorem sphere_second_triangle_ne (m n : Int) (scale A B : ℝ) (hscale : scale ≠ 0)
    (i j : Nat) (hi : (i : Int) < m) (hj : (j : Int) < n)
    (hs : Real.sin (M_PI * ((i + 1 : Nat) : ℝ) / (m : ℝ)) ≠ 0)
    (hk : Real.cos (M_PI * (i : ℝ) / (m : ℝ)) ≠ Real.cos (M_PI * ((i + 1 : Nat) : ℝ) / (m : ℝ)))
    (hphi : ¬ (Real.cos (2 * M_PI * (j : ℝ) / (n : ℝ))
        = Real.cos (2 * M_PI * ((j + 1 : Nat) : ℝ) / (n : ℝ))
      ∧ Real.sin (2 * M_PI * (j : ℝ) / (n : ℝ))
        = Real.sin (2 * M_PI * ((j + 1 : Nat) : ℝ) / (n : ℝ))))
    (p1 p2 p3 : Point3D ℝ)
    (l1 : vertex_at (rotated_vertices (sphere_vertices m n) scale A B)
      [(i : Int) * (n + 1) + (j : Int) + n + 1, (i : Int) * (n + 1) + (j : Int) + n + 1 + 1,
        (i : Int) * (n + 1) + (j : Int) + 1] 0 = some p1)
    (l2 : vertex_at (rotated_vertices (sphere_vertices m n) scale A B)
      [(i : Int) * (n + 1) + (j : Int) + n + 1, (i : Int) * (n + 1) + (j : Int) + n + 1 + 1,
        (i : Int) * (n + 1) + (j : Int) + 1] 1 = some p2)
    (l3 : vertex_at (rotated_vertices (sphere_vertices m n) scale A B)
      [(i : Int) * (n + 1) + (j : Int) + n + 1, (i : Int) * (n + 1) + (j : Int) + n + 1 + 1,
        (i : Int) * (n + 1) + (j : Int) + 1] 2 = some p3) :
    face_cross p1 p2 p3 ≠ ⟨0, 0, 0⟩ ∧ normal_length p1 p2 p3 ≠ 0 := by
  have h1 := sphere_vertex_at m n scale A B (i + 1) j (by omega) (by omega)
    [(i : Int) * (n + 1) + (j : Int) + n + 1, (i : Int) * (n + 1) + (j : Int) + n + 1 + 1,
      (i : Int) * (n + 1) + (j : Int) + 1] 0 (by
        simp only [List.getElem?_cons_zero, Option.some.injEq]
        push_cast
        ring)
  have h2 := sphere_vertex_at m n scale A B (i + 1) (j + 1) (by omega) (by omega)
    [(i : Int) * (n + 1) + (j : Int) + n + 1, (i : Int) * (n + 1) + (j : Int) + n + 1 + 1,
      (i : Int) * (n + 1) + (j : Int) + 1] 1 (by
        simp only [List.getElem?_cons_succ, List.getElem?_cons_zero, Option.some.injEq]
        push_cast
        ring)
  have h3 := sphere_vertex_at m n scale A B i (j + 1) (by omega) (by omega)
    [(i : Int) * (n + 1) + (j : Int) + n + 1, (i : Int) * (n + 1) + (j : Int) + n + 1 + 1,
      (i : Int) * (n + 1) + (j : Int) + 1] 2 (by
        simp only [List.getElem?_cons_succ, List.getElem?_cons_zero, Option.some.injEq]
        push_cast
        ring)
  have hc : face_cross (sphere_point m n (i + 1) j) (sphere_point m n (i + 1) (j + 1))
      (sphere_point m n i (j + 1)) ≠ ⟨0, 0, 0⟩ :=
    second_triangle_cross_ne _ _ _ _ _ _ _ _ hs hk hphi
  exact drawn_face_ne_zero _ scale A B hscale _ _ _ _ p1 p2 p3 h1 h2 h3 hc l1 l2 l3

end NormalClaims

section NormalClaims2

/-- C12, counterexample.  The sphere of `main`, `Sphere(10, 10, 2.0)`, has the
face {0, 11, 1} (grid cell `i = j = 0`); its first and third corners are the same
rotated vertex (both model vertices are the pole (0,0,1)), so for the first
frame `A = B = 0` the cross product of its edge vectors is (0,0,0) and
`normalLength` is 0: the normalisation in `Sphere::draw` divides by zero. -/
theorem sphere_pole_face_degenerate :
    [0, 11, 1] ∈ sphere.faces ∧
    ∃ p1 p2 p3 : Point3D ℝ,
      vertex_at (rotated_vertices sphere.vertices sphere.scale 0 0) [0, 11, 1] 0 = some p1 ∧
      vertex_at (rotated_vertices sphere.vertices sphere.scale 0 0) [0, 11, 1] 1 = some p2 ∧
      vertex_at (rotated_vertices sphere.vertices sphere.scale 0 0) [0, 11, 1] 2 = some p3 ∧
      p1 = p3 ∧ face_cross p1 p2 p3 = ⟨0, 0, 0⟩ ∧ normal_length p1 p2 p3 = 0 := by
  have hface : [((0 : Nat) : Int) * (10 + 1) + ((0 : Nat) : Int),
      ((0 : Nat) : Int) * (10 + 1) + ((0 : Nat) : Int) + 10 + 1,
      ((0 : Nat) : Int) * (10 + 1) + ((0 : Nat) : Int) + 1] = [0, 11, 1] := by decide
  have h1 := sphere_vertex_at 10 10 2.0 0 0 0 0 (by decide) (by decide) [0, 11, 1] 0 (by decide)
  have h2 := sphere_vertex_at 10 10 2.0 0 0 1 0 (by decide) (by decide) [0, 11, 1] 1 (by decide)
  have h3 := sphere_vertex_at 10 10 2.0 0 0 0 1 (by decide) (by decide) [0, 11, 1] 2 (by decide)
  have key := sphere_first_triangle_pole 10 10 2.0 0 0 0 0 rfl (by decide) (by decide)
    _ _ _ (hface ▸ h1) (hface ▸ h2) (hface ▸ h3)
  have hmem : [0, 11, 1] ∈ sphere.faces := by
    simp only [sphere, Sphere.new, sphere_faces, List.mem_flatMap, List.mem_range]
    exact ⟨0, by decide, 0, by decide, by decide⟩
  exact ⟨hmem, _, _, _, h1, h2, h3, key⟩

/-- C12, amended.  For every scale and rotation `normalLength` is
`4 * scale^2` for each face of the Cube and `sqrt 20 * scale^2` for each face of
the Pyramid; for the shapes of `main`, `Cube(1.5)` and `Pyramid(1.5)`, it is `9`
resp. `sqrt 20 * 9/4`, the cross product is nonzero and the normalisation does
not divide by zero.  For every Sphere(m, n), scale and rotation, the first
triangle {first, second, first+1} of each grid cell of the row `i = 0` has
coincident first and third corners, cross product (0,0,0) and
`normalLength = 0`.  The faces of the sphere of `main`, `Sphere(10, 10, 2.0)`,
are the two triangles of the grid cells `(i, j)`, `i, j < 10`; for every rotation
the first triangle of every row `i ≥ 1` and the second triangle
{second, second+1, first+1} of every row `i ≤ 8` have a nonzero cross product
and `normalLength ≠ 0`.  (Nothing is stated about the second triangles of the
last row, whose two last-row corners nearly coincide.) -/
theorem face_normals (scale A B : ℝ) (m n : Int) :
    (∀ f ∈ (Cube.new scale).faces, ∀ p1 p2 p3 : Point3D ℝ,
      vertex_at (rotated_vertices (Cube.new scale).vertices (Cube.new scale).scale A B) f 0
        = some p1 →
      vertex_at (rotated_vertices (Cube.new scale).vertices (Cube.new scale).scale A B) f 1
        = some p2 →
      vertex_at (rotated_vertices (Cube.new scale).vertices (Cube.new scale).scale A B) f 2
        = some p3 →
      normal_length p1 p2 p3 = 4 * (scale * scale)) ∧
    (∀ f ∈ (Pyramid.new scale).faces, ∀ p1 p2 p3 : Point3D ℝ,
      vertex_at (rotated_vertices (Pyramid.new scale).vertices (Pyramid.new scale).scale A B)
        f 0 = some p1 →
      vertex_at (rotated_vertices (Pyramid.new scale).vertices (Pyramid.new scale).scale A B)
        f 1 = some p2 →
      vertex_at (rotated_vertices (Pyramid.new scale).vertices (Pyramid.new scale).scale A B)
        f 2 = some p3 →
      normal_length p1 p2 p3 = Real.sqrt 20 * (scale * scale)) ∧
    (∀ f ∈ cube.faces, ∀ p1 p2 p3 : Point3D ℝ,
      vertex_at (rotated_vertices cube.vertices cube.scale A B) f 0 = some p1 →
      vertex_at (rotated_vertices cube.vertices cube.scale A B) f 1 = some p2 →
      vertex_at (rotated_vertices cube.vertices cube.scale A B) f 2 = some p3 →
      normal_length p1 p2 p3 = 9 ∧ normal_length p1 p2 p3 ≠ 0 ∧
      face_cross p1 p2 p3 ≠ ⟨0, 0, 0⟩) ∧
    (∀ f ∈ pyramid.faces, ∀ p1 p2 p3 : Point3D ℝ,
      vertex_at (rotated_vertices pyramid.vertices pyramid.scale A B) f 0 = some p1 →
      vertex_at (rotated_vertices pyramid.vertices pyramid.scale A B) f 1 = some p2 →
      vertex_at (rotated_vertices pyramid.vertices pyramid.scale A B) f 2 = some p3 →
      normal_length p1 p2 p3 = Real.sqrt 20 * (9 / 4) ∧ normal_length p1 p2 p3 ≠ 0 ∧
      face_cross p1 p2 p3 ≠ ⟨0, 0, 0⟩) ∧
    (∀ i j : Nat, i = 0 → (i : Int) < m → (j : Int) < n → ∀ p1 p2 p3 : Point3D ℝ,
      vertex_at (rotated_vertices (Sphere.new m n scale).vertices (Sphere.new m n scale).scale
        A B) [(i : Int) * (n + 1) + (j : Int), (i : Int) * (n + 1) + (j : Int) + n + 1,
          (i : Int) * (n + 1) + (j : Int) + 1] 0 = some p1 →
      vertex_at (rotated_vertices (Sphere.new m n scale).vertices (Sphere.new m n scale).scale
        A B) [(i : Int) * (n + 1) + (j : Int), (i : Int) * (n + 1) + (j : Int) + n + 1,
          (i : Int) * (n + 1) + (j : Int) + 1] 1 = some p2 →
      vertex_at (rotated_vertices (Sphere.new m n scale).vertices (Sphere.new m n scale).scale
        A B) [(i : Int) * (n + 1) + (j : Int), (i : Int) * (n + 1) + (j : Int) + n + 1,
          (i : Int) * (n + 1) + (j : Int) + 1] 2 = some p3 →
      p1 = p3 ∧ face_cross p1 p2 p3 = ⟨0, 0, 0⟩ ∧ normal_length p1 p2 p3 = 0) ∧
    (∀ f ∈ sphere.faces, ∃ i j : Nat, (i : Int) < 10 ∧ (j : Int) < 10 ∧
      (f = [(i : Int) * (10 + 1) + (j : Int), (i : Int) * (10 + 1) + (j : Int) + 10 + 1,
          (i : Int) * (10 + 1) + (j : Int) + 1] ∨
        f = [(i : Int) * (10 + 1) + (j : Int) + 10 + 1,
          (i : Int) * (10 + 1) + (j : Int) + 10 + 1 + 1,
          (i : Int) * (10 + 1) + (j : Int) + 1])) ∧
    (∀ i j : Nat, 1 ≤ i → (i : Int) < 10 → (j : Int) < 10 → ∀ p1 p2 p3 : Point3D ℝ,
      vertex_at (rotated_vertices sphere.vertices sphere.scale A B)
        [(i : Int) * (10 + 1) + (j : Int), (i : Int) * (10 + 1) + (j : Int) + 10 + 1,
          (i : Int) * (10 + 1) + (j : Int) + 1] 0 = some p1 →
      vertex_at (rotated_vertices sphere.vertices sphere.scale A B)
        [(i : Int) * (10 + 1) + (j : Int), (i : Int) * (10 + 1) + (j : Int) + 10 + 1,
          (i : Int) * (10 + 1) + (j : Int) + 1] 1 = some p2 →
      vertex_at (rotated_vertices sphere.vertices sphere.scale A B)
        [(i : Int) * (10 + 1) + (j : Int), (i : Int) * (10 + 1) + (j : Int) + 10 + 1,
          (i : Int) * (10 + 1) + (j : Int) + 1] 2 = some p3 →
      face_cross p1 p2 p3 ≠ ⟨0, 0, 0⟩ ∧ normal_length p1 p2 p3 ≠ 0) ∧
    (∀ i j : Nat, (i : Int) + 1 < 10 → (j : Int) < 10 → ∀ p1 p2 p3 : Point3D ℝ,
      vertex_at (rotated_vertices sphere.vertices sphere.scale A B)
        [(i : Int) * (10 + 1) + (j : Int) + 10 + 1,
          (i : Int) * (10 + 1) + (j : Int) + 10 + 1 + 1,
          (i : Int) * (10 + 1) + (j : Int) + 1] 0 = some p1 →
      vertex_at (rotated_vertices sphere.vertices sphere.scale A B)
        [(i : Int) * (10 + 1) + (j : Int) + 10 + 1,
          (i : Int) * (10 + 1) + (j : Int) + 10 + 1 + 1,
          (i : Int) * (10 + 1) + (j : Int) + 1] 1 = some p2 →
      vertex_at (rotated_vertices sphere.vertices sphere.scale A B)
        [(i : Int) * (10 + 1) + (j : Int) + 10 + 1,
          (i : Int) * (10 + 1) + (j : Int) + 10 + 1 + 1,
          (i : Int) * (10 + 1) + (j : Int) + 1] 2 = some p3 →
      face_cross p1 p2 p3 ≠ ⟨0, 0, 0⟩ ∧ normal_length p1 p2 p3 ≠ 0) := by
  have hsphere_scale : (2.0 : ℝ) ≠ 0 := by norm_num
  refine ⟨cube_face_length scale A B, pyramid_face_length scale A B, ?_, ?_, ?_,
    fun f hf => sphere_faces_mem 10 10 f hf, ?_, ?_⟩
  · intro f hf p1 p2 p3 l1 l2 l3
    have h := cube_face_length 1.5 A B f hf p1 p2 p3 l1 l2 l3
    have h9 : normal_length p1 p2 p3 = 9 := by
      rw [h]
      norm_num
    have hne : normal_length p1 p2 p3 ≠ 0 := by
      rw [h9]
      norm_num
    exact ⟨h9, hne, face_cross_ne_of_length p1 p2 p3 hne⟩
  · intro f hf p1 p2 p3 l1 l2 l3
    have h := pyramid_face_length 1.5 A B f hf p1 p2 p3 l1 l2 l3
    have hv : normal_length p1 p2 p3 = Real.sqrt 20 * (9 / 4) := by
      rw [h]
      norm_num
    have hne : normal_length p1 p2 p3 ≠ 0 := by
      rw [hv]
      have : 0 < Real.sqrt 20 := Real.sqrt_pos.2 (by norm_num)
      positivity
    exact ⟨hv, hne, face_cross_ne_of_length p1 p2 p3 hne⟩
  · intro i j hi0 hi hj p1 p2 p3 l1 l2 l3
    exact sphere_first_triangle_pole m n scale A B i j hi0 hi hj p1 p2 p3 l1 l2 l3
  · intro i j hi1 hi hj p1 p2 p3 l1 l2 l3
    exact sphere_first_triangle_ne 10 10 2.0 A B hsphere_scale i j hi hj
      (main_sin_theta_ne i hi1 (by omega)) (main_cos_theta_ne i (by omega)) (main_phi_ne j)
      p1 p2 p3 l1 l2 l3
  · intro i j hi hj p1 p2 p3 l1 l2 l3
    exact sphere_second_triangle_ne 10 10 2.0 A B hsphere_scale i j (by omega) hj
      (main_sin_theta_ne (i + 1) (by omega) (by omega)) (main_cos_theta_ne i (by omega))
      (main_phi_ne j) p1 p2 p3 l1 l2 l3

/-- Witness for C12 (amended): the face {0,1,2,3} of the cube of `main`, not
rotated, has `normalLength = 9`. -/
theorem face_normals_witness :
    normal_length
      (rotate_point ⟨(⟨-1, -1, -1⟩ : Point3D ℝ).x * 1.5, (⟨-1, -1, -1⟩ : Point3D ℝ).y * 1.5,
        (⟨-1, -1, -1⟩ : Point3D ℝ).z * 1.5⟩ 0 0)
      (rotate_point ⟨(⟨1, -1, -1⟩ : Point3D ℝ).x * 1.5, (⟨1, -1, -1⟩ : Point3D ℝ).y * 1.5,
        (⟨1, -1, -1⟩ : Point3D ℝ).z * 1.5⟩ 0 0)
      (rotate_point ⟨(⟨1, 1, -1⟩ : Point3D ℝ).x * 1.5, (⟨1, 1, -1⟩ : Point3D ℝ).y * 1.5,
        (⟨1, 1, -1⟩ : Point3D ℝ).z * 1.5⟩ 0 0) = 9 :=
  ((face_normals 1.5 0 0 10 10).2.2.1 [0, 1, 2, 3]
    (by simp [cube, Cube.new]) _ _ _
    (vertex_at_eq _ _ 0 0 _ rfl rfl) (vertex_at_eq _ _ 1 1 _ rfl rfl)
    (vertex_at_eq _ _ 2 2 _ rfl rfl)).1

end NormalClaims2

end Shapes3D
